import Mathlib

/-!
# SMTK attribute system: version-3 XML parser and reference components

A shallow embedding of `smtk/io/XmlDocV3Parser.cxx` and of
`attribute/AttributeReferenceComponent.cxx`, followed by theorems about them.

Conventions of the embedding:
* an XML tree is a value of `XmlNode`; `xml_node::child(name)` is the first child of
  that name, a null node or attribute is `none`;
* mutable objects (logger, definition, item, link table, resource) are passed and
  returned explicitly;
* a null-pointer dereference or an out-of-range vector access is the result `none`.
-/

set_option autoImplicit false

/-! ## XML documents (pugixml) -/

/-- An XML node: element name, attributes in document order, the text returned by
`text().get()`, and the child nodes in document order. -/
inductive XmlNode where
  | mk (name : String) (attrs : List (String × String)) (text : String)
      (children : List XmlNode) : XmlNode

namespace XmlNode

/-- Tag name of a node, `xml_node::name()`. -/
def name : XmlNode → String
  | mk n _ _ _ => n

/-- Attributes of a node, in document order. -/
def attrs : XmlNode → List (String × String)
  | mk _ a _ _ => a

/-- Text of a node, `xml_node::text().get()`. -/
def text : XmlNode → String
  | mk _ _ t _ => t

/-- Children of a node, `first_child()` followed by `next_sibling()`. -/
def children : XmlNode → List XmlNode
  | mk _ _ _ c => c

/-- Value of the first attribute called `key`, `none` for the null attribute. -/
def attr (n : XmlNode) (key : String) : Option String :=
  (n.attrs.find? (fun a => a.1 == key)).map Prod.snd

/-- First child called `key`, `none` for the null node: `xml_node::child(key)`. -/
def child (n : XmlNode) (key : String) : Option XmlNode :=
  n.children.find? (fun c => c.name == key)

/-- All children called `key`: `child(key)` followed by `next_sibling(key)`. -/
def childrenNamed (n : XmlNode) (key : String) : List XmlNode :=
  n.children.filter (fun c => c.name == key)

end XmlNode

/-- Text of the child `key` of an optional node; the null node has empty text:
`node.child(key).text().get()`. -/
def childText (n : Option XmlNode) (key : String) : String :=
  match n with
  | none => ""
  | some x =>
    match x.child key with
    | none => ""
    | some c => c.text

/-- Value of attribute `key` of an optional node, empty for a null node or attribute:
`node.attribute(key).value()` and `as_string()`. -/
def attrValue (n : Option XmlNode) (key : String) : String :=
  match n with
  | none => ""
  | some x => (x.attr key).getD ""

/-- Digits of a decimal numeral, most significant first. -/
def digitsValue (cs : List Char) : Nat :=
  cs.foldl (fun acc c => 10 * acc + (c.toNat - 48)) 0

/-- Modelled from the spec: the permissive text-to-unsigned conversion of pugixml
(`as_uint`), which is not part of the sources; it yields the default 0 on malformed
input. -/
def textAsUInt (s : String) : Nat :=
  match s.data with
  | [] => 0
  | cs => if cs.all Char.isDigit then digitsValue cs else 0

/-- Modelled from the spec: the permissive text-to-integer conversion of pugixml
(`as_int`), which is not part of the sources; it yields the default 0 on malformed
input. -/
def textAsInt (s : String) : Int :=
  match s.data with
  | [] => 0
  | '-' :: cs => if cs.all Char.isDigit then - (digitsValue cs : Int) else 0
  | cs => if cs.all Char.isDigit then (digitsValue cs : Int) else 0

/-- Integer value of an optional attribute, `xml_attribute::as_int()`: the null
attribute gives 0. -/
def as_int (a : Option String) : Int :=
  match a with
  | none => 0
  | some s => textAsInt s

/-- Unsigned value of an optional attribute, `xml_attribute::as_uint()`: the null
attribute gives 0. -/
def as_uint (a : Option String) : Nat :=
  match a with
  | none => 0
  | some s => textAsUInt s

/-! ## Logger -/

/-- Severity of a log record. -/
inductive Severity where
  | warning
  | error
  deriving DecidableEq, Repr

/-- One record of `smtk::io::Logger`. -/
structure LogRecord where
  severity : Severity
  message : String
  deriving DecidableEq, Repr

/-- The logger: its records, oldest first. -/
abbrev Logger := List LogRecord

/-- Appends an error record (`smtkErrorMacro`). -/
def logError (logger : Logger) (msg : String) : Logger :=
  logger ++ [⟨Severity.error, msg⟩]

/-- Appends a warning record (`smtkWarningMacro`). -/
def logWarning (logger : Logger) (msg : String) : Logger :=
  logger ++ [⟨Severity.warning, msg⟩]

/-! ## Items of an attribute -/

/-- Modelled from the spec: the item variants the configuration code tells apart by
`dynamic_pointer_cast` (the item classes are not part of the sources). A void item; a
string item with discrete values, each value with the children that are active when it
is the value of the item; a group item with its child items; any other item. -/
inductive Item where
  | void (name : String) (isEnabled : Bool) : Item
  | string (name : String) (isEnabled : Bool) (value : Option String)
      (choices : List (String × List Item)) : Item
  | group (name : String) (isEnabled : Bool) (items : List Item) : Item
  | other (name : String) (isEnabled : Bool) : Item

/-- A `StringItemPtr`: the data of a string item. -/
structure StringItem where
  name : String
  isEnabled : Bool
  value : Option String
  choices : List (String × List Item)

/-- A `GroupItemPtr`: the data of a group item. -/
structure GroupItem where
  name : String
  isEnabled : Bool
  items : List Item

namespace Item

/-- The call `name()`. -/
def name : Item → String
  | void n _ => n
  | string n _ _ _ => n
  | group n _ _ => n
  | other n _ => n

/-- The call `setIsEnabled(b)`. -/
def setIsEnabled : Item → Bool → Item
  | void n _, b => void n b
  | string n _ v c, b => string n b v c
  | group n _ i, b => group n b i
  | other n _, b => other n b

/-- The cast `dynamic_pointer_cast<StringItem>`. -/
def asStringItem : Item → Option StringItem
  | string n e v c => some ⟨n, e, v, c⟩
  | _ => none

/-- The cast `dynamic_pointer_cast<GroupItem>`. -/
def asGroupItem : Item → Option GroupItem
  | group n e i => some ⟨n, e, i⟩
  | _ => none

/-- The cast `dynamic_pointer_cast<VoidItem>`, as a test. -/
def isVoid : Item → Bool
  | void _ _ => true
  | _ => false

end Item

/-- A string item seen as an item. -/
def StringItem.toItem (s : StringItem) : Item := Item.string s.name s.isEnabled s.value s.choices

/-- A group item seen as an item. -/
def GroupItem.toItem (g : GroupItem) : Item := Item.group g.name g.isEnabled g.items

/-- Replaces the first child list registered for the value `v` by `f` of it. -/
def mapChoice (f : List Item → List Item) (v : String) :
    List (String × List Item) → List (String × List Item)
  | [] => []
  | c :: cs => if c.1 = v then (c.1, f c.2) :: cs else c :: mapChoice f v cs

namespace StringItem

/-- True when `v` is one of the discrete values of the item. -/
def accepts (s : StringItem) (v : String) : Bool := s.choices.any (fun c => c.1 == v)

/-- Modelled from the spec: `setValue(v)` fails when the value is not a member of the
discrete values, otherwise succeeds and marks the element set. -/
def setValue (s : StringItem) (v : String) : Bool × StringItem :=
  if s.accepts v then (true, { s with value := some v }) else (false, s)

/-- The active children: the children of the current value. -/
def activeChildren (s : StringItem) : List Item :=
  match s.value with
  | none => []
  | some v =>
    match s.choices.find? (fun c => c.1 == v) with
    | some c => c.2
    | none => []

/-- The call `numberOfActiveChildrenItems()`. -/
def numberOfActiveChildrenItems (s : StringItem) : Nat := s.activeChildren.length

/-- The call `activeChildItem(0)`. -/
def activeChildItem0 (s : StringItem) : Option Item := s.activeChildren.head?

/-- Stores the state of the object that `activeChildItem(0)` points to. -/
def setActiveChildItem0 (s : StringItem) (child : Item) : StringItem :=
  match s.value with
  | none => s
  | some v => { s with choices := mapChoice (fun l => l.set 0 child) v s.choices }

end StringItem

/-! ## Definitions: local categories and tags -/

/-- Combination mode of a category set. -/
inductive CombinationMode where
  | Any
  | All
  deriving DecidableEq, Repr

/-- Modelled from the spec: `smtk::attribute::Categories::Set`, which is not part of
the sources: a category predicate with a combination mode, an inclusion set and an
exclusion set, each set with its own mode. -/
structure CategorySet where
  combinationMode : CombinationMode
  inclusionMode : CombinationMode
  exclusionMode : CombinationMode
  includedCategories : Finset String
  excludedCategories : Finset String
  deriving DecidableEq

namespace CategorySet

/-- The call `setCombinationMode`. -/
def setCombinationMode (c : CategorySet) (m : CombinationMode) : CategorySet :=
  { c with combinationMode := m }

/-- The call `setInclusionMode`. -/
def setInclusionMode (c : CategorySet) (m : CombinationMode) : CategorySet :=
  { c with inclusionMode := m }

/-- The call `setExclusionMode`. -/
def setExclusionMode (c : CategorySet) (m : CombinationMode) : CategorySet :=
  { c with exclusionMode := m }

/-- The call `insertInclusion`. -/
def insertInclusion (c : CategorySet) (s : String) : CategorySet :=
  { c with includedCategories := insert s c.includedCategories }

/-- The call `insertExclusion`. -/
def insertExclusion (c : CategorySet) (s : String) : CategorySet :=
  { c with excludedCategories := insert s c.excludedCategories }

end CategorySet

/-- Modelled from the spec: the part of `smtk::attribute::Definition` (not in the
sources) that the parser uses: the type name, the item-definition templates (each
given by the item it builds), the local categories and the tag set, a tag being a name
with a set of values. -/
structure Definition where
  type : String
  itemDefinitions : List Item
  localCategories : CategorySet
  tags : List (String × List String)

/-- The call `numberOfItemDefinitions()`. -/
def Definition.numberOfItemDefinitions (d : Definition) : Nat := d.itemDefinitions.length

/-- Modelled from the spec: `Definition::addTag`, not in the sources; a tag whose name
is already present is refused. -/
def Definition.addTag (d : Definition) (tag : String × List String) :
    Bool × Definition :=
  if d.tags.any (fun t => t.1 == tag.1) then (false, d)
  else (true, { d with tags := d.tags ++ [tag] })

/-- What the V3 parser takes from the older parsers and from `smtk::common`, none of
which is in the sources: how `XmlDocV1Parser::getCategoryComboMode` reads the text of
a combination attribute, `StringUtil::split`, and the definition part of
`XmlDocV2Parser::processDefinition`. -/
structure OlderParsers where
  comboModeOfText : String → Option CombinationMode
  split : String → String → List String
  processDefinitionV2 : XmlNode → Definition → Logger → Definition × Logger

namespace XmlDocV3Parser

/-- Modelled from the spec: `XmlDocV1Parser::getCategoryComboMode`, not in the
sources: a null attribute yields no mode (`false`), a present one yields the mode its
text names, if any. -/
def getCategoryComboMode (p : OlderParsers) (ccm : Option String) : Option CombinationMode :=
  match ccm with
  | none => none
  | some s => p.comboModeOfText s

/-- The loop `for (child = group.first_child(); child; child = child.next_sibling())
localCats.insertInclusion(child.text().get())`. -/
def insertInclusions (cs : List XmlNode) (c : CategorySet) : CategorySet :=
  cs.foldl (fun acc ch => acc.insertInclusion ch.text) c

/-- The same loop with `insertExclusion`. -/
def insertExclusions (cs : List XmlNode) (c : CategorySet) : CategorySet :=
  cs.foldl (fun acc ch => acc.insertExclusion ch.text) c

/-- Category part of `XmlDocV3Parser::processDefinition` (the code between the call of
the V2 parser and the `Tags` element). -/
def processDefinitionCategories (p : OlderParsers) (defNode : XmlNode)
    (c0 : CategorySet) : CategorySet :=
  -- the old style of category information
  let c1 := match getCategoryComboMode p (defNode.attr "CategoryCheckMode") with
    | some m => c0.setCombinationMode m
    | none => c0
  match defNode.child "CategoryInfo" with
  | some catInfoNode =>
    let c2 := match getCategoryComboMode p (catInfoNode.attr "Combination") with
      | some m => c1.setCombinationMode m
      | none => c1
    let c3 := match catInfoNode.child "Include" with
      | some catGroup =>
        let c := match getCategoryComboMode p (catGroup.attr "Combination") with
          | some m => c2.setInclusionMode m
          | none => c2
        insertInclusions catGroup.children c
      | none => c2
    match catInfoNode.child "Exclude" with
    | some catGroup =>
      let c := match getCategoryComboMode p (catGroup.attr "Combination") with
        | some m => c3.setExclusionMode m
        | none => c3
      insertExclusions catGroup.children c
    | none => c3
  | none =>
    match defNode.child "Categories" with
    | some catNodes => insertInclusions catNodes.children c1
    | none => c1

/-- One `Tag` element of the `Tags` loop of `processDefinition`. -/
def processTag (p : OlderParsers) (tagNode : XmlNode) (s : Definition × Logger) :
    Definition × Logger :=
  let nameValue := (tagNode.attr "Name").getD ""
  let values := tagNode.text
  let tag : String × List String :=
    if values.isEmpty then (nameValue, [])
    else (nameValue, p.split values ((tagNode.attr "Sep").getD ","))
  let r := s.1.addTag tag
  if r.1 then (r.2, s.2)
  else (r.2, logWarning s.2 ("Could not add tag \"" ++ nameValue ++ "\""))

/-- The V3-specific part of `XmlDocV3Parser::processDefinition`: categories, then
tags. -/
def processDefinitionV3 (p : OlderParsers) (defNode : XmlNode) (d : Definition)
    (logger : Logger) : Definition × Logger :=
  let d1 := { d with localCategories := processDefinitionCategories p defNode d.localCategories }
  match defNode.child "Tags" with
  | some tagsNode => (tagsNode.childrenNamed "Tag").foldl (fun s t => processTag p t s) (d1, logger)
  | none => (d1, logger)

/-- The method `XmlDocV3Parser::processDefinition`: the V2 parser first, then the V3
part. -/
def processDefinition (p : OlderParsers) (defNode : XmlNode) (d : Definition)
    (logger : Logger) : Definition × Logger :=
  let r := p.processDefinitionV2 defNode d logger
  processDefinitionV3 p defNode r.1 r.2

end XmlDocV3Parser

/-- The strings listed under the group `key` (`Include` or `Exclude`) of a
`CategoryInfo` node: the texts of the children of its first child `key`. -/
def groupTexts (catInfoNode : XmlNode) (key : String) : Finset String :=
  match catInfoNode.child key with
  | some catGroup => (catGroup.children.map XmlNode.text).toFinset
  | none => ∅

/-! ## Links, surrogates and reference items -/

/-- A UUID, identified with the text it is built from (`smtk::common::UUID(text)`). -/
abbrev UUID := String

/-- The key of one reference relation, `ReferenceItem::Key`: surrogate id and local
index. -/
abbrev Key := UUID × UUID

/-- The record `smtk::resource::Surrogate(index, typeName, id, location)`. -/
structure Surrogate where
  index : Nat
  typeName : String
  id : UUID
  location : String
  deriving DecidableEq, Repr

/-- One relation row of a surrogate entry: local index, source, target and role. -/
structure LinkRow where
  id : UUID
  left : UUID
  right : UUID
  role : Int
  deriving DecidableEq, Repr

/-- One entry of the link table of a resource: the surrogate record, the surrogate id
under which it is registered, the two ends, the role (`none` when the call gives none)
and the relation rows of that surrogate. -/
structure LinkEntry where
  surrogate : Surrogate
  id : UUID
  left : UUID
  right : UUID
  role : Option Int
  rows : List LinkRow
  deriving DecidableEq, Repr

/-- Modelled from the spec: the link and surrogate table `resource()->links().data()`,
which is not part of the sources: entries registered by surrogate id, oldest first. -/
structure LinkTable where
  entries : List LinkEntry
  deriving DecidableEq, Repr

/-- Appends a row to the first entry registered under `id`; `none` without one. -/
def insertRowInto : List LinkEntry → UUID → LinkRow → Option (List LinkEntry)
  | [], _, _ => none
  | e :: es, id, row =>
    if e.id = id then some ({ e with rows := e.rows ++ [row] } :: es)
    else (insertRowInto es id row).map (fun r => e :: r)

namespace LinkTable

/-- Modelled from the spec: `contains(surrogateId)`. -/
def contains (t : LinkTable) (id : UUID) : Bool :=
  t.entries.any (fun e => e.id == id)

/-- The entry registered under `id`, if any. -/
def entry (t : LinkTable) (id : UUID) : Option LinkEntry :=
  t.entries.find? (fun e => e.id == id)

/-- Modelled from the spec: `insert(surrogate, id, left, right, role)` registers a new
entry and is a no-op when the surrogate id is already registered: the existing
surrogate wins. -/
def insert (t : LinkTable) (s : Surrogate) (id left right : UUID) (role : Option Int) :
    LinkTable :=
  if t.contains id then t else ⟨t.entries ++ [⟨s, id, left, right, role, []⟩]⟩

/-- Modelled from the spec: `value(surrogateId).insert(localIndex, source, target,
role)` appends one relation row within that surrogate; `value` of an id that is not
registered has no result. -/
def insertRow (t : LinkTable) (id : UUID) (row : LinkRow) : Option LinkTable :=
  (insertRowInto t.entries id row).map LinkTable.mk

end LinkTable

/-- Modelled from the spec: the part of `smtk::attribute::ReferenceItem` (not in the
sources) that the parser uses: name, id of the owning attribute, required-value
count, extensible flag with maximum count (`none` for no maximum) and one object key
per element (`none` while unset). -/
structure ReferenceItem where
  name : String
  attributeId : UUID
  numberOfRequiredValues : Nat
  isExtensible : Bool
  maxNumberOfValues : Option Nat
  keys : List (Option Key)
  deriving DecidableEq, Repr

namespace ReferenceItem

/-- The call `numberOfValues()`. -/
def numberOfValues (item : ReferenceItem) : Nat := item.keys.length

/-- Resizes a key vector, new elements unset (`std::vector::resize`). -/
def resizeKeys (ks : List (Option Key)) (n : Nat) : List (Option Key) :=
  ks.take n ++ List.replicate (n - ks.length) none

/-- Modelled from the spec: `setNumberOfValues(n)`. An item with a fixed count never
changes its element count; an extensible item changes it within the required count and
the maximum. -/
def setNumberOfValues (item : ReferenceItem) (n : Nat) : Bool × ReferenceItem :=
  if item.numberOfValues = n then (true, item)
  else if !item.isExtensible then (false, item)
  else if n < item.numberOfRequiredValues then (false, item)
  else
    match item.maxNumberOfValues with
    | some m =>
      if m < n then (false, item) else (true, { item with keys := resizeKeys item.keys n })
    | none => (true, { item with keys := resizeKeys item.keys n })

/-- Modelled from the spec: `setObjectKey(i, key)`, whose index is an `int`, stores the
key of element `i` and fails when `i` is not an element of the item. -/
def setObjectKey (item : ReferenceItem) (i : Int) (key : Key) : Bool × ReferenceItem :=
  if 0 ≤ i ∧ i < item.keys.length then
    (true, { item with keys := item.keys.set i.toNat (some key) })
  else (false, item)

end ReferenceItem

/-- A call made by the parser on one of its collaborators: the reference item, the link
table of the owning resource, or the object lookup service of the spec (`find`,
`isOfType`, loading a resource). -/
inductive Call where
  | setNumberOfValues (n : Nat)
  | setObjectKey (i : Int) (key : Key)
  | linksContains (id : UUID)
  | linksInsert (s : Surrogate) (id left right : UUID)
  | linksValueInsert (id : UUID) (row : LinkRow)
  | lookupFind (id : UUID)
  | lookupIsOfType (typeName : String)
  | loadResource (location : String)
  deriving DecidableEq, Repr

/-- True for the calls of the object lookup service. -/
def Call.isLookup : Call → Bool
  | .lookupFind _ => true
  | .lookupIsOfType _ => true
  | .loadResource _ => true
  | _ => false

/-- What a reference item reaches through `item->attribute()->resource()`: the id of
the owning resource and the ids of the resources loaded in its manager. -/
structure ResourceContext where
  resourceId : UUID
  loadedResources : List UUID
  deriving DecidableEq, Repr

/-- The objects `processReferenceItem` works on: the item, the link table of the owning
resource, the logger, and the calls made so far. -/
structure RefState where
  item : ReferenceItem
  links : LinkTable
  logger : Logger
  calls : List Call
  deriving DecidableEq, Repr

namespace XmlDocV3Parser

/-- The `Key` element of a `Val`: the pair of the texts of `_1_` and `_2_`. -/
def valKey (val : XmlNode) : Key :=
  (childText (val.child "Key") "_1_", childText (val.child "Key") "_2_")

/-- The `Surrogate` element of a `Val`. -/
def valSurrogate (val : XmlNode) : Surrogate :=
  let surrogateNode := val.child "Surrogate"
  { index := as_uint (surrogateNode.bind (fun n => n.attr "Index"))
    typeName := attrValue surrogateNode "TypeName"
    id := attrValue surrogateNode "Id"
    location := attrValue surrogateNode "Location" }

/-- The relation row a `Val` asks for: local index `Key/_2_`, the owning attribute as
source, `RHS/_2_` as target, and the `Role` attribute read with `as_int`. -/
def valRow (val : XmlNode) (item : ReferenceItem) : LinkRow :=
  { id := (valKey val).2
    left := item.attributeId
    right := childText (val.child "RHS") "_2_"
    role := as_int (val.attr "Role") }

/-- The conversion `static_cast<int>(i)` of an index of type `std::size_t` to an `int` of
32 bits: the identity below 2^31, and a negative number for the other values of
`as_uint()`. -/
def static_cast_int (i : Nat) : Int :=
  if i % 2 ^ 32 < 2 ^ 31 then ((i % 2 ^ 32 : Nat) : Int)
  else ((i % 2 ^ 32 : Nat) : Int) - 2 ^ 32

/-- One value of `processReferenceItem` (the statements after the `Ith` checks, and
the same statements of the single-`Val` form with the index 0): the object key is set
at the index `i`, an `int`; the surrogate is registered unless its id is contained in
the table, and one row is inserted into the entry of that id. -/
def processReferenceVal (ctx : ResourceContext) (val : XmlNode) (i : Int) (s : RefState) :
    Option RefState :=
  let key := valKey val
  let item := (s.item.setObjectKey i key).2
  let rhs1 := childText (val.child "RHS") "_1_"
  let row := valRow val s.item
  let registered := s.links.contains key.1
  let links :=
    if !registered then s.links.insert (valSurrogate val) key.1 ctx.resourceId rhs1 none
    else s.links
  let calls := s.calls ++ [Call.setObjectKey i key, Call.linksContains key.1] ++
    (if !registered then [Call.linksInsert (valSurrogate val) key.1 ctx.resourceId rhs1]
     else []) ++ [Call.linksValueInsert key.1 row]
  match links.insertRow key.1 row with
  | none => none
  | some links2 => some { item := item, links := links2, logger := s.logger, calls := calls }

/-- Body of the loop over the `Val` children of `Values`. -/
def processValuesVal (ctx : ResourceContext) (n : Nat) (val : XmlNode) (s : RefState) :
    Option RefState :=
  match val.attr "Ith" with
  | none =>
    let logger := logError s.logger ("XML Attribute Ith is missing for Item: " ++ s.item.name)
    some { s with logger := logger }
  | some ith =>
    let i := textAsUInt ith
    if n ≤ i then
      let logger := logError s.logger
        ("XML Attribute Ith = " ++ toString i ++ " is out of range for Item: " ++ s.item.name)
      some { s with logger := logger }
    else processReferenceVal ctx val (static_cast_int i) s

/-- The loop `for (val = valsNode.child("Val"); val; val = val.next_sibling("Val"))`. -/
def processValues (ctx : ResourceContext) (n : Nat) : List XmlNode → RefState → Option RefState
  | [], s => some s
  | val :: vals, s =>
    match processValuesVal ctx n val s with
    | none => none
    | some s1 => processValues ctx n vals s1

/-- The first part of `processReferenceItem`: the number of values `n`. The result is
`Sum.inl` when the function returns there (the attribute `NumberOfValues` is missing),
otherwise `n` and the state after `setNumberOfValues`. -/
def referenceItemCount (node : XmlNode) (s : RefState) : RefState ⊕ (Nat × RefState) :=
  if s.item.numberOfRequiredValues = 0 || s.item.isExtensible then
    match node.attr "NumberOfValues" with
    | none =>
      let logger := logError s.logger
        ("XML Attribute NumberOfValues is missing for Item: " ++ s.item.name)
      Sum.inl { s with logger := logger }
    | some v =>
      let n := textAsUInt v
      Sum.inr (n, { s with item := (s.item.setNumberOfValues n).2
                           calls := s.calls ++ [Call.setNumberOfValues n] })
  else Sum.inr (s.item.numberOfValues, s)

/-- The method `XmlDocV3Parser::processReferenceItem`. -/
def processReferenceItem (ctx : ResourceContext) (node : XmlNode) (s : RefState) :
    Option RefState :=
  match referenceItemCount node s with
  | Sum.inl s1 => some s1
  | Sum.inr (n, s1) =>
    if n = 0 then some s1
    else
      match node.child "Values" with
      | some valsNode => processValues ctx n (valsNode.childrenNamed "Val") s1
      | none =>
        if s.item.numberOfRequiredValues = 1 then
          match node.child "Val" with
          | some val => processReferenceVal ctx val 0 s1
          | none => some s1
        else
          let logger := logError s1.logger
            ("XML Node Values is missing for Item: " ++ s1.item.name)
          some { s1 with logger := logger }

end XmlDocV3Parser

/-! ## Attributes, the resource, and configurations -/

/-- Modelled from the spec: an attribute instance (the class is not in the sources):
its name, unique within the resource, the items built from its definition, and the
local advance levels for reading and writing. -/
structure Attribute where
  name : String
  items : List Item
  advanceReadLevel : Option Nat
  advanceWriteLevel : Option Nat

/-- The call `item(0)`: the null pointer for an attribute without items. -/
def Attribute.item0 (a : Attribute) : Option Item := a.items.head?

/-- The call `setLocalAdvanceLevel(mode, level)`, mode 0 for reading, otherwise
writing. -/
def Attribute.setLocalAdvanceLevel (a : Attribute) (mode : Nat) (level : Nat) : Attribute :=
  if mode = 0 then { a with advanceReadLevel := some level }
  else { a with advanceWriteLevel := some level }

/-- Modelled from the spec: the part of the attribute resource (not in the sources)
that `processConfigurations` uses: its definitions, its attributes, whether the top
level analyses are exclusive, and the items of the definition that its analyses build
(`none` when no definition can be built). -/
structure Resource where
  definitions : List Definition
  attributes : List Attribute
  topLevelExclusive : Bool
  analysesItems : Option (List Item)

namespace Resource

/-- The call `findDefinition(type)`. -/
def findDefinition (r : Resource) (type : String) : Option Definition :=
  r.definitions.find? (fun d => d.type == type)

/-- True when the resource holds an attribute called `name`. -/
def hasAttribute (r : Resource) (name : String) : Bool :=
  r.attributes.any (fun a => a.name == name)

/-- Modelled from the spec: `analyses().buildAnalysesDefinition(resource, type)` adds
to the resource the definition its analyses describe; the null pointer when there is
none to build. -/
def buildAnalysesDefinition (r : Resource) (type : String) : Option (Definition × Resource) :=
  match r.analysesItems with
  | none => none
  | some items =>
    let d : Definition :=
      ⟨type, items, ⟨CombinationMode.Any, CombinationMode.Any, CombinationMode.Any, ∅, ∅⟩, []⟩
    some (d, { r with definitions := r.definitions ++ [d] })

/-- Modelled from the spec: `createAttribute(name, def)`; names are unique within the
resource, so the null pointer is returned when the name is in use; otherwise the new
attribute, with the items of its definition, is added to the resource. -/
def createAttribute (r : Resource) (name : String) (d : Definition) :
    Option (Attribute × Resource) :=
  if r.hasAttribute name then none
  else
    let a : Attribute := ⟨name, d.itemDefinitions, none, none⟩
    some (a, { r with attributes := r.attributes ++ [a] })

/-- Modelled from the spec: `removeAttribute(att)` takes the attribute out of the
resource. -/
def removeAttribute (r : Resource) (a : Attribute) : Resource :=
  { r with attributes := r.attributes.filter (fun b => !(b.name == a.name)) }

/-- Stores the state of an attribute object held by the resource. -/
def storeAttribute (r : Resource) (a : Attribute) : Resource :=
  { r with attributes := r.attributes.map (fun b => if b.name == a.name then a else b) }

end Resource

/-- Position and value of the first item called `name`: `container->find(name,
IMMEDIATE)`. -/
def findItem (items : List Item) (name : String) : Option (Nat × Item) :=
  match items.findIdx? (fun i => i.name == name) with
  | none => none
  | some idx => (items[idx]?).map (fun i => (idx, i))

namespace XmlDocV3Parser

mutual

/-- The helper `setExclusiveAnalysisConfiguration`; `attName` is
`item->attribute()->name()`. The result is the returned flag with the item and the
logger afterwards. -/
def setExclusiveAnalysisConfiguration (attName : String) :
    StringItem → XmlNode → Logger → Bool × StringItem × Logger
  | item, XmlNode.mk nodeName attrs text children, logger =>
    let analysisNode := XmlNode.mk nodeName attrs text children
    -- first get the type of analysis this node represents
    match analysisNode.attr "Type" with
    | none =>
      (false, item,
        logError logger ("Analysis node is missing Type xml attribute: " ++ item.name))
    | some type =>
      -- find the discrete index that corresponds to this value
      let r := item.setValue type
      if !r.1 then
        (false, r.2,
          logError logger ("Can not find analysis: " ++ type ++ " under: " ++ item.name))
      else
        let item1 := r.2
        if item1.numberOfActiveChildrenItems ≠ 0 then
          let stringItem := item1.activeChildItem0.bind Item.asStringItem
          if (analysisNode.child "Analysis").isSome then
            match stringItem with
            | some si =>
              let res := exclusiveChildren attName si children logger
              (res.1, item1.setActiveChildItem0 res.2.1.toItem, res.2.2)
            | none =>
              match item1.activeChildItem0.bind Item.asGroupItem with
              | none =>
                (false, item1, logError logger ("Analysis: " ++ type ++ " under: " ++ item.name
                  ++ " does not have proper children analyses structure!"
                  ++ "  Can not build configuration: " ++ attName))
              | some gi =>
                let res := helperChildren attName gi.name gi.items children logger
                (res.1, item1.setActiveChildItem0 (Item.group gi.name gi.isEnabled res.2.1),
                  res.2.2)
          else if stringItem.isSome then
            (false, item1, logError logger ("Analysis: " ++ type ++ " under: " ++ item.name
              ++ " has exclusive children analyses but no children "
              ++ "where specified in the configuration." ++ " Can not build configuration."))
          else (true, item1, logger)
        else if (analysisNode.child "Analysis").isSome then
          (true, item1, logWarning logger ("Analysis: " ++ type ++ " under: " ++ item.name
            ++ " does not have children analyses but children where specified in the"
            ++ " configuration." ++ " These will be ignored!"))
        else (true, item1, logger)

/-- The loop `for (child = analysisNode.child("Analysis"); child; child =
child.next_sibling("Analysis"))` around `setExclusiveAnalysisConfiguration`, which
returns `false` at the first child that fails. -/
def exclusiveChildren (attName : String) :
    StringItem → List XmlNode → Logger → Bool × StringItem × Logger
  | item, [], logger => (true, item, logger)
  | item, child :: rest, logger =>
    if child.name = "Analysis" then
      let r := setExclusiveAnalysisConfiguration attName item child logger
      if r.1 then exclusiveChildren attName r.2.1 rest r.2.2 else (false, r.2.1, r.2.2)
    else exclusiveChildren attName item rest logger

/-- The helper `setAnalysisConfigurationHelper`; the container (an attribute or a group
item) is given by its name and its items. The result is the returned flag with the
items of the container and the logger afterwards. -/
def setAnalysisConfigurationHelper (attName : String) :
    String → List Item → XmlNode → Logger → Bool × List Item × Logger
  | containerName, items, XmlNode.mk nodeName attrs text children, logger =>
    let analysisNode := XmlNode.mk nodeName attrs text children
    match analysisNode.attr "Type" with
    | none =>
      (false, items,
        logError logger ("Analysis node is missing Type xml attribute: " ++ containerName))
    | some type =>
      -- find the item that this analysis corresponds to
      match findItem items type with
      | none =>
        (false, items,
          logError logger ("Can not find analysis: " ++ type ++ " under: " ++ containerName))
      | some (idx, found) =>
        -- set this to be enabled
        match found.setIsEnabled true with
        | Item.void n e =>
          -- simple analysis with no children
          (true, items.set idx (Item.void n e),
            if (analysisNode.child "Analysis").isSome then
              logWarning logger ("Analysis: " ++ type ++ " under: " ++ containerName
                ++ " does not have children analyses but children where specified in the"
                ++ " configuration." ++ " These will be ignored!")
            else logger)
        | Item.string n e v c =>
          -- exclusive analyses: this node should have children
          if !(analysisNode.child "Analysis").isSome then
            (false, items.set idx (Item.string n e v c),
              logError logger ("Configuration for Exclusive Analysis: " ++ type ++ " under: "
                ++ containerName ++ " does not specify children."
                ++ " Can not build configuration."))
          else
            let res := exclusiveChildren attName ⟨n, e, v, c⟩ children logger
            (res.1, items.set idx res.2.1.toItem, res.2.2)
        | Item.group n e i =>
          -- non exclusive analyses: the children need not be specified
          let res := helperChildren attName n i children logger
          (res.1, items.set idx (Item.group n e res.2.1), res.2.2)
        | Item.other n e =>
          (false, items.set idx (Item.other n e),
            logError logger ("Invalid item found for Analysis: " ++ type ++ " under: "
              ++ containerName ++ " Can not build configuration."))

/-- The loop over the `Analysis` children around `setAnalysisConfigurationHelper`. -/
def helperChildren (attName : String) :
    String → List Item → List XmlNode → Logger → Bool × List Item × Logger
  | _, items, [], logger => (true, items, logger)
  | containerName, items, child :: rest, logger =>
    if child.name = "Analysis" then
      let r := setAnalysisConfigurationHelper attName containerName items child logger
      if r.1 then helperChildren attName containerName r.2.1 rest r.2.2
      else (false, r.2.1, r.2.2)
    else helperChildren attName containerName items rest logger

end

end XmlDocV3Parser

namespace XmlDocV3Parser

/-- The inner loop of `processConfigurations` over the `Analysis` children of a
`Config`. `sitem` is the string item of the attribute when the top level analyses are
exclusive (the null pointer otherwise); the result is `false` when the loop ends in
`break`, that is when a helper has returned `false`, together with the string item, the
attribute and the logger afterwards (without the message and the removal that precede
the `break`). -/
def configAnalyses (exclusive : Bool) :
    Option StringItem → Attribute → List XmlNode → Logger →
      Bool × Option StringItem × Attribute × Logger
  | sitem, configAtt, [], logger => (true, sitem, configAtt, logger)
  | sitem, configAtt, analysisNode :: rest, logger =>
    if exclusive then
      -- case where we are dealing with top level exclusive analyses
      match sitem with
      | some si =>
        let r := setExclusiveAnalysisConfiguration configAtt.name si analysisNode logger
        if !r.1 then (false, some r.2.1, configAtt, r.2.2)
        else configAnalyses exclusive (some r.2.1) configAtt rest r.2.2
      | none =>
        let r := setAnalysisConfigurationHelper configAtt.name configAtt.name configAtt.items
          analysisNode logger
        if !r.1 then (false, none, { configAtt with items := r.2.1 }, r.2.2)
        else configAnalyses exclusive none { configAtt with items := r.2.1 } rest r.2.2
    else configAnalyses exclusive sitem configAtt rest logger

/-- The attribute after the inner loop: the string item is its item 0. -/
def storeStringItem (configAtt : Attribute) (sitem : Option StringItem) : Attribute :=
  match sitem with
  | some si => { configAtt with items := configAtt.items.set 0 si.toItem }
  | none => configAtt

/-- The advance levels of a `Config`, set on the new attribute. -/
def setConfigAdvanceLevels (configNode : XmlNode) (configAtt : Attribute) : Attribute :=
  let a1 := match configNode.attr "AdvanceReadLevel" with
    | some v => configAtt.setLocalAdvanceLevel 0 (textAsUInt v)
    | none => configAtt
  match configNode.attr "AdvanceWriteLevel" with
  | some v => a1.setLocalAdvanceLevel 1 (textAsUInt v)
  | none => a1

/-- The loop of `processConfigurations` over the `Config` children. The result is
`none` when a null attribute is dereferenced. -/
def processConfigs (analysisDef : Definition) :
    List XmlNode → Resource → Logger → Option (Resource × Logger)
  | [], r, logger => some (r, logger)
  | configNode :: rest, r, logger =>
    -- get the name of the configuration
    match configNode.attr "Name" with
    | none =>
      some (r, logError logger
        "Configuration missing Name xml attribute - skipping configuration!")
    | some name =>
      match r.createAttribute name analysisDef with
      | none =>
        -- `configAtt` is null: it is dereferenced for an advance level and for `item(0)`
        if (configNode.attr "AdvanceReadLevel").isSome
            || (configNode.attr "AdvanceWriteLevel").isSome || r.topLevelExclusive then none
        else processConfigs analysisDef rest r logger
      | some (created, r1) =>
        let configAtt := setConfigAdvanceLevels configNode created
        let sitem : Option StringItem :=
          if r1.topLevelExclusive then configAtt.item0.bind Item.asStringItem else none
        if r1.topLevelExclusive && sitem.isNone then
          some (r1.removeAttribute configAtt, logError logger
            ("Encountered invalid Attribute Representation for Top Level Exclusive Analyses "
              ++ " can not build any configurations!"))
        else
          let res := configAnalyses r1.topLevelExclusive sitem configAtt
            (configNode.childrenNamed "Analysis") logger
          if res.1 then
            processConfigs analysisDef rest
              (r1.storeAttribute (storeStringItem res.2.2.1 res.2.1)) res.2.2.2
          else
            processConfigs analysisDef rest (r1.removeAttribute configAtt)
              (logError res.2.2.2 ("Encountered problem constructing configuration: "
                ++ configAtt.name ++ " - configuration not built"))

/-- The analysis definition of `processConfigurations`: the definition of the resource
with this type, else a new one built from the analyses; the null pointer is `none`. -/
def analysisDefinition (r : Resource) (type : String) : Option (Definition × Resource) :=
  match r.findDefinition type with
  | some d => some (d, r)
  | none => r.buildAnalysesDefinition type

/-- The method `XmlDocV3Parser::processConfigurations`. The result is `none` when a
null definition or attribute is dereferenced. -/
def processConfigurations (configurationsNode : XmlNode) (r : Resource) (logger : Logger) :
    Option (Resource × Logger) :=
  -- first we need to build the analysis definition
  match configurationsNode.attr "AnalysisAttributeType" with
  | none =>
    some (r, logError logger ("Configurations missing AnalysisAttributeType xml attribute"
      ++ " - can not build configurations!"))
  | some type =>
    match analysisDefinition r type with
    | none => none
    | some (analysisDef, r1) =>
      -- sanity check: the definition has items in it
      if analysisDef.numberOfItemDefinitions = 0 then
        some (r1, logError logger "Configurations' Attribute Definition is empty!")
      else processConfigs analysisDef (configurationsNode.childrenNamed "Config") r1 logger

end XmlDocV3Parser

/-! ## Notions used to state the properties of `processReferenceItem` -/

/-- The surrogate record registered under `x`, if any. -/
def LinkTable.surrogate (t : LinkTable) (x : UUID) : Option Surrogate :=
  (t.entry x).map (fun e => e.surrogate)

/-- The relation rows of the entry registered under `x` (none without an entry). -/
def LinkTable.rows (t : LinkTable) (x : UUID) : List LinkRow :=
  match t.entry x with
  | some e => e.rows
  | none => []

/-- Number of calls `links.insert(surrogate, x, ..)` among `calls`. -/
def surrogateInsertions (calls : List Call) (x : UUID) : Nat :=
  calls.countP (fun c => match c with
    | Call.linksInsert _ id _ _ => id == x
    | _ => false)

namespace XmlDocV3Parser

/-- True when a `Val` of `Values` passes the two `Ith` checks of the loop. -/
def ithInRange (n : Nat) (val : XmlNode) : Bool :=
  match val.attr "Ith" with
  | none => false
  | some ith => textAsUInt ith < n

/-- The `Val` elements whose values `processReferenceItem` reads, in document order:
in the `Values` form those that pass the `Ith` checks, in the single-value form the
first `Val` child. -/
def valuesRead (node : XmlNode) (s : RefState) : List XmlNode :=
  match referenceItemCount node s with
  | Sum.inl _ => []
  | Sum.inr (n, _) =>
    if n = 0 then []
    else
      match node.child "Values" with
      | some valsNode => (valsNode.childrenNamed "Val").filter (ithInRange n)
      | none =>
        if s.item.numberOfRequiredValues = 1 then (node.child "Val").toList else []

/-- The surrogate record of the first `Val` of `vals` whose key has surrogate id `x`. -/
def firstSurrogateFor (vals : List XmlNode) (x : UUID) : Option Surrogate :=
  (vals.find? (fun v => (valKey v).1 == x)).map valSurrogate

/-- True when some `Val` of `vals` has a key with surrogate id `x`. -/
def namesSurrogate (vals : List XmlNode) (x : UUID) : Bool :=
  vals.any (fun v => (valKey v).1 == x)

/-- Relation between the state `s` before and the state `s2` after the values of the
`Val` elements `vals` have been read, as far as surrogates are concerned: an id is
registered afterwards when it was before or some `Val` names it; a record registered
before is kept, otherwise the record is that of the first `Val` naming the id; and
`links.insert` is called once for an id that was not registered and is named, and not
at all otherwise. -/
def SurrogatesAfter (s s2 : RefState) (vals : List XmlNode) : Prop :=
  ∀ x : UUID,
    s2.links.contains x = (s.links.contains x || namesSurrogate vals x) ∧
    s2.links.surrogate x =
      (if s.links.contains x then s.links.surrogate x else firstSurrogateFor vals x) ∧
    surrogateInsertions s2.calls x =
      surrogateInsertions s.calls x +
        (if !s.links.contains x && namesSurrogate vals x then 1 else 0)

/-- Relation between the state `s` before and the state `s2` after a part of
`processReferenceItem`, as far as calls and keys are concerned: calls are only added,
none of the added calls is a call of the lookup service, the surrogate id of every key
passed to `setObjectKey` is registered afterwards, registered ids stay registered, and
every key the item holds afterwards was held before at that index or has a registered
surrogate id. -/
def KeysRegistered (s s2 : RefState) : Prop :=
  (∃ added : List Call, s2.calls = s.calls ++ added ∧
    (∀ c ∈ added, c.isLookup = false) ∧
    (∀ i k, Call.setObjectKey i k ∈ added → s2.links.contains k.1 = true)) ∧
  (∀ x, s.links.contains x = true → s2.links.contains x = true) ∧
  (∀ (i : Nat) (k : Key), s2.item.keys[i]? = some (some k) →
    s.item.keys[i]? = some (some k) ∨ s2.links.contains k.1 = true)

end XmlDocV3Parser

namespace XmlDocV3Parser

/-- True when every `Analysis` node of the list, in document order, is accepted by
`setExclusiveAnalysisConfiguration`, each applied to the string item as the nodes
before it have left it; false when one of them is rejected. -/
def analysesAccepted (sitem : StringItem) : List XmlNode → Bool
  | [] => true
  | analysisNode :: rest =>
    (setExclusiveAnalysisConfiguration "" sitem analysisNode []).1 &&
      analysesAccepted (setExclusiveAnalysisConfiguration "" sitem analysisNode []).2.1 rest

end XmlDocV3Parser

/-! ## Attribute reference components (`attribute/AttributeReferenceComponent.cxx`) -/

/-- An `AttributePtr`: the attribute pointed to, given by a number, or the null
pointer. -/
abbrev AttributePtr := Option Nat

/-- The part of `AttributeReferenceComponentDefinition` (its declaration is not in the
sources) that the component uses: `numberOfValues()`, a C++ `int`, and
`isValueValid(att)`. -/
structure AttributeReferenceComponentDefinition where
  numberOfValues : Int
  isValueValid : AttributePtr → Bool

/-- A component definition as `setDefinition` receives it: one of this class, or one
for which the dynamic cast gives the null pointer. -/
inductive ComponentDefinition where
  | attributeReference (d : AttributeReferenceComponentDefinition)
  | other

/-- An `AttributeReferenceComponent`: the definition it was given (`none` before
`setDefinition`) and the vector `m_values` of weak attribute pointers. -/
structure AttributeReferenceComponent where
  definition : Option AttributeReferenceComponentDefinition
  m_values : List AttributePtr

namespace AttributeReferenceComponent

/-- The call `m_values.resize(n)`; new elements are null. -/
def resizeValues (vs : List AttributePtr) (n : Nat) : List AttributePtr :=
  vs.take n ++ List.replicate (n - vs.length) none

/-- The method `setDefinition`. `parentOk` is the result of `Component::setDefinition`,
which is not in the sources and which stores the definition when it succeeds. The
result is `none` when `resize` throws, which it does for a negative count. -/
def setDefinition (parentOk : Bool) (c : AttributeReferenceComponent)
    (adef : ComponentDefinition) : Option (Bool × AttributeReferenceComponent) :=
  match adef with
  | ComponentDefinition.other => some (false, c)
  | ComponentDefinition.attributeReference d =>
    if !parentOk then some (false, c)
    else
      let n := d.numberOfValues
      if n ≠ 0 then
        if n < 0 then none
        else some (true, { definition := some d, m_values := resizeValues c.m_values n.toNat })
      else some (true, { definition := some d, m_values := c.m_values })

/-- The method `setValue(element, att)`. The result is `none` for undefined behaviour:
a component without definition, or the access `m_values[element]` outside the vector. -/
def setValue (c : AttributeReferenceComponent) (element : Int) (att : AttributePtr) :
    Option (Bool × AttributeReferenceComponent) :=
  match c.definition with
  | none => none
  | some d =>
    if d.isValueValid att then
      if 0 ≤ element ∧ element < c.m_values.length then
        some (true, { c with m_values := c.m_values.set element.toNat att })
      else none
    else some (false, c)

/-- The method `appendValue(val)`. -/
def appendValue (c : AttributeReferenceComponent) (val : AttributePtr) :
    Option (Bool × AttributeReferenceComponent) :=
  match c.definition with
  | none => none
  | some d =>
    -- first: are we allowed to change the number of values?
    if d.numberOfValues ≠ 0 then some (false, c)
    else if d.isValueValid val then some (true, { c with m_values := c.m_values ++ [val] })
    else some (false, c)

/-- The method `removeValue(element)`; `erase` outside the vector is undefined. -/
def removeValue (c : AttributeReferenceComponent) (element : Int) :
    Option (Bool × AttributeReferenceComponent) :=
  match c.definition with
  | none => none
  | some d =>
    if d.numberOfValues ≠ 0 then some (false, c)
    else if 0 ≤ element ∧ element < c.m_values.length then
      some (true, { c with m_values := c.m_values.eraseIdx element.toNat })
    else none

/-- Modelled from the spec: `unset(element)`, declared in a header that is not in the
sources: it clears the set-state of the element without changing the count; outside the
vector the access is undefined. -/
def unset (vs : List AttributePtr) (element : Nat) : Option (List AttributePtr) :=
  if element < vs.length then some (vs.set element none) else none

/-- The loop `for (i = 0; i < n; i++) this->unset(i)`, from `i` on, `k` steps. -/
def unsetFrom (i : Nat) : Nat → List AttributePtr → Option (List AttributePtr)
  | 0, vs => some vs
  | k + 1, vs =>
    match unset vs i with
    | none => none
    | some vs1 => unsetFrom (i + 1) k vs1

/-- The method `reset()`. -/
def reset (c : AttributeReferenceComponent) : Option AttributeReferenceComponent :=
  match c.definition with
  | none => none
  | some d =>
    if d.numberOfValues = 0 then some { c with m_values := [] }
    else (unsetFrom 0 d.numberOfValues.toNat c.m_values).map (fun vs => { c with m_values := vs })

/-- A call of one of the four mutators. -/
inductive Op where
  | setValue (element : Int) (att : AttributePtr)
  | appendValue (val : AttributePtr)
  | removeValue (element : Int)
  | reset

/-- The component after one call, `none` when the call is undefined. -/
def step (c : AttributeReferenceComponent) : Op → Option AttributeReferenceComponent
  | Op.setValue e a => (c.setValue e a).map Prod.snd
  | Op.appendValue v => (c.appendValue v).map Prod.snd
  | Op.removeValue e => (c.removeValue e).map Prod.snd
  | Op.reset => c.reset

/-- The component after a sequence of calls. -/
def run (c : AttributeReferenceComponent) : List Op → Option AttributeReferenceComponent
  | [] => some c
  | op :: ops =>
    match c.step op with
    | none => none
    | some c1 => run c1 ops

/-- True for the calls that stay inside a vector of `n` elements: a `setValue` of a
value that the definition `d` accepts names an element below `n`. -/
def Op.inRange (d : AttributeReferenceComponentDefinition) (n : Nat) : Op → Bool
  | Op.setValue e a => !d.isValueValid a || (decide (0 ≤ e) && decide (e < n))
  | _ => true

end AttributeReferenceComponent

/-! ## Sample inputs -/

/-- A stand-in for the older parsers: the mode texts `Or` and `And`, splitting that
keeps the text whole, and a V2 parser that leaves the definition alone. -/
def sampleOlderParsers : OlderParsers where
  comboModeOfText := fun s =>
    if s = "Or" then some CombinationMode.Any
    else if s = "And" then some CombinationMode.All else none
  split := fun s _ => [s]
  processDefinitionV2 := fun _ d l => (d, l)

/-- An empty category set. -/
def sampleCategories : CategorySet :=
  ⟨CombinationMode.Any, CombinationMode.Any, CombinationMode.Any, ∅, ∅⟩

/-- A definition without categories or tags. -/
def sampleDefinition : Definition := ⟨"Material", [], sampleCategories, []⟩

/-- An element `<Cat>s</Cat>`. -/
def catNode (s : String) : XmlNode := XmlNode.mk "Cat" [] s []

/-- A definition node in the old style: `<AttDef><Categories>..</Categories></AttDef>`. -/
def sampleOldStyleNode : XmlNode :=
  XmlNode.mk "AttDef" [] "" [XmlNode.mk "Categories" [] "" [catNode "solid", catNode "thermal"]]

/-- The same categories in the current style, under `CategoryInfo/Include`. -/
def sampleNewStyleNode : XmlNode :=
  XmlNode.mk "AttDef" [] ""
    [XmlNode.mk "CategoryInfo" [] ""
      [XmlNode.mk "Include" [] "" [catNode "solid", catNode "thermal"]]]

/-- A definition node carrying both forms: `Categories` lists `legacy`, while
`CategoryInfo` includes `solid` and excludes `thermal`. -/
def sampleBothStylesNode : XmlNode :=
  XmlNode.mk "AttDef" [] ""
    [XmlNode.mk "Categories" [] "" [catNode "legacy"],
     XmlNode.mk "CategoryInfo" [("Combination", "And")] ""
      [XmlNode.mk "Include" [] "" [catNode "solid"],
       XmlNode.mk "Exclude" [] "" [catNode "thermal"]]]

/-- An element `<tag>text</tag>`. -/
def textNode (tag text : String) : XmlNode := XmlNode.mk tag [] text []

/-- A `Val` element of a reference item with the given attributes, key, right-hand
side and surrogate record. -/
def sampleVal (attrs : List (String × String)) (k1 k2 r1 r2 : String)
    (sur : List (String × String)) : XmlNode :=
  XmlNode.mk "Val" attrs ""
    [XmlNode.mk "Key" [] "" [textNode "_1_" k1, textNode "_2_" k2],
     XmlNode.mk "RHS" [] "" [textNode "_1_" r1, textNode "_2_" r2],
     XmlNode.mk "Surrogate" sur "" []]

/-- First sample value: element 0, role 3, surrogate `S1` with location `a.smtk`. -/
def sampleVal0 : XmlNode :=
  sampleVal [("Ith", "0"), ("Role", "3")] "S1" "K1" "R1" "T1"
    [("Index", "1"), ("TypeName", "smtk::model::Resource"), ("Id", "R1"), ("Location", "a.smtk")]

/-- Second sample value: no `Ith`, the same surrogate id `S1`, another record. -/
def sampleValNoIth : XmlNode :=
  sampleVal [("Role", "1")] "S1" "K2" "R2" "T2"
    [("Index", "2"), ("TypeName", "smtk::model::Resource"), ("Id", "R2"), ("Location", "b.smtk")]

/-- Third sample value: element 1, no role, surrogate id `S1` again, a third record. -/
def sampleVal1 : XmlNode :=
  sampleVal [("Ith", "1")] "S1" "K3" "R3" "T3"
    [("Index", "3"), ("TypeName", "smtk::model::Resource"), ("Id", "R3"), ("Location", "c.smtk")]

/-- An item node with the three sample values under `Values`. -/
def sampleItemNode : XmlNode :=
  XmlNode.mk "Component" [("Name", "ref")] ""
    [XmlNode.mk "Values" [] "" [sampleVal0, sampleValNoIth, sampleVal1]]

/-- A reference item with two required values, none set. -/
def sampleItem : ReferenceItem :=
  { name := "ref", attributeId := "att-1", numberOfRequiredValues := 2, isExtensible := false,
    maxNumberOfValues := none, keys := [none, none] }

/-- The state before the sample item is parsed: an empty link table and logger. -/
def sampleRefState : RefState := ⟨sampleItem, ⟨[]⟩, [], []⟩

/-- The owning resource `res-1`, with no other resource loaded. -/
def sampleContext : ResourceContext := ⟨"res-1", []⟩

/-- An `Analysis` element of the given type with the given children. -/
def analysisNode (type : String) (children : List XmlNode) : XmlNode :=
  XmlNode.mk "Analysis" [("Type", type)] "" children

/-- A `Config` element of the given name with the given analyses. -/
def configNode (name : String) (analyses : List XmlNode) : XmlNode :=
  XmlNode.mk "Config" [("Name", name)] "" analyses

/-- The string item of exclusive top level analyses `Heat` and `Flow`, the latter with
the exclusive children `Laminar` and `Turbulent`. -/
def sampleAnalysisItem : StringItem :=
  { name := "Analysis", isEnabled := false, value := none,
    choices := [("Heat", []),
      ("Flow", [Item.string "Flow" false none [("Laminar", []), ("Turbulent", [])]])] }

/-- A resource with exclusive top level analyses and no attribute. -/
def sampleExclusiveResource : Resource :=
  { definitions := [], attributes := [], topLevelExclusive := true,
    analysesItems := some [sampleAnalysisItem.toItem] }

/-- A resource whose top level analyses `Heat` and `Flow` are not exclusive. -/
def sampleResource : Resource :=
  { definitions := [], attributes := [], topLevelExclusive := false,
    analysesItems := some [Item.void "Heat" false, Item.void "Flow" false] }

/-- Three configurations: `c1` chooses `Heat`, `c2` names the analysis `Nope`, which
does not exist, and `c3` chooses `Flow` with `Laminar`. -/
def sampleConfigurationsNode : XmlNode :=
  XmlNode.mk "Configurations" [("AnalysisAttributeType", "Analysis")] ""
    [configNode "c1" [analysisNode "Heat" []],
     configNode "c2" [analysisNode "Nope" []],
     configNode "c3" [analysisNode "Flow" [analysisNode "Laminar" []]]]

/-- A `Configurations` node with one `Config` whose analysis `Nope` matches no item. -/
def sampleMismatchNode : XmlNode :=
  XmlNode.mk "Configurations" [("AnalysisAttributeType", "Analysis")] ""
    [configNode "c1" [analysisNode "Nope" []], configNode "c2" [analysisNode "Heat" []]]

/-- A definition of two values that accepts every attribute. -/
def sampleFixedDefinition : AttributeReferenceComponentDefinition := ⟨2, fun _ => true⟩

/-- A definition with a variable number of values that accepts every attribute. -/
def sampleVariableDefinition : AttributeReferenceComponentDefinition := ⟨0, fun _ => true⟩

/-- A component without definition or values. -/
def sampleNewComponent : AttributeReferenceComponent := ⟨none, []⟩

/-- A component of the fixed definition, with its two values unset. -/
def sampleFixedComponent : AttributeReferenceComponent :=
  ⟨some sampleFixedDefinition, [none, none]⟩

/-- A component of the variable definition that holds two values. -/
def sampleVariableComponent : AttributeReferenceComponent :=
  ⟨some sampleVariableDefinition, [some 1, some 2]⟩

/-- A component of the variable definition that holds no value. -/
def sampleEmptyComponent : AttributeReferenceComponent := ⟨some sampleVariableDefinition, []⟩

/-- A definition of two values that accepts the attributes numbered below 10 only. -/
def sampleSelectiveDefinition : AttributeReferenceComponentDefinition :=
  ⟨2, fun a => match a with
    | some k => decide (k < 10)
    | none => false⟩

/-- A component of the selective definition holding the attributes 1 and 2. -/
def sampleSelectiveComponent : AttributeReferenceComponent :=
  ⟨some sampleSelectiveDefinition, [some 1, some 2]⟩

/-! ## The parser: documents, definition information, unique roles, associations -/

/-- A call made on a definition by `processExclusion` or `processPrerequisite`;
definitions are named by their type. -/
inductive DefinitionCall where
  | addExclusion (a b : String)
  | addPrerequisite (target dep : String)
  deriving DecidableEq, Repr

/-- A call that `process` or `processDefinitionInformation` makes after the call of the
V2 parser: a call of a method of the parser on a node (`processConfigurations`,
`processExclusion`, `processPrerequisite`) or a call on the resource (`addUniqueRole`,
and `links().data().insert` with the surrogate, the key, the two ends and the role). -/
inductive ParserCall where
  | processConfigurations (configurationsNode : XmlNode)
  | addUniqueRole (role : Int)
  | linksInsert (surrogate : Surrogate) (id left right : UUID) (role : Int)
  | processExclusion (excludeNode : XmlNode)
  | processPrerequisite (prereqNode : XmlNode)

/-- What the parser works on: the attribute resource `m_resource` with the exclusion and
prerequisite relations of its definitions, its set of unique roles, its link table and
its id; the calls made on definitions so far; the number of random UUIDs drawn so far;
the logger `m_logger`; and the calls of `ParserCall` made so far, oldest first. -/
structure ParserState where
  resource : Resource
  exclusions : List (String × String)
  prerequisites : List (String × String)
  definitionCalls : List DefinitionCall
  uniqueRoles : List Int
  links : LinkTable
  resourceId : UUID
  randomDrawn : Nat
  logger : Logger
  parserCalls : List ParserCall

/-- What the V3 parser takes from outside the sources: the methods `process` and
`processDefinitionInformation` of `XmlDocV2Parser`, the constant
`smtk::attribute::Resource::AssociationRole`, and the values of
`smtk::common::UUID::random()`, the `k`th draw being `randomUUID k`. -/
structure ParserEnvironment where
  processV2 : XmlNode → ParserState → ParserState
  processDefinitionInformationV2 : XmlNode → ParserState → ParserState
  associationRole : Int
  randomUUID : Nat → UUID

namespace ParserState

/-- Records a call in the list of the calls made so far. -/
def called (s : ParserState) (c : ParserCall) : ParserState :=
  { s with parserCalls := s.parserCalls ++ [c] }

/-- Modelled from the spec: `addExclusion` makes two definitions mutually exclusive; the
relation is symmetric and the call idempotent. -/
def addExclusion (s : ParserState) (a b : String) : ParserState :=
  { s with
    exclusions :=
      if s.exclusions.contains (a, b) || s.exclusions.contains (b, a) then s.exclusions
      else s.exclusions ++ [(a, b)]
    definitionCalls := s.definitionCalls ++ [DefinitionCall.addExclusion a b] }

/-- Modelled from the spec: `addPrerequisite(target, dep)` records that an attribute of
type `target` requires one of type `dep`. -/
def addPrerequisite (s : ParserState) (target dep : String) : ParserState :=
  { s with
    prerequisites :=
      if s.prerequisites.contains (target, dep) then s.prerequisites
      else s.prerequisites ++ [(target, dep)]
    definitionCalls := s.definitionCalls ++ [DefinitionCall.addPrerequisite target dep] }

/-- Modelled from the spec: `addUniqueRole(role)` adds to the unique-role set. The call
is recorded. -/
def addUniqueRole (s : ParserState) (role : Int) : ParserState :=
  { s with uniqueRoles := if s.uniqueRoles.contains role then s.uniqueRoles
                          else s.uniqueRoles ++ [role]
           parserCalls := s.parserCalls ++ [ParserCall.addUniqueRole role] }

end ParserState

namespace XmlDocV3Parser

/-- The method `canParse(xml_document&)`. -/
def canParse (doc : XmlNode) : Bool :=
  -- get the attribute resource node
  match doc.child "SMTK_AttributeResource" with
  | none => false
  | some amnode =>
    match amnode.attr "Version" with
    | none => false
    | some v => textAsInt v == 3

/-- The method `canParse(xml_node&)`. -/
def canParseNode (node : XmlNode) : Bool :=
  -- check the name of the node
  if node.name ≠ "SMTK_AttributeResource" then false
  else
    match node.attr "Version" with
    | none => false
    | some v => textAsInt v == 3

/-- The method `getUniqueRoles`. -/
def getUniqueRoles (rootNode : XmlNode) (s : ParserState) : ParserState :=
  match rootNode.child "UniqueRoles" with
  | none => s
  | some node =>
    node.children.foldl (fun st cnode =>
      if cnode.name ≠ "Role" then st
      else
        match cnode.attr "ID" with
        | none => st
        | some v => st.addUniqueRole (textAsInt v)) s

/-- The first loop of `processExclusion` and of `processPrerequisite`: the definitions
found for the texts of the children, in document order, and one warning, with the given
text before the name, for each child whose name is not found. -/
def findChildDefinitions (warning : String) (r : Resource) :
    List XmlNode → List Definition × Logger → List Definition × Logger
  | [], acc => acc
  | child :: rest, (defs, logger) =>
    match r.findDefinition child.text with
    | some d => findChildDefinitions warning r rest (defs ++ [d], logger)
    | none => findChildDefinitions warning r rest (defs, logWarning logger (warning ++ child.text))

/-- The loops `for (i = 0; i < n; i++) for (j = i + 1; j < n; j++)` of
`processExclusion`: the pairs `(defs[i], defs[j])` in the order of the calls. -/
def exclusionPairs (defs : List Definition) : List (Definition × Definition) :=
  (List.range defs.length).flatMap (fun i =>
    (List.range' (i + 1) (defs.length - (i + 1))).filterMap (fun j =>
      match defs[i]?, defs[j]? with
      | some a, some b => some (a, b)
      | _, _ => none))

/-- The method `processExclusion`. -/
def processExclusion (excludeNode : XmlNode) (s : ParserState) : ParserState :=
  -- first convert the strings to definitions
  let found := findChildDefinitions "Cannot find exclusion definiion: " s.resource
    excludeNode.children ([], s.logger)
  let s1 := { s with logger := found.2 }
  -- we need at least 2 definitions to exclude
  if found.1.length < 2 then s1
  else (exclusionPairs found.1).foldl (fun st pr => st.addExclusion pr.1.type pr.2.type) s1

/-- The method `processPrerequisite`. -/
def processPrerequisite (prereqNode : XmlNode) (s : ParserState) : ParserState :=
  match prereqNode.attr "Type" with
  | none => { s with logger := logWarning s.logger "Cannot find type XML attribute" }
  | some type =>
    match s.resource.findDefinition type with
    | none =>
      { s with logger := logWarning s.logger ("Cannot find target definiion: " ++ type) }
    | some targetDef =>
      let found := findChildDefinitions "Cannot find prerequisite definiion: " s.resource
        prereqNode.children ([], s.logger)
      let s1 := { s with logger := found.2 }
      if found.1.length = 0 then s1
      else found.1.foldl (fun st d => st.addPrerequisite targetDef.type d.type) s1

/-- The part of `processDefinitionInformation` after the call of the V2 parser: the
`Exclusions` section, then the `Prerequisites` section. Each call of `processExclusion`
and of `processPrerequisite` is recorded before it is made. -/
def processDefinitionInformationV3 (root : XmlNode) (s : ParserState) : ParserState :=
  let s1 := match root.child "Exclusions" with
    | some node =>
      node.children.foldl
        (fun st child => processExclusion child (st.called (ParserCall.processExclusion child))) s
    | none => s
  match root.child "Prerequisites" with
  | some node =>
    node.children.foldl
      (fun st child =>
        processPrerequisite child (st.called (ParserCall.processPrerequisite child))) s1
  | none => s1

/-- The method `processDefinitionInformation`. -/
def processDefinitionInformation (env : ParserEnvironment) (root : XmlNode)
    (s : ParserState) : ParserState :=
  processDefinitionInformationV3 root (env.processDefinitionInformationV2 root s)

/-- The `Configurations` step of `process`: `processConfigurations` on the resource and
the logger, when the root has that child; the call is recorded. The result is `none`
when a null pointer is dereferenced. -/
def configurationsStep (rootNode : XmlNode) (s : ParserState) : Option ParserState :=
  match rootNode.child "Configurations" with
  | none => some s
  | some configurationsNode =>
    let s0 := s.called (ParserCall.processConfigurations configurationsNode)
    match processConfigurations configurationsNode s0.resource s0.logger with
    | none => none
    | some (r, logger) => some { s0 with resource := r, logger := logger }

/-- One child of the `Associations` element: its surrogate is inserted into the link
table under a random UUID; the call of `insert` is recorded. -/
def processAssociation (env : ParserEnvironment) (child : XmlNode) (s : ParserState) :
    ParserState :=
  let id : UUID := (child.attr "Id").getD ""
  let surrogate : Surrogate :=
    { index := as_uint (child.attr "Index")
      typeName := (child.attr "TypeName").getD ""
      id := id
      location := (child.attr "Location").getD "" }
  { s with
    links := s.links.insert surrogate (env.randomUUID s.randomDrawn) s.resourceId id
      (some env.associationRole)
    randomDrawn := s.randomDrawn + 1
    parserCalls := s.parserCalls ++
      [ParserCall.linksInsert surrogate (env.randomUUID s.randomDrawn) s.resourceId id
        env.associationRole] }

/-- The `Associations` step of `process`. -/
def associationsStep (env : ParserEnvironment) (rootNode : XmlNode) (s : ParserState) :
    ParserState :=
  match rootNode.child "Associations" with
  | none => s
  | some associationsNode =>
    associationsNode.children.foldl (fun st child => processAssociation env child st) s

/-- The V3 steps of `process(xml_node&)` after the call of the V2 parser. -/
def processV3 (env : ParserEnvironment) (rootNode : XmlNode) (s : ParserState) :
    Option ParserState :=
  match configurationsStep rootNode s with
  | none => none
  | some s2 => some (associationsStep env rootNode (getUniqueRoles rootNode s2))

/-- The method `process(xml_node&)`. -/
def process (env : ParserEnvironment) (rootNode : XmlNode) (s : ParserState) :
    Option ParserState :=
  processV3 env rootNode (env.processV2 rootNode s)

/-- The method `process(xml_document&)`. -/
def processDocument (env : ParserEnvironment) (doc : XmlNode) (s : ParserState) :
    Option ParserState :=
  -- get the attribute resource node and check that there is content
  match doc.child "SMTK_AttributeResource" with
  | none => some { s with logger := logWarning s.logger "Missing SMTK_AttributeResource element" }
  | some amnode => process env amnode s

/-- The pairs of a list in the order `(x0, x1), (x0, x2), .., (x1, x2), ..`: each
element with each later one. -/
def orderedPairs {α : Type} : List α → List (α × α)
  | [] => []
  | x :: xs => xs.map (fun y => (x, y)) ++ orderedPairs xs

/-- The definitions that `findDefinition` finds for the texts of the children of a node,
in document order. -/
def definitionsFound (r : Resource) (children : List XmlNode) : List Definition :=
  children.filterMap (fun c => r.findDefinition c.text)

/-- The warnings for the children whose text names no definition, in document order. -/
def notFoundWarnings (warning : String) (r : Resource) (children : List XmlNode) :
    List LogRecord :=
  (children.filter (fun c => (r.findDefinition c.text).isNone)).map
    (fun c => ⟨Severity.warning, warning ++ c.text⟩)

/-- The integer values of the `ID` attributes of the `Role` children of `UniqueRoles`. -/
def documentRoles (rootNode : XmlNode) : List Int :=
  match rootNode.child "UniqueRoles" with
  | none => []
  | some node =>
    node.children.filterMap (fun c =>
      if c.name ≠ "Role" then none else (c.attr "ID").map textAsInt)

end XmlDocV3Parser

/-- A stand-in for what lies outside the sources: V2 methods that change nothing,
association role 1, and the random UUIDs `u0`, `u1`, `u2`, .. -/
def sampleEnvironment : ParserEnvironment where
  processV2 := fun _ s => s
  processDefinitionInformationV2 := fun _ s => s
  associationRole := 1
  randomUUID := fun k => String.mk ('u' :: List.replicate k '+')

/-- A definition of the given type without items, categories or tags. -/
def definitionOfType (type : String) : Definition := ⟨type, [], sampleCategories, []⟩

/-- A parser state whose resource `res-1` knows the definitions `A`, `B` and `C` and
holds nothing else. -/
def sampleParserState : ParserState :=
  { resource := ⟨[definitionOfType "A", definitionOfType "B", definitionOfType "C"], [],
      false, none⟩
    exclusions := [], prerequisites := [], definitionCalls := [], uniqueRoles := [],
    links := ⟨[]⟩, resourceId := "res-1", randomDrawn := 0, logger := [], parserCalls := [] }

/-- A document without the element `SMTK_AttributeResource`. -/
def sampleEmptyDocument : XmlNode := XmlNode.mk "" [] "" [XmlNode.mk "Other" [] "" []]

/-- The content of a root element: one unique role and one association. -/
def sampleRootChildren : List XmlNode :=
  [XmlNode.mk "UniqueRoles" [] "" [XmlNode.mk "Role" [("ID", "7")] "" []],
   XmlNode.mk "Associations" [] ""
     [XmlNode.mk "Resource"
       [("Index", "0"), ("TypeName", "smtk::model::Resource"), ("Id", "R1"),
        ("Location", "a.smtk")] "" []]]

/-- A version-3 document. -/
def sampleDocument : XmlNode :=
  XmlNode.mk "" [] ""
    [XmlNode.mk "SMTK_AttributeResource" [("Version", "3")] "" sampleRootChildren]

/-- The same document with a root element that has no `Version` attribute. -/
def sampleDocumentNoVersion : XmlNode :=
  XmlNode.mk "" [] "" [XmlNode.mk "SMTK_AttributeResource" [] "" sampleRootChildren]

/-- The same document with the version number 2. -/
def sampleDocumentVersion2 : XmlNode :=
  XmlNode.mk "" [] ""
    [XmlNode.mk "SMTK_AttributeResource" [("Version", "2")] "" sampleRootChildren]

/-- An exclusion element naming `A`, the unknown `X`, `B` and `C`. -/
def sampleExclusionNode : XmlNode :=
  XmlNode.mk "Rule" [] "" [textNode "Def" "A", textNode "Def" "X", textNode "Def" "B",
    textNode "Def" "C"]

/-- A prerequisite element for `A` naming `B`, the unknown `X` and `C`. -/
def samplePrerequisiteNode : XmlNode :=
  XmlNode.mk "Rule" [("Type", "A")] "" [textNode "Def" "B", textNode "Def" "X",
    textNode "Def" "C"]

/-- A `Configurations` node whose first `Config` has no `Name`; the second is `c2`. -/
def sampleUnnamedConfigNode : XmlNode :=
  XmlNode.mk "Configurations" [("AnalysisAttributeType", "Analysis")] ""
    [XmlNode.mk "Config" [] "" [analysisNode "Heat" []], configNode "c2" [analysisNode "Heat" []]]

/-- A `Configurations` node with two `Config` elements of the same name. -/
def sampleDuplicateConfigNode : XmlNode :=
  XmlNode.mk "Configurations" [("AnalysisAttributeType", "Analysis")] ""
    [configNode "c1" [analysisNode "Heat" []], configNode "c1" [analysisNode "Flow" []]]

/-- A resource with exclusive analyses that already holds an attribute called `c1`. -/
def sampleResourceWithC1 : Resource :=
  { sampleExclusiveResource with attributes := [⟨"c1", [], none, none⟩] }

/-- A resource whose analyses cannot be built into a definition. -/
def sampleResourceWithoutAnalyses : Resource :=
  { definitions := [], attributes := [], topLevelExclusive := true, analysesItems := none }

/-- An extensible reference item with one required value and at most one value. -/
def sampleBoundedItem : ReferenceItem :=
  { name := "ref", attributeId := "att-1", numberOfRequiredValues := 1, isExtensible := true,
    maxNumberOfValues := some 1, keys := [none] }

/-- An item node that announces three values and gives the one of index 2. -/
def sampleOversizedItemNode : XmlNode :=
  XmlNode.mk "Component" [("Name", "ref"), ("NumberOfValues", "3")] ""
    [XmlNode.mk "Values" [] ""
      [sampleVal [("Ith", "2")] "S1" "K1" "R1" "T1"
        [("Index", "1"), ("TypeName", "smtk::model::Resource"), ("Id", "R1"),
          ("Location", "a.smtk")]]]

/-- A reference item with exactly one required value, not extensible. -/
def sampleSingleItem : ReferenceItem :=
  { name := "ref", attributeId := "att-1", numberOfRequiredValues := 1, isExtensible := false,
    maxNumberOfValues := none, keys := [none] }

/-- The children of the sample `Val` elements of the single-value item. -/
def sampleSingleValChildren : List XmlNode :=
  [XmlNode.mk "Key" [] "" [textNode "_1_" "S1", textNode "_2_" "K1"],
   XmlNode.mk "RHS" [] "" [textNode "_1_" "R1", textNode "_2_" "T1"],
   XmlNode.mk "Surrogate"
     [("Index", "1"), ("TypeName", "smtk::model::Resource"), ("Id", "R1"),
       ("Location", "a.smtk")] "" []]

/-- The single value given as a direct `Val` child. -/
def sampleDirectValNode : XmlNode :=
  XmlNode.mk "Component" [("Name", "ref")] ""
    [XmlNode.mk "Val" [("Role", "3")] "" sampleSingleValChildren]

/-- The same value given under `Values` with `Ith` 0. -/
def sampleValuesValNode : XmlNode :=
  XmlNode.mk "Component" [("Name", "ref")] ""
    [XmlNode.mk "Values" [] ""
      [XmlNode.mk "Val" [("Ith", "0"), ("Role", "3")] "" sampleSingleValChildren]]

/-- A definition node with the old-style mode `Or` and `CategoryInfo` with mode `And`. -/
def sampleBothModesNode : XmlNode :=
  XmlNode.mk "AttDef" [("CategoryCheckMode", "Or")] ""
    [XmlNode.mk "CategoryInfo" [("Combination", "And")] "" []]

/-! ## Notions used to state the last properties of the parser -/

namespace XmlDocV3Parser

/-- The surrogate record read from a child of the `Associations` element. -/
def associationSurrogate (child : XmlNode) : Surrogate :=
  { index := as_uint (child.attr "Index")
    typeName := (child.attr "TypeName").getD ""
    id := (child.attr "Id").getD ""
    location := (child.attr "Location").getD "" }

/-- The children of the `Associations` element of a root node. -/
def associationChildren (rootNode : XmlNode) : List XmlNode :=
  match rootNode.child "Associations" with
  | none => []
  | some associationsNode => associationsNode.children

/-- The call of `processConfigurations` on the `Configurations` child of a root node, if
it has one. -/
def configurationCalls (rootNode : XmlNode) : List ParserCall :=
  match rootNode.child "Configurations" with
  | none => []
  | some configurationsNode => [ParserCall.processConfigurations configurationsNode]

/-- One call of `links().data().insert` for each node of a list, in the order of the
list: the surrogate read from the node, registered under the draws `k`, `k + 1`, .. of
the random UUIDs, with the resource as left end, the `Id` of the node as right end and
the association role. -/
def associationCallsFrom (env : ParserEnvironment) (resourceId : UUID) :
    Nat → List XmlNode → List ParserCall
  | _, [] => []
  | k, child :: rest =>
    ParserCall.linksInsert (associationSurrogate child) (env.randomUUID k) resourceId
      (associationSurrogate child).id env.associationRole ::
      associationCallsFrom env resourceId (k + 1) rest

/-- The children of the `Exclusions` element of a root node. -/
def exclusionNodes (root : XmlNode) : List XmlNode :=
  match root.child "Exclusions" with
  | none => []
  | some node => node.children

/-- The children of the `Prerequisites` element of a root node. -/
def prerequisiteNodes (root : XmlNode) : List XmlNode :=
  match root.child "Prerequisites" with
  | none => []
  | some node => node.children

/-- True for a call of `addExclusion`, false for a call of `addPrerequisite`. -/
def isExclusionCall : DefinitionCall → Bool
  | DefinitionCall.addExclusion _ _ => true
  | DefinitionCall.addPrerequisite _ _ => false

mutual

/-- Depth of an XML tree: a node without children has depth 1. -/
def nodeDepth : XmlNode → Nat
  | XmlNode.mk _ _ _ children => nodesDepth children + 1

/-- The largest depth of the trees of a list, 0 for the empty list. -/
def nodesDepth : List XmlNode → Nat
  | [] => 0
  | child :: rest => max (nodeDepth child) (nodesDepth rest)

end

/-- The loop `for (child = node.child("Analysis"); child; child =
child.next_sibling("Analysis"))` around a helper that may fail to return: the loop
returns `false` at the first child for which the helper does. -/
def analysisLoop {σ : Type} (body : σ → XmlNode → Logger → Option (Bool × σ × Logger)) :
    σ → List XmlNode → Logger → Option (Bool × σ × Logger)
  | st, [], logger => some (true, st, logger)
  | st, child :: rest, logger =>
    if child.name = "Analysis" then
      match body st child logger with
      | none => none
      | some r => if r.1 then analysisLoop body r.2.1 rest r.2.2 else some (false, r.2.1, r.2.2)
    else analysisLoop body st rest logger

mutual

/-- The helper `setExclusiveAnalysisConfiguration` run with a bound on the depth of
recursion: each call of a helper on a child node uses one unit of `fuel`, and the result
is `none` when the fuel runs out. -/
def setExclusiveAnalysisConfigurationFuel (attName : String) :
    Nat → StringItem → XmlNode → Logger → Option (Bool × StringItem × Logger)
  | 0, _, _, _ => none
  | fuel + 1, item, analysisNode, logger =>
    match analysisNode.attr "Type" with
    | none =>
      some (false, item,
        logError logger ("Analysis node is missing Type xml attribute: " ++ item.name))
    | some type =>
      let r := item.setValue type
      if !r.1 then
        some (false, r.2,
          logError logger ("Can not find analysis: " ++ type ++ " under: " ++ item.name))
      else
        let item1 := r.2
        if item1.numberOfActiveChildrenItems ≠ 0 then
          let stringItem := item1.activeChildItem0.bind Item.asStringItem
          if (analysisNode.child "Analysis").isSome then
            match stringItem with
            | some si =>
              match analysisLoop (setExclusiveAnalysisConfigurationFuel attName fuel) si
                  analysisNode.children logger with
              | none => none
              | some res => some (res.1, item1.setActiveChildItem0 res.2.1.toItem, res.2.2)
            | none =>
              match item1.activeChildItem0.bind Item.asGroupItem with
              | none =>
                some (false, item1, logError logger ("Analysis: " ++ type ++ " under: "
                  ++ item.name ++ " does not have proper children analyses structure!"
                  ++ "  Can not build configuration: " ++ attName))
              | some gi =>
                match analysisLoop (setAnalysisConfigurationHelperFuel attName fuel gi.name)
                    gi.items analysisNode.children logger with
                | none => none
                | some res =>
                  some (res.1,
                    item1.setActiveChildItem0 (Item.group gi.name gi.isEnabled res.2.1), res.2.2)
          else if stringItem.isSome then
            some (false, item1, logError logger ("Analysis: " ++ type ++ " under: " ++ item.name
              ++ " has exclusive children analyses but no children "
              ++ "where specified in the configuration." ++ " Can not build configuration."))
          else some (true, item1, logger)
        else if (analysisNode.child "Analysis").isSome then
          some (true, item1, logWarning logger ("Analysis: " ++ type ++ " under: " ++ item.name
            ++ " does not have children analyses but children where specified in the"
            ++ " configuration." ++ " These will be ignored!"))
        else some (true, item1, logger)

/-- The helper `setAnalysisConfigurationHelper` run with a bound on the depth of
recursion. -/
def setAnalysisConfigurationHelperFuel (attName : String) :
    Nat → String → List Item → XmlNode → Logger → Option (Bool × List Item × Logger)
  | 0, _, _, _, _ => none
  | fuel + 1, containerName, items, analysisNode, logger =>
    match analysisNode.attr "Type" with
    | none =>
      some (false, items,
        logError logger ("Analysis node is missing Type xml attribute: " ++ containerName))
    | some type =>
      match findItem items type with
      | none =>
        some (false, items,
          logError logger ("Can not find analysis: " ++ type ++ " under: " ++ containerName))
      | some (idx, found) =>
        match found.setIsEnabled true with
        | Item.void n e =>
          some (true, items.set idx (Item.void n e),
            if (analysisNode.child "Analysis").isSome then
              logWarning logger ("Analysis: " ++ type ++ " under: " ++ containerName
                ++ " does not have children analyses but children where specified in the"
                ++ " configuration." ++ " These will be ignored!")
            else logger)
        | Item.string n e v c =>
          if !(analysisNode.child "Analysis").isSome then
            some (false, items.set idx (Item.string n e v c),
              logError logger ("Configuration for Exclusive Analysis: " ++ type ++ " under: "
                ++ containerName ++ " does not specify children."
                ++ " Can not build configuration."))
          else
            match analysisLoop (setExclusiveAnalysisConfigurationFuel attName fuel)
                ⟨n, e, v, c⟩ analysisNode.children logger with
            | none => none
            | some res => some (res.1, items.set idx res.2.1.toItem, res.2.2)
        | Item.group n e i =>
          match analysisLoop (setAnalysisConfigurationHelperFuel attName fuel n) i
              analysisNode.children logger with
          | none => none
          | some res => some (res.1, items.set idx (Item.group n e res.2.1), res.2.2)
        | Item.other n e =>
          some (false, items.set idx (Item.other n e),
            logError logger ("Invalid item found for Analysis: " ++ type ++ " under: "
              ++ containerName ++ " Can not build configuration."))

end

end XmlDocV3Parser

/-- A second stand-in for what lies outside the sources, differing from the first only in
the random UUIDs drawn: `v`, `v+`, `v++`, .. -/
def sampleEnvironment2 : ParserEnvironment where
  processV2 := fun _ s => s
  processDefinitionInformationV2 := fun _ s => s
  associationRole := 1
  randomUUID := fun k => String.mk ('v' :: List.replicate k '+')

/-- The root element of the sample document. -/
def sampleRootNode : XmlNode :=
  XmlNode.mk "SMTK_AttributeResource" [("Version", "3")] "" sampleRootChildren

/-! ## The geometry cache of `vtkResourceMultiBlockSource` -/

namespace vtkResourceMultiBlockSource

/-- The type `SequenceType`, declared in a header that is not part of the sources; it is
taken to be `int`, the type of the parameter `sequenceNumber` of `SetCachedData`. -/
abbrev SequenceType := Int

/-- A `CacheEntry{ data, sequenceNumber }`: the address of the data object, which is not
null, and its sequence number. -/
structure CacheEntry where
  Data : Nat
  SequenceNumber : SequenceType
  deriving DecidableEq, Repr

/-- A call of the reference counting of VTK on the data object at an address. -/
inductive ReferenceCall where
  | Register (data : Nat)
  | UnRegister (data : Nat)
  deriving DecidableEq, Repr

/-- The part of the source object that the cache methods use: the map `Cache` from UUIDs
to entries, as pairs of key and entry with at most one pair for a key, and the reference
counting calls made so far, oldest first. -/
structure Source where
  Cache : List (UUID × CacheEntry)
  referenceCalls : List ReferenceCall
  deriving DecidableEq, Repr

/-- The call `Cache.find(uid)`: `none` stands for `Cache.end()`. -/
def find (cache : List (UUID × CacheEntry)) (uid : UUID) : Option CacheEntry :=
  (cache.find? (fun p => p.1 == uid)).map Prod.snd

/-- The assignment `Cache[uid] = entry` of `std::map`: the entry of an existing key is
replaced, a new key is added. -/
def assign : List (UUID × CacheEntry) → UUID → CacheEntry → List (UUID × CacheEntry)
  | [], uid, entry => [(uid, entry)]
  | p :: rest, uid, entry =>
    if p.1 = uid then (uid, entry) :: rest else p :: assign rest uid entry

/-- The method `SetCachedData(uid, data, sequenceNumber)`; a null `data` is `none`. The
result is the returned flag with the source object afterwards. -/
def SetCachedData (self : Source) (uid : UUID) (data : Option Nat)
    (sequenceNumber : Int) : Bool × Source :=
  match data with
  | none => (false, self)
  | some d =>
    let entry : CacheEntry := ⟨d, sequenceNumber⟩
    match find self.Cache uid with
    | none =>
      (true, { Cache := assign self.Cache uid entry
               referenceCalls := self.referenceCalls ++ [ReferenceCall.Register d] })
    | some it =>
      if it.SequenceNumber < sequenceNumber then
        -- release the data of the existing entry
        (true, { Cache := assign self.Cache uid entry
                 referenceCalls := self.referenceCalls ++
                   [ReferenceCall.UnRegister it.Data, ReferenceCall.Register d] })
      else (false, self)

/-- The method `GetCachedDataSequenceNumber(uid)`. -/
def GetCachedDataSequenceNumber (self : Source) (uid : UUID) : SequenceType :=
  match find self.Cache uid with
  | none => -1
  | some it => it.SequenceNumber

/-- The arguments of one call of `SetCachedData`. -/
structure SetCall where
  uid : UUID
  data : Option Nat
  sequenceNumber : Int
  deriving DecidableEq, Repr

/-- A sequence of calls of `SetCachedData`, the first of the list first. -/
def runCalls (calls : List SetCall) (self : Source) : Source :=
  calls.foldl (fun st c => (SetCachedData st c.uid c.data c.sequenceNumber).2) self

end vtkResourceMultiBlockSource

/-! ## The operator `AddMaterial` -/

namespace AddMaterial

/-- A `double`. The operator only copies and stores these values, and an integer stands
for each. -/
abbrev Double := Int

/-- The data members of `smtk::bridge::rgg::Material` that the operator sets. -/
structure Material where
  m_name : String
  m_temperature : Double
  m_thermalExpansion : Double
  m_density : Double
  m_densityType : String
  m_compositionType : String
  m_components : List String
  m_content : List Double
  deriving DecidableEq, Repr

/-- The constant `Material::label`, whose declaration is not part of the sources; the
comment of the operator gives its value. -/
def Material.label : String := "material_descriptions"

/-- The values of the items of `specification()` that the operator reads, each under the
name of its item. -/
structure Specification where
  label : String
  color : List Double
  name : String
  temperature : Double
  thermalExpansion : Double
  density : Double
  densityType : String
  compositionType : String
  component : List String
  content : List Double
  deriving DecidableEq, Repr

/-- Modelled from the spec: the string and float properties of a model entity
(`smtk::model::EntityRef`, not in the sources), of which the spec says nothing; they are
taken as maps from the name of a property to its list of values, as pairs of name and
list with at most one pair for a name. -/
structure Properties where
  strings : List (String × List String)
  floats : List (String × List Double)
  deriving DecidableEq, Repr

/-- Sets the value of a key in a list of pairs: an existing key gets the new value, a
new key is added. -/
def setKey {α : Type} : List (String × α) → String → α → List (String × α)
  | [], key, v => [(key, v)]
  | p :: rest, key, v => if p.1 = key then (key, v) :: rest else p :: setKey rest key v

/-- The value of a key in a list of pairs. -/
def getKey {α : Type} (l : List (String × α)) (key : String) : Option α :=
  (l.find? (fun p => p.1 == key)).map Prod.snd

namespace Properties

/-- The call `setStringProperty(name, values)`; the call with one string sets the list
of that one string. -/
def setStringProperty (p : Properties) (name : String) (values : List String) : Properties :=
  { p with strings := setKey p.strings name values }

/-- The call `setFloatProperty(name, values)`. -/
def setFloatProperty (p : Properties) (name : String) (values : List Double) : Properties :=
  { p with floats := setKey p.floats name values }

/-- The call `hasStringProperty(name)`. -/
def hasStringProperty (p : Properties) (name : String) : Bool :=
  (getKey p.strings name).isSome

/-- The list that the reference `stringProperty(name)` refers to; the empty list for a
name without property. -/
def stringProperty (p : Properties) (name : String) : List String :=
  (getKey p.strings name).getD []

/-- The call `stringProperty(name).push_back(value)`. -/
def pushBackString (p : Properties) (name : String) (value : String) : Properties :=
  { p with strings := setKey p.strings name (p.stringProperty name ++ [value]) }

end Properties

/-- An entity of the associated entities: whether it is a model, and its properties. -/
structure EntityRef where
  isModel : Bool
  properties : Properties
  deriving DecidableEq, Repr

/-- The outcome of an operator. -/
inductive Outcome where
  | OPERATION_FAILED
  | OPERATION_SUCCEEDED
  deriving DecidableEq, Repr

/-- The result of the operator: the outcome given to `createResult` and the positions, in
the associated entities, of the entities added to the result as modified. -/
structure OperatorResult where
  outcome : Outcome
  modified : List Nat
  deriving DecidableEq, Repr

/-- True when the first list of characters starts with the second. -/
def startsWithChars : List Char → List Char → Bool
  | _, [] => true
  | [], _ :: _ => false
  | c :: cs, p :: ps => c == p && startsWithChars cs ps

/-- True when the second list of characters occurs in the first. -/
def containsChars : List Char → List Char → Bool
  | [], pat => pat.isEmpty
  | c :: cs, pat => startsWithChars (c :: cs) pat || containsChars cs pat

/-- The test `text.find(pat) != std::string::npos`. -/
def stringContains (text pat : String) : Bool :=
  containsChars text.data pat.data

/-- The method `AddMaterial::operateInternal`. The conversion of a material to its
string description, which is not part of the sources, is the parameter `describe`. The
result is the operator result with the associated entities and the log afterwards. -/
def operateInternal (describe : Material → String) (spec : Specification)
    (entities : List EntityRef) (log : Logger) : OperatorResult × List EntityRef × Logger :=
  -- access the associated model
  match entities with
  | [] =>
    (⟨Outcome.OPERATION_FAILED, []⟩, entities,
      logError log "An invalid model is provided for Add Materials op")
  | model :: others =>
    if !model.isModel then
      (⟨Outcome.OPERATION_FAILED, []⟩, entities,
        logError log "An invalid model is provided for Add Materials op")
    else
      let label := spec.label
      let color := spec.color
      let material : Material :=
        { m_name := spec.name
          m_temperature := spec.temperature
          m_thermalExpansion := spec.thermalExpansion
          m_density := spec.density
          m_densityType := spec.densityType
          m_compositionType := spec.compositionType
          m_components := spec.component
          m_content := spec.content }
      -- the number of component names must match the number of content values
      if material.m_components.length ≠ material.m_content.length then
        (⟨Outcome.OPERATION_FAILED, []⟩, entities,
          logError log "Size mismatch between components and contents.")
      else
        -- the material name is the lookup index for both the label and the color
        let p1 := (model.properties.setStringProperty material.m_name [label]).setFloatProperty
          material.m_name color
        -- the name is stored using the label "materials"
        let p2 :=
          if !p1.hasStringProperty "materials" then
            let nm := "No Cell Material"
            ((p1.setStringProperty nm [nm]).setFloatProperty nm [1, 1, 1, 1]).setStringProperty
              "materials" [nm, material.m_name]
          else p1.pushBackString "materials" material.m_name
        if !p2.hasStringProperty Material.label then
          -- the property does not yet exist: seed it with the material description
          (⟨Outcome.OPERATION_SUCCEEDED, [0]⟩,
            { model with properties := p2.setStringProperty Material.label [describe material] }
              :: others, log)
        else
          -- search for a description of the current material
          let materialDescriptions := p2.stringProperty Material.label
          if materialDescriptions.any
              (fun d => stringContains d ("material ( " ++ material.m_name ++ " )")) then
            (⟨Outcome.OPERATION_FAILED, []⟩, { model with properties := p2 } :: others, log)
          else
            (⟨Outcome.OPERATION_SUCCEEDED, [0]⟩,
              { model with properties := p2.pushBackString Material.label (describe material) }
                :: others, log)

end AddMaterial

/-- A source object with one cached entry: data object 10 with sequence number 5 for the
UUID `block-a`. -/
def sampleSource : vtkResourceMultiBlockSource.Source :=
  { Cache := [("block-a", ⟨10, 5⟩)], referenceCalls := [] }

/-- A stand-in for the string description of a material, which starts with the words the
operator searches for. -/
def sampleDescribe (m : AddMaterial.Material) : String :=
  "material ( " ++ m.m_name ++ " ) density " ++ m.m_densityType

/-- The specification of a material `steel` with label `st` and the color red. -/
def sampleSteel : AddMaterial.Specification :=
  { label := "st", color := [1, 0, 0, 1], name := "steel", temperature := 300,
    thermalExpansion := 0, density := 8, densityType := "g/cm^3",
    compositionType := "wtfractions", component := ["fe"], content := [1] }

/-- A second specification of a material called `steel`, with another label and the
color blue. -/
def sampleSteelAgain : AddMaterial.Specification :=
  { sampleSteel with label := "s2", color := [0, 0, 1, 1] }

/-- A model without properties. -/
def sampleModel : AddMaterial.EntityRef := ⟨true, ⟨[], []⟩⟩

/-- The associated entities after `AddMaterial` has added `steel` to the model without
properties. -/
def sampleModelWithSteel : List AddMaterial.EntityRef :=
  (AddMaterial.operateInternal sampleDescribe sampleSteel [sampleModel] []).2.1

/-- An item node without the attribute `NumberOfValues`, whose `Values` element gives
the value of index 0. -/
def sampleNoCountNode : XmlNode :=
  XmlNode.mk "Component" [("Name", "ref")] ""
    [XmlNode.mk "Values" [] ""
      [sampleVal [("Ith", "0")] "S1" "K1" "R1" "T1"
        [("Index", "1"), ("TypeName", "smtk::model::Resource"), ("Id", "R1"),
          ("Location", "a.smtk")]]]

/-- A root element whose children come in the order `Associations`, `UniqueRoles`,
`Configurations`, `Prerequisites`, `Exclusions`. -/
def sampleReversedRootNode : XmlNode :=
  XmlNode.mk "SMTK_AttributeResource" [("Version", "3")] ""
    [XmlNode.mk "Associations" [] ""
       [XmlNode.mk "Resource"
         [("Index", "0"), ("TypeName", "smtk::model::Resource"), ("Id", "R1"),
          ("Location", "a.smtk")] "" []],
     XmlNode.mk "UniqueRoles" [] "" [XmlNode.mk "Role" [("ID", "7")] "" []],
     sampleMismatchNode,
     XmlNode.mk "Prerequisites" [] "" [samplePrerequisiteNode],
     XmlNode.mk "Exclusions" [] "" [sampleExclusionNode]]

/-- The sample parser state with a resource whose analyses are exclusive. -/
def sampleExclusiveParserState : ParserState :=
  { sampleParserState with resource := sampleExclusiveResource }

/-- A root element with two associations. -/
def sampleTwoAssociationsNode : XmlNode :=
  XmlNode.mk "SMTK_AttributeResource" [("Version", "3")] ""
    [XmlNode.mk "Associations" [] ""
       [XmlNode.mk "Resource"
         [("Index", "0"), ("TypeName", "smtk::model::Resource"), ("Id", "R1"),
          ("Location", "a.smtk")] "" [],
        XmlNode.mk "Resource"
         [("Index", "1"), ("TypeName", "smtk::mesh::Resource"), ("Id", "R2"),
          ("Location", "b.smtk")] "" []]]

/-! # Theorems -/

namespace XmlDocV3Parser

/-! ## Categories of a definition -/

theorem insertInclusions_eq (cs : List XmlNode) (c : CategorySet) :
    insertInclusions cs c =
      { c with includedCategories := c.includedCategories ∪ (cs.map XmlNode.text).toFinset } := by
  induction cs generalizing c with
  | nil => simp [insertInclusions]
  | cons x xs ih =>
    have h := ih (c.insertInclusion x.text)
    simp only [insertInclusions, List.foldl_cons] at h ⊢
    rw [h]
    simp only [CategorySet.insertInclusion, List.map_cons, List.toFinset_cons]
    congr 1
    ext s
    simp only [Finset.mem_union, Finset.mem_insert, List.mem_toFinset]
    tauto

theorem insertExclusions_eq (cs : List XmlNode) (c : CategorySet) :
    insertExclusions cs c =
      { c with excludedCategories := c.excludedCategories ∪ (cs.map XmlNode.text).toFinset } := by
  induction cs generalizing c with
  | nil => simp [insertExclusions]
  | cons x xs ih =>
    have h := ih (c.insertExclusion x.text)
    simp only [insertExclusions, List.foldl_cons] at h ⊢
    rw [h]
    simp only [CategorySet.insertExclusion, List.map_cons, List.toFinset_cons]
    congr 1
    ext s
    simp only [Finset.mem_union, Finset.mem_insert, List.mem_toFinset]
    tauto

theorem processTag_localCategories (p : OlderParsers) (t : XmlNode) (s : Definition × Logger) :
    (processTag p t s).1.localCategories = s.1.localCategories := by
  unfold processTag Definition.addTag
  simp only
  split_ifs <;> rfl

theorem processTags_localCategories (p : OlderParsers) (ts : List XmlNode)
    (s : Definition × Logger) :
    (ts.foldl (fun s t => processTag p t s) s).1.localCategories = s.1.localCategories := by
  induction ts generalizing s with
  | nil => rfl
  | cons t ts ih => rw [List.foldl_cons, ih, processTag_localCategories]

theorem processDefinitionV3_localCategories (p : OlderParsers) (defNode : XmlNode)
    (d : Definition) (logger : Logger) :
    (processDefinitionV3 p defNode d logger).1.localCategories =
      processDefinitionCategories p defNode d.localCategories := by
  unfold processDefinitionV3
  cases defNode.child "Tags" with
  | none => rfl
  | some tagsNode => simp only [processTags_localCategories]

/-- The old style of a definition node: a `Categories` list and no `CategoryInfo`. -/
theorem processDefinitionCategories_oldStyle (p : OlderParsers) (defNode catNodes : XmlNode)
    (c0 : CategorySet)
    (h1 : defNode.child "CategoryInfo" = none) (h2 : defNode.child "Categories" = some catNodes) :
    processDefinitionCategories p defNode c0 =
      { includedCategories :=
          c0.includedCategories ∪ (catNodes.children.map XmlNode.text).toFinset
        excludedCategories := c0.excludedCategories
        inclusionMode := c0.inclusionMode
        exclusionMode := c0.exclusionMode
        combinationMode :=
          (getCategoryComboMode p (defNode.attr "CategoryCheckMode")).getD c0.combinationMode } := by
  unfold processDefinitionCategories
  simp only [h1, h2, insertInclusions_eq]
  cases getCategoryComboMode p (defNode.attr "CategoryCheckMode") <;>
    simp [CategorySet.setCombinationMode]

/-- The current style with only an `Include` group and no `Combination` attribute. -/
theorem processDefinitionCategories_includeOnly (p : OlderParsers)
    (defNode catInfoNode catGroup : XmlNode) (c0 : CategorySet)
    (h1 : defNode.child "CategoryInfo" = some catInfoNode)
    (h2 : catInfoNode.attr "Combination" = none)
    (h3 : catInfoNode.child "Include" = some catGroup)
    (h4 : catGroup.attr "Combination" = none)
    (h5 : catInfoNode.child "Exclude" = none) :
    processDefinitionCategories p defNode c0 =
      { includedCategories :=
          c0.includedCategories ∪ (catGroup.children.map XmlNode.text).toFinset
        excludedCategories := c0.excludedCategories
        inclusionMode := c0.inclusionMode
        exclusionMode := c0.exclusionMode
        combinationMode :=
          (getCategoryComboMode p (defNode.attr "CategoryCheckMode")).getD c0.combinationMode } := by
  unfold processDefinitionCategories
  simp only [h1, h2, h3, h4, h5, insertInclusions_eq]
  cases getCategoryComboMode p (defNode.attr "CategoryCheckMode") <;>
    simp [CategorySet.setCombinationMode, getCategoryComboMode]

/-- C3. For every definition and every list `L` of category strings, the V3 part of
`processDefinition` gives the same local categories whether `L` is the text of the
children of an old-style `Categories` element (no `CategoryInfo`) or of
`CategoryInfo/Include` (no `Combination` attribute, no `Exclude`): the inclusion set is
the previous one plus the strings of `L`, the exclusion set and the inclusion and
exclusion modes are the previous ones, and the combination mode is changed only by the
`CategoryCheckMode` attribute of the definition node, alike in both forms. -/
theorem processDefinition_categories_oldStyle_eq_include (p : OlderParsers)
    (oldNode newNode catNodes catInfoNode catGroup : XmlNode) (d : Definition)
    (logOld logNew : Logger) (L : List String)
    (hccm : oldNode.attr "CategoryCheckMode" = newNode.attr "CategoryCheckMode")
    (ho1 : oldNode.child "CategoryInfo" = none)
    (ho2 : oldNode.child "Categories" = some catNodes)
    (ho3 : catNodes.children.map XmlNode.text = L)
    (hn1 : newNode.child "CategoryInfo" = some catInfoNode)
    (hn2 : catInfoNode.attr "Combination" = none)
    (hn3 : catInfoNode.child "Include" = some catGroup)
    (hn4 : catGroup.attr "Combination" = none)
    (hn5 : catGroup.children.map XmlNode.text = L)
    (hn6 : catInfoNode.child "Exclude" = none) :
    (processDefinitionV3 p oldNode d logOld).1.localCategories =
        (processDefinitionV3 p newNode d logNew).1.localCategories ∧
      (processDefinitionV3 p newNode d logNew).1.localCategories.includedCategories =
        d.localCategories.includedCategories ∪ L.toFinset ∧
      (processDefinitionV3 p newNode d logNew).1.localCategories.excludedCategories =
        d.localCategories.excludedCategories ∧
      (processDefinitionV3 p newNode d logNew).1.localCategories.inclusionMode =
        d.localCategories.inclusionMode ∧
      (processDefinitionV3 p newNode d logNew).1.localCategories.exclusionMode =
        d.localCategories.exclusionMode ∧
      (processDefinitionV3 p newNode d logNew).1.localCategories.combinationMode =
        (getCategoryComboMode p (newNode.attr "CategoryCheckMode")).getD
          d.localCategories.combinationMode := by
  rw [processDefinitionV3_localCategories, processDefinitionV3_localCategories,
    processDefinitionCategories_oldStyle p oldNode catNodes _ ho1 ho2,
    processDefinitionCategories_includeOnly p newNode catInfoNode catGroup _ hn1 hn2 hn3 hn4 hn6,
    ho3, hn5, hccm]
  exact ⟨rfl, rfl, rfl, rfl, rfl, rfl⟩

/-- Witness of C3: the two sample definition nodes, with `L = [solid, thermal]`. -/
theorem processDefinition_categories_oldStyle_eq_include_witness :
    (processDefinitionV3 sampleOlderParsers sampleOldStyleNode sampleDefinition []).1.localCategories =
        (processDefinitionV3 sampleOlderParsers sampleNewStyleNode sampleDefinition
          []).1.localCategories ∧
      (processDefinitionV3 sampleOlderParsers sampleNewStyleNode sampleDefinition
          []).1.localCategories.includedCategories =
        sampleDefinition.localCategories.includedCategories ∪ ["solid", "thermal"].toFinset :=
  have h := processDefinition_categories_oldStyle_eq_include sampleOlderParsers
    sampleOldStyleNode sampleNewStyleNode
    (XmlNode.mk "Categories" [] "" [catNode "solid", catNode "thermal"])
    (XmlNode.mk "CategoryInfo" [] ""
      [XmlNode.mk "Include" [] "" [catNode "solid", catNode "thermal"]])
    (XmlNode.mk "Include" [] "" [catNode "solid", catNode "thermal"])
    sampleDefinition [] [] ["solid", "thermal"]
    rfl rfl rfl rfl rfl rfl rfl rfl rfl rfl
  ⟨h.1, h.2.1⟩

/-- The current style: the sets after a `CategoryInfo` node has been read. -/
theorem processDefinitionCategories_categoryInfo (p : OlderParsers)
    (defNode catInfoNode : XmlNode) (c0 : CategorySet)
    (h : defNode.child "CategoryInfo" = some catInfoNode) :
    (processDefinitionCategories p defNode c0).includedCategories =
        c0.includedCategories ∪ groupTexts catInfoNode "Include" ∧
      (processDefinitionCategories p defNode c0).excludedCategories =
        c0.excludedCategories ∪ groupTexts catInfoNode "Exclude" := by
  unfold processDefinitionCategories groupTexts
  simp only [h, insertInclusions_eq, insertExclusions_eq]
  cases getCategoryComboMode p (defNode.attr "CategoryCheckMode") <;>
  cases getCategoryComboMode p (catInfoNode.attr "Combination") <;>
  cases catInfoNode.child "Include" <;>
  cases catInfoNode.child "Exclude" <;>
  simp only [CategorySet.setCombinationMode, CategorySet.setInclusionMode,
    CategorySet.setExclusionMode, Finset.union_empty, and_self] <;>
  (repeat' split) <;>
  simp [CategorySet.setCombinationMode, CategorySet.setInclusionMode,
    CategorySet.setExclusionMode]

/-- C4. When a definition node has both a `Categories` element and a `CategoryInfo`
element, the V3 part of `processDefinition` adds to the local inclusion set exactly the
strings under `CategoryInfo/Include` and to the local exclusion set exactly the strings
under `CategoryInfo/Exclude`; a child of `Categories` that is neither there already nor
listed under the group is not inserted. -/
theorem processDefinition_categoryInfo_wins (p : OlderParsers)
    (defNode catNodes catInfoNode : XmlNode) (d : Definition) (logger : Logger)
    (h1 : defNode.child "Categories" = some catNodes)
    (h2 : defNode.child "CategoryInfo" = some catInfoNode) :
    (processDefinitionV3 p defNode d logger).1.localCategories.includedCategories =
        d.localCategories.includedCategories ∪ groupTexts catInfoNode "Include" ∧
      (processDefinitionV3 p defNode d logger).1.localCategories.excludedCategories =
        d.localCategories.excludedCategories ∪ groupTexts catInfoNode "Exclude" ∧
      (∀ c ∈ catNodes.children,
        c.text ∉ d.localCategories.includedCategories →
        c.text ∉ groupTexts catInfoNode "Include" →
        c.text ∉ (processDefinitionV3 p defNode d logger).1.localCategories.includedCategories) ∧
      (∀ c ∈ catNodes.children,
        c.text ∉ d.localCategories.excludedCategories →
        c.text ∉ groupTexts catInfoNode "Exclude" →
        c.text ∉ (processDefinitionV3 p defNode d logger).1.localCategories.excludedCategories) := by
  have _hc := h1
  rw [processDefinitionV3_localCategories]
  obtain ⟨hi, he⟩ := processDefinitionCategories_categoryInfo p defNode catInfoNode
    d.localCategories h2
  refine ⟨hi, he, ?_, ?_⟩
  · intro c _ hc1 hc2
    rw [hi, Finset.mem_union]
    tauto
  · intro c _ hc1 hc2
    rw [he, Finset.mem_union]
    tauto

/-- Witness of C4: in the sample node with both forms the inclusion set is `solid`
alone; `legacy`, listed under `Categories`, is not inserted. -/
theorem processDefinition_categoryInfo_wins_witness :
    (processDefinitionV3 sampleOlderParsers sampleBothStylesNode sampleDefinition
        []).1.localCategories.includedCategories =
      sampleDefinition.localCategories.includedCategories ∪
        groupTexts (XmlNode.mk "CategoryInfo" [("Combination", "And")] ""
          [XmlNode.mk "Include" [] "" [catNode "solid"],
           XmlNode.mk "Exclude" [] "" [catNode "thermal"]]) "Include" ∧
    "legacy" ∉ (processDefinitionV3 sampleOlderParsers sampleBothStylesNode sampleDefinition
        []).1.localCategories.includedCategories :=
  have h := processDefinition_categoryInfo_wins sampleOlderParsers sampleBothStylesNode
    (XmlNode.mk "Categories" [] "" [catNode "legacy"])
    (XmlNode.mk "CategoryInfo" [("Combination", "And")] ""
      [XmlNode.mk "Include" [] "" [catNode "solid"],
       XmlNode.mk "Exclude" [] "" [catNode "thermal"]])
    sampleDefinition [] rfl rfl
  ⟨h.1, h.2.2.1 (catNode "legacy") (List.mem_singleton.mpr rfl) (by decide) (by decide)⟩

end XmlDocV3Parser

/-! ## The link table -/

namespace LinkTable

theorem contains_iff (t : LinkTable) (x : UUID) :
    t.contains x = true ↔ ∃ e ∈ t.entries, e.id = x := by
  simp [contains, List.any_eq_true]

theorem contains_insert_self (t : LinkTable) (s : Surrogate) (id left right : UUID)
    (role : Option Int) : (t.insert s id left right role).contains id = true := by
  unfold insert
  by_cases h : t.contains id = true
  · simp [h]
  · simp only [h, Bool.false_eq_true, if_false]
    simp [contains]

theorem contains_insert_of_ne (t : LinkTable) (s : Surrogate) (id left right x : UUID)
    (role : Option Int) (hx : x ≠ id) :
    (t.insert s id left right role).contains x = t.contains x := by
  unfold insert
  by_cases h : t.contains id = true
  · simp [h]
  · simp only [h, Bool.false_eq_true, if_false]
    simp [contains, Ne.symm hx]

theorem entry_insert_self (t : LinkTable) (s : Surrogate) (id left right : UUID)
    (role : Option Int) (h : t.contains id = false) :
    (t.insert s id left right role).entry id = some ⟨s, id, left, right, role, []⟩ := by
  unfold insert
  simp only [h, Bool.false_eq_true, if_false, entry]
  rw [List.find?_append]
  have hn : t.entries.find? (fun e => e.id == id) = none := by
    rw [List.find?_eq_none]
    intro e he
    simp only [contains, List.any_eq_false] at h
    exact h e he
  simp [hn]

theorem entry_insert_of_ne (t : LinkTable) (s : Surrogate) (id left right x : UUID)
    (role : Option Int) (hx : x ≠ id) :
    (t.insert s id left right role).entry x = t.entry x := by
  unfold insert
  by_cases h : t.contains id = true
  · simp [h]
  · simp only [h, Bool.false_eq_true, if_false, entry]
    rw [List.find?_append]
    cases t.entries.find? (fun e => e.id == x) with
    | some e => rfl
    | none => simp [Ne.symm hx]

theorem entry_isSome_iff (t : LinkTable) (x : UUID) :
    (t.entry x).isSome = t.contains x := by
  rw [Bool.eq_iff_iff]
  simp [entry, contains, List.find?_isSome, List.any_eq_true]

theorem entry_eq_none (t : LinkTable) (x : UUID) (h : t.contains x = false) :
    t.entry x = none := by
  have := entry_isSome_iff t x
  rw [h] at this
  cases he : t.entry x with
  | none => rfl
  | some e => rw [he] at this; simp at this

end LinkTable

theorem insertRowInto_isSome (es : List LinkEntry) (id : UUID) (row : LinkRow)
    (h : ∃ e ∈ es, e.id = id) : ∃ r, insertRowInto es id row = some r := by
  induction es with
  | nil => obtain ⟨e, he, _⟩ := h; cases he
  | cons a as ih =>
    unfold insertRowInto
    by_cases ha : a.id = id
    · simp [ha]
    · simp only [ha, if_false]
      obtain ⟨e, he, hid⟩ := h
      rcases List.mem_cons.mp he with rfl | he2
      · exact absurd hid ha
      · obtain ⟨r, hr⟩ := ih ⟨e, he2, hid⟩
        exact ⟨a :: r, by simp [hr]⟩

theorem insertRowInto_find_self (es r : List LinkEntry) (id : UUID) (row : LinkRow)
    (h : insertRowInto es id row = some r) :
    ∃ e, es.find? (fun e => e.id == id) = some e ∧
      r.find? (fun e => e.id == id) = some { e with rows := e.rows ++ [row] } := by
  induction es generalizing r with
  | nil => simp [insertRowInto] at h
  | cons a as ih =>
    unfold insertRowInto at h
    by_cases ha : a.id = id
    · rw [if_pos ha] at h
      injection h with h
      subst h
      exact ⟨a, by simp [ha], by simp [ha]⟩
    · simp only [ha, if_false, Option.map_eq_some'] at h
      obtain ⟨r2, hr2, rfl⟩ := h
      obtain ⟨e, he1, he2⟩ := ih r2 hr2
      exact ⟨e, by simp [ha, he1], by simp [ha, he2]⟩

theorem insertRowInto_find_of_ne (es r : List LinkEntry) (id x : UUID) (row : LinkRow)
    (h : insertRowInto es id row = some r) (hx : x ≠ id) :
    r.find? (fun e => e.id == x) = es.find? (fun e => e.id == x) := by
  induction es generalizing r with
  | nil => simp [insertRowInto] at h
  | cons a as ih =>
    unfold insertRowInto at h
    by_cases ha : a.id = id
    · rw [if_pos ha] at h
      injection h with h
      subst h
      have : ¬ a.id = x := fun hax => hx (hax.symm.trans ha)
      simp [this]
    · simp only [ha, if_false, Option.map_eq_some'] at h
      obtain ⟨r2, hr2, rfl⟩ := h
      by_cases hax : a.id = x
      · simp [hax]
      · simp [hax, ih r2 hr2]

namespace LinkTable

theorem insertRow_isSome (t : LinkTable) (id : UUID) (row : LinkRow)
    (h : t.contains id = true) : ∃ t2, t.insertRow id row = some t2 := by
  obtain ⟨r, hr⟩ := insertRowInto_isSome t.entries id row ((contains_iff t id).mp h)
  exact ⟨⟨r⟩, by simp [insertRow, hr]⟩

theorem entry_insertRow_self (t t2 : LinkTable) (id : UUID) (row : LinkRow)
    (h : t.insertRow id row = some t2) :
    ∃ e, t.entry id = some e ∧ t2.entry id = some { e with rows := e.rows ++ [row] } := by
  simp only [insertRow, Option.map_eq_some'] at h
  obtain ⟨r, hr, rfl⟩ := h
  exact insertRowInto_find_self t.entries r id row hr

theorem entry_insertRow_of_ne (t t2 : LinkTable) (id x : UUID) (row : LinkRow)
    (h : t.insertRow id row = some t2) (hx : x ≠ id) : t2.entry x = t.entry x := by
  simp only [insertRow, Option.map_eq_some'] at h
  obtain ⟨r, hr, rfl⟩ := h
  exact insertRowInto_find_of_ne t.entries r id x row hr hx

theorem contains_insertRow (t t2 : LinkTable) (id x : UUID) (row : LinkRow)
    (h : t.insertRow id row = some t2) : t2.contains x = t.contains x := by
  rw [← entry_isSome_iff, ← entry_isSome_iff]
  by_cases hx : x = id
  · subst hx
    obtain ⟨e, h1, h2⟩ := entry_insertRow_self t t2 x row h
    rw [h1, h2]; rfl
  · rw [entry_insertRow_of_ne t t2 id x row h hx]

end LinkTable

/-! ## Reference items -/

namespace XmlDocV3Parser

/-- What one value does: the function has a result, and the result is described field
by field. -/
theorem processReferenceVal_spec (ctx : ResourceContext) (val : XmlNode) (i : Int)
    (s : RefState) :
    ∃ s2, processReferenceVal ctx val i s = some s2 ∧
      s2.item = (s.item.setObjectKey i (valKey val)).2 ∧
      s2.logger = s.logger ∧
      s2.calls = s.calls ++ [Call.setObjectKey i (valKey val), Call.linksContains (valKey val).1] ++
        (if !s.links.contains (valKey val).1 then
          [Call.linksInsert (valSurrogate val) (valKey val).1 ctx.resourceId
            (childText (val.child "RHS") "_1_")]
         else []) ++ [Call.linksValueInsert (valKey val).1 (valRow val s.item)] ∧
      s2.links.contains (valKey val).1 = true ∧
      (∀ x, x ≠ (valKey val).1 → s2.links.entry x = s.links.entry x) ∧
      (s.links.contains (valKey val).1 = true →
        ∃ e, s.links.entry (valKey val).1 = some e ∧
          s2.links.entry (valKey val).1 =
            some { e with rows := e.rows ++ [valRow val s.item] }) ∧
      (s.links.contains (valKey val).1 = false →
        s2.links.entry (valKey val).1 =
          some ⟨valSurrogate val, (valKey val).1, ctx.resourceId,
            childText (val.child "RHS") "_1_", none, [valRow val s.item]⟩) := by
  unfold processReferenceVal
  simp only
  by_cases hc : s.links.contains (valKey val).1 = true
  · simp only [hc, Bool.not_true, Bool.false_eq_true, if_false]
    obtain ⟨t2, ht2⟩ := LinkTable.insertRow_isSome s.links (valKey val).1 (valRow val s.item) hc
    rw [ht2]
    refine ⟨_, rfl, rfl, rfl, rfl, ?_, ?_, ?_, ?_⟩
    · rw [LinkTable.contains_insertRow _ _ _ _ _ ht2]; exact hc
    · intro x hx; exact LinkTable.entry_insertRow_of_ne _ _ _ _ _ ht2 hx
    · intro _; exact LinkTable.entry_insertRow_self _ _ _ _ ht2
    · intro h; cases h
  · have hc2 : s.links.contains (valKey val).1 = false := by
      cases h : s.links.contains (valKey val).1 with
      | true => exact absurd h hc
      | false => rfl
    simp only [hc2, Bool.not_false, if_true]
    have hin := LinkTable.contains_insert_self s.links (valSurrogate val) (valKey val).1
      ctx.resourceId (childText (val.child "RHS") "_1_") none
    obtain ⟨t2, ht2⟩ := LinkTable.insertRow_isSome _ (valKey val).1 (valRow val s.item) hin
    rw [ht2]
    refine ⟨_, rfl, rfl, rfl, rfl, ?_, ?_, ?_, ?_⟩
    · rw [LinkTable.contains_insertRow _ _ _ _ _ ht2]; exact hin
    · intro x hx
      rw [LinkTable.entry_insertRow_of_ne _ _ _ _ _ ht2 hx,
        LinkTable.entry_insert_of_ne _ _ _ _ _ _ _ hx]
    · intro h; cases h
    · intro _
      obtain ⟨e, he1, he2⟩ := LinkTable.entry_insertRow_self _ _ _ _ ht2
      rw [LinkTable.entry_insert_self _ _ _ _ _ _ hc2] at he1
      injection he1 with he1
      rw [he2, ← he1]
      rfl

end XmlDocV3Parser

namespace XmlDocV3Parser

theorem surrogatesAfter_refl (s s2 : RefState) (h1 : s2.links = s.links)
    (h2 : ∀ x, surrogateInsertions s2.calls x = surrogateInsertions s.calls x) :
    SurrogatesAfter s s2 [] := by
  intro x
  simp only [h1, h2 x, namesSurrogate, List.any_nil, Bool.or_false, Bool.and_false,
    Bool.false_eq_true, if_false, Nat.add_zero, firstSurrogateFor, List.find?_nil,
    Option.map_none', true_and]
  cases hc : s.links.contains x with
  | true => simp
  | false => simp [LinkTable.surrogate, LinkTable.entry_eq_none _ _ hc]

theorem surrogatesAfter_trans (s s1 s2 : RefState) (l1 l2 : List XmlNode)
    (h1 : SurrogatesAfter s s1 l1) (h2 : SurrogatesAfter s1 s2 l2) :
    SurrogatesAfter s s2 (l1 ++ l2) := by
  intro x
  obtain ⟨a1, b1, c1⟩ := h1 x
  obtain ⟨a2, b2, c2⟩ := h2 x
  rw [a2, b2, c2, a1, b1, c1]
  simp only [namesSurrogate, firstSurrogateFor, List.any_append, List.find?_append]
  rcases Bool.eq_false_or_eq_true (s.links.contains x) with hc | hc
  · simp [hc]
  · rcases Bool.eq_false_or_eq_true (l1.any (fun v => (valKey v).1 == x)) with hn | hn
    · obtain ⟨v, hv⟩ : ∃ v, l1.find? (fun v => (valKey v).1 == x) = some v := by
        rw [← Option.isSome_iff_exists, List.find?_isSome]
        simpa using hn
      simp [hc, hn, hv]
    · have hf : l1.find? (fun v => (valKey v).1 == x) = none := by
        rw [List.find?_eq_none]
        intro v hv
        have := List.any_eq_false.mp hn v hv
        simpa using this
      simp [hc, hn, hf]

theorem surrogatesAfter_val (ctx : ResourceContext) (val : XmlNode) (i : Int)
    (s s2 : RefState) (h : processReferenceVal ctx val i s = some s2) :
    SurrogatesAfter s s2 [val] := by
  obtain ⟨s3, h3, _, _, hcalls, hin, hne, hold, hnew⟩ := processReferenceVal_spec ctx val i s
  rw [h] at h3
  injection h3 with h3
  subst h3
  intro x
  simp only [namesSurrogate, List.any_cons, List.any_nil, Bool.or_false, firstSurrogateFor,
    List.find?_cons, List.find?_nil]
  by_cases hx : x = (valKey val).1
  · subst hx
    simp only [beq_self_eq_true, Bool.or_true, Option.map_some', hin, true_and, Bool.and_true]
    cases hc : s.links.contains (valKey val).1 with
    | true =>
      obtain ⟨e, he1, he2⟩ := hold hc
      refine ⟨by simp [LinkTable.surrogate, he1, he2], ?_⟩
      rw [hcalls, hc]
      simp [surrogateInsertions, List.countP_append, List.countP_cons]
    | false =>
      refine ⟨by simp [LinkTable.surrogate, hnew hc], ?_⟩
      rw [hcalls, hc]
      simp [surrogateInsertions, List.countP_append, List.countP_cons]
  · have hx2 : ((valKey val).1 == x) = false := by
      simp only [beq_eq_false_iff_ne, ne_eq]
      exact fun h => hx h.symm
    have hcx : s2.links.contains x = s.links.contains x := by
      rw [← LinkTable.entry_isSome_iff, ← LinkTable.entry_isSome_iff, hne x hx]
    simp only [hx2, Bool.or_false, Bool.and_false, Bool.false_eq_true, if_false,
      Nat.add_zero, Option.map_none', hcx, true_and]
    constructor
    · cases hc : s.links.contains x with
      | true => simp [LinkTable.surrogate, hne x hx]
      | false => simp [LinkTable.surrogate, hne x hx, LinkTable.entry_eq_none _ _ hc]
    · rw [hcalls]
      have hx3 : ¬ (valKey val).1 = x := fun h => hx h.symm
      by_cases hc : s.links.contains (valKey val).1 = true <;>
        simp [surrogateInsertions, List.countP_append, List.countP_cons, hc, hx3]

theorem keysRegistered_of_links_eq (s s2 : RefState) (added : List Call)
    (hl : s2.links = s.links) (hc : s2.calls = s.calls ++ added)
    (ha : ∀ c ∈ added, c.isLookup = false ∧ ∀ i k, c ≠ Call.setObjectKey i k)
    (hk : ∀ (i : Nat) (k : Key), s2.item.keys[i]? = some (some k) →
      s.item.keys[i]? = some (some k)) :
    KeysRegistered s s2 := by
  refine ⟨⟨added, hc, fun c hcm => (ha c hcm).1, ?_⟩, ?_, ?_⟩
  · intro i k hm
    exact absurd rfl ((ha _ hm).2 i k)
  · intro x hx; rw [hl]; exact hx
  · intro i k h; exact Or.inl (hk i k h)

theorem keysRegistered_trans (s s1 s2 : RefState) (h1 : KeysRegistered s s1)
    (h2 : KeysRegistered s1 s2) : KeysRegistered s s2 := by
  obtain ⟨⟨a1, hc1, hl1, hk1⟩, hm1, hi1⟩ := h1
  obtain ⟨⟨a2, hc2, hl2, hk2⟩, hm2, hi2⟩ := h2
  refine ⟨⟨a1 ++ a2, by rw [hc2, hc1, List.append_assoc], ?_, ?_⟩, ?_, ?_⟩
  · intro c hc
    rcases List.mem_append.mp hc with h | h
    · exact hl1 c h
    · exact hl2 c h
  · intro i k hc
    rcases List.mem_append.mp hc with h | h
    · exact hm2 _ (hk1 i k h)
    · exact hk2 i k h
  · intro x hx; exact hm2 x (hm1 x hx)
  · intro i k h
    rcases hi2 i k h with h3 | h3
    · rcases hi1 i k h3 with h4 | h4
      · exact Or.inl h4
      · exact Or.inr (hm2 _ h4)
    · exact Or.inr h3

theorem keysRegistered_val (ctx : ResourceContext) (val : XmlNode) (i : Int)
    (s s2 : RefState) (h : processReferenceVal ctx val i s = some s2) :
    KeysRegistered s s2 := by
  obtain ⟨s3, h3, hitem, _, hcalls, hin, hne, _, _⟩ := processReferenceVal_spec ctx val i s
  rw [h] at h3
  injection h3 with h3
  subst h3
  have hmono : ∀ x, s.links.contains x = true → s2.links.contains x = true := by
    intro x hx
    by_cases hxk : x = (valKey val).1
    · rw [hxk]; exact hin
    · rw [← LinkTable.entry_isSome_iff, hne x hxk, LinkTable.entry_isSome_iff]; exact hx
  refine ⟨⟨_, by rw [hcalls, List.append_assoc, List.append_assoc], ?_, ?_⟩, hmono, ?_⟩
  · intro c hc
    simp only [List.mem_append, List.mem_cons, List.mem_singleton, List.not_mem_nil,
      or_false] at hc
    rcases hc with (rfl | rfl) | hc | rfl
    · rfl
    · rfl
    · split at hc
      · rw [List.mem_singleton] at hc; subst hc; rfl
      · cases hc
    · rfl
  · intro j k hc
    simp only [List.mem_append, List.mem_cons, List.mem_singleton, List.not_mem_nil,
      or_false] at hc
    rcases hc with (hc | hc) | hc | hc
    · injection hc with _ hk; rw [hk]; exact hin
    · cases hc
    · split at hc
      · rw [List.mem_singleton] at hc; cases hc
      · cases hc
    · cases hc
  · intro j k hj
    rw [hitem] at hj
    unfold ReferenceItem.setObjectKey at hj
    by_cases hi : 0 ≤ i ∧ i < s.item.keys.length
    · rw [if_pos hi] at hj
      have hlen : i.toNat < s.item.keys.length := by omega
      by_cases hij : i.toNat = j
      · subst hij
        simp only at hj
        rw [List.getElem?_set_self hlen] at hj
        injection hj with hj
        injection hj with hj
        rw [← hj]
        exact Or.inr hin
      · simp only at hj
        rw [List.getElem?_set_ne hij] at hj
        exact Or.inl hj
    · rw [if_neg hi] at hj
      exact Or.inl hj

theorem processValuesVal_cases (ctx : ResourceContext) (n : Nat) (val : XmlNode)
    (s : RefState) :
    (ithInRange n val = false ∧
      ∃ msg, processValuesVal ctx n val s = some { s with logger := logError s.logger msg }) ∨
    (ithInRange n val = true ∧
      ∃ t, val.attr "Ith" = some t ∧ textAsUInt t < n ∧
        processValuesVal ctx n val s =
          processReferenceVal ctx val (static_cast_int (textAsUInt t)) s) := by
  unfold processValuesVal ithInRange
  cases val.attr "Ith" with
  | none => exact Or.inl ⟨rfl, _, rfl⟩
  | some t =>
    by_cases h : n ≤ textAsUInt t
    · refine Or.inl ⟨by simpa using h, "XML Attribute Ith = " ++ toString (textAsUInt t) ++
        " is out of range for Item: " ++ s.item.name, ?_⟩
      simp only [h, if_true]
    · refine Or.inr ⟨by simpa using h, t, rfl, by omega, ?_⟩
      simp only [h, if_false]

theorem resizeKeys_getElem? (ks : List (Option Key)) (n i : Nat) (k : Key)
    (h : (ReferenceItem.resizeKeys ks n)[i]? = some (some k)) : ks[i]? = some (some k) := by
  unfold ReferenceItem.resizeKeys at h
  rw [List.getElem?_append] at h
  split at h
  · rw [List.getElem?_take] at h
    split at h
    · exact h
    · cases h
  · rw [List.getElem?_replicate] at h
    split at h
    · injection h with h; cases h
    · cases h

theorem setNumberOfValues_frame (item : ReferenceItem) (n : Nat) :
    (item.setNumberOfValues n).2.attributeId = item.attributeId ∧
    (item.setNumberOfValues n).2.name = item.name ∧
    (∀ (i : Nat) (k : Key), (item.setNumberOfValues n).2.keys[i]? = some (some k) →
      item.keys[i]? = some (some k)) := by
  unfold ReferenceItem.setNumberOfValues
  split_ifs
  · exact ⟨rfl, rfl, fun _ _ h => h⟩
  · exact ⟨rfl, rfl, fun _ _ h => h⟩
  · exact ⟨rfl, rfl, fun _ _ h => h⟩
  · split
    · split_ifs
      · exact ⟨rfl, rfl, fun _ _ h => h⟩
      · exact ⟨rfl, rfl, fun i k h => resizeKeys_getElem? _ _ i k h⟩
    · exact ⟨rfl, rfl, fun i k h => resizeKeys_getElem? _ _ i k h⟩

/-- The first part of `processReferenceItem` touches neither the link table nor, when
it returns a count, the logger; the only call it makes is `setNumberOfValues`. -/
theorem referenceItemCount_frame (node : XmlNode) (s : RefState) :
    (∀ s1, referenceItemCount node s = Sum.inl s1 →
      s1.links = s.links ∧ s1.calls = s.calls ∧ s1.item = s.item) ∧
    (∀ n s1, referenceItemCount node s = Sum.inr (n, s1) →
      s1.links = s.links ∧ s1.logger = s.logger ∧
      (s1.calls = s.calls ∨ s1.calls = s.calls ++ [Call.setNumberOfValues n]) ∧
      s1.item.attributeId = s.item.attributeId ∧
      (∀ (i : Nat) (k : Key), s1.item.keys[i]? = some (some k) →
        s.item.keys[i]? = some (some k))) := by
  unfold referenceItemCount
  split_ifs
  · cases node.attr "NumberOfValues" with
    | none =>
      refine ⟨fun s1 h => ?_, fun n s1 h => ?_⟩
      · injection h with h; subst h; exact ⟨rfl, rfl, rfl⟩
      · cases h
    | some v =>
      refine ⟨fun s1 h => ?_, fun n s1 h => ?_⟩
      · cases h
      · injection h with h
        injection h with h1 h2
        subst h1 h2
        obtain ⟨ha, _, hk⟩ := setNumberOfValues_frame s.item (textAsUInt v)
        exact ⟨rfl, rfl, Or.inr rfl, ha, hk⟩
  · refine ⟨fun s1 h => ?_, fun n s1 h => ?_⟩
    · cases h
    · injection h with h
      injection h with h1 h2
      subst h1 h2
      exact ⟨rfl, rfl, Or.inl rfl, rfl, fun _ _ h => h⟩

theorem surrogateInsertions_append_setNumberOfValues (calls : List Call) (n : Nat) (x : UUID) :
    surrogateInsertions (calls ++ [Call.setNumberOfValues n]) x = surrogateInsertions calls x := by
  simp [surrogateInsertions, List.countP_append, List.countP_cons]

/-- The loop over the `Val` children of `Values` always runs to its end; the values
read are those of the `Val` elements that pass the `Ith` checks. -/
theorem processValues_spec (ctx : ResourceContext) (n : Nat) (vals : List XmlNode)
    (s : RefState) :
    ∃ s2, processValues ctx n vals s = some s2 ∧
      SurrogatesAfter s s2 (vals.filter (ithInRange n)) ∧ KeysRegistered s s2 := by
  induction vals generalizing s with
  | nil =>
    exact ⟨s, rfl, surrogatesAfter_refl s s rfl (fun _ => rfl),
      keysRegistered_of_links_eq s s [] rfl (by simp) (by simp) (fun _ _ h => h)⟩
  | cons val vals ih =>
    unfold processValues
    rcases processValuesVal_cases ctx n val s with ⟨hr, msg, hs⟩ | ⟨hr, t, _, _, hs⟩
    · rw [hs]
      obtain ⟨s2, h2, hsur, hkeys⟩ := ih { s with logger := logError s.logger msg }
      refine ⟨s2, h2, ?_, ?_⟩
      · rw [List.filter_cons_of_neg (by simp [hr])]
        have := surrogatesAfter_trans s _ s2 [] _
          (surrogatesAfter_refl s { s with logger := logError s.logger msg } rfl
            (fun _ => rfl)) hsur
        simpa using this
      · exact keysRegistered_trans s _ s2
          (keysRegistered_of_links_eq s _ [] rfl (by simp) (by simp) (fun _ _ h => h)) hkeys
    · rw [hs]
      obtain ⟨s1, h1, _⟩ := processReferenceVal_spec ctx val (static_cast_int (textAsUInt t)) s
      rw [h1]
      obtain ⟨s2, h2, hsur, hkeys⟩ := ih s1
      refine ⟨s2, h2, ?_, ?_⟩
      · rw [List.filter_cons_of_pos (by simp [hr])]
        exact surrogatesAfter_trans s s1 s2 [val] _ (surrogatesAfter_val ctx val _ s s1 h1) hsur
      · exact keysRegistered_trans s s1 s2 (keysRegistered_val ctx val _ s s1 h1) hkeys

/-- The method `processReferenceItem` always returns; the relations between the state
before and after hold for the values it reads. -/
theorem processReferenceItem_spec (ctx : ResourceContext) (node : XmlNode) (s : RefState) :
    ∃ s2, processReferenceItem ctx node s = some s2 ∧
      SurrogatesAfter s s2 (valuesRead node s) ∧ KeysRegistered s s2 := by
  obtain ⟨hl, hr⟩ := referenceItemCount_frame node s
  unfold processReferenceItem valuesRead
  cases hcnt : referenceItemCount node s with
  | inl s1 =>
    obtain ⟨h1, h2, h3⟩ := hl s1 hcnt
    exact ⟨s1, rfl, surrogatesAfter_refl s s1 h1 (fun _ => by rw [h2]),
      keysRegistered_of_links_eq s s1 [] h1 (by simp [h2]) (by simp)
        (fun _ _ h => by rw [h3] at h; exact h)⟩
  | inr r =>
    obtain ⟨n, s1⟩ := r
    obtain ⟨h1, _, h2, _, h3⟩ := hr n s1 hcnt
    have hs1 : SurrogatesAfter s s1 [] := by
      refine surrogatesAfter_refl s s1 h1 (fun x => ?_)
      rcases h2 with h2 | h2
      · rw [h2]
      · rw [h2, surrogateInsertions_append_setNumberOfValues]
    have hk1 : KeysRegistered s s1 := by
      rcases h2 with h2 | h2
      · exact keysRegistered_of_links_eq s s1 [] h1 (by simp [h2]) (by simp) h3
      · refine keysRegistered_of_links_eq s s1 [Call.setNumberOfValues n] h1 h2 ?_ h3
        intro c hc
        rw [List.mem_singleton] at hc
        subst hc
        exact ⟨rfl, fun _ _ h => by cases h⟩
    simp only
    by_cases hn : n = 0
    · simp only [hn, if_true]
      exact ⟨s1, rfl, hs1, hk1⟩
    · simp only [hn, if_false]
      cases node.child "Values" with
      | some valsNode =>
        simp only
        obtain ⟨s2, h4, h5, h6⟩ := processValues_spec ctx n (valsNode.childrenNamed "Val") s1
        refine ⟨s2, h4, ?_, keysRegistered_trans s s1 s2 hk1 h6⟩
        have := surrogatesAfter_trans s s1 s2 [] _ hs1 h5
        simpa using this
      | none =>
        simp only
        by_cases hreq : s.item.numberOfRequiredValues = 1
        · simp only [hreq, if_true]
          cases node.child "Val" with
          | some val =>
            simp only [Option.toList]
            obtain ⟨s2, h4, _⟩ := processReferenceVal_spec ctx val 0 s1
            refine ⟨s2, h4, ?_, keysRegistered_trans s s1 s2 hk1
              (keysRegistered_val ctx val 0 s1 s2 h4)⟩
            have := surrogatesAfter_trans s s1 s2 [] _ hs1 (surrogatesAfter_val ctx val 0 s1 s2 h4)
            simpa using this
          | none =>
            simp only [Option.toList]
            exact ⟨s1, rfl, hs1, hk1⟩
        · simp only [hreq, if_false]
          refine ⟨_, rfl, ?_, ?_⟩
          · have := surrogatesAfter_trans s s1 _ [] [] hs1
              (surrogatesAfter_refl s1 ⟨s1.item, s1.links, logError s1.logger
                ("XML Node Values is missing for Item: " ++ s1.item.name), s1.calls⟩
                rfl (fun _ => rfl))
            simpa using this
          · exact keysRegistered_trans s s1 _ hk1
              (keysRegistered_of_links_eq s1 _ [] rfl (by simp) (by simp) (fun _ _ h => h))

theorem setObjectKey_frame (item : ReferenceItem) (i : Int) (key : Key) :
    (item.setObjectKey i key).2.keys.length = item.keys.length ∧
    (item.setObjectKey i key).2.attributeId = item.attributeId := by
  unfold ReferenceItem.setObjectKey
  split_ifs
  · exact ⟨List.length_set _ _ _, rfl⟩
  · exact ⟨rfl, rfl⟩

/-- Rows of the link table after one value: the row of the value is appended to the
rows of its surrogate id, the rows of every other id are the same. -/
theorem processReferenceVal_rows (ctx : ResourceContext) (val : XmlNode) (i : Int)
    (s s2 : RefState) (h : processReferenceVal ctx val i s = some s2) :
    s2.links.rows (valKey val).1 = s.links.rows (valKey val).1 ++ [valRow val s.item] ∧
    (∀ x, x ≠ (valKey val).1 → s2.links.rows x = s.links.rows x) := by
  obtain ⟨s3, h3, _, _, _, _, hne, hold, hnew⟩ := processReferenceVal_spec ctx val i s
  rw [h] at h3
  injection h3 with h3
  subst h3
  constructor
  · rcases Bool.eq_false_or_eq_true (s.links.contains (valKey val).1) with hc | hc
    · obtain ⟨e, he1, he2⟩ := hold hc
      simp [LinkTable.rows, he1, he2]
    · simp [LinkTable.rows, hnew hc, LinkTable.entry_eq_none _ _ hc]
  · intro x hx
    simp [LinkTable.rows, hne x hx]

/-- The loop keeps the number of values and the owning attribute of the item, and only
adds rows. -/
theorem processValues_frame (ctx : ResourceContext) (n : Nat) (vals : List XmlNode)
    (s s2 : RefState) (h : processValues ctx n vals s = some s2) :
    s2.item.keys.length = s.item.keys.length ∧ s2.item.attributeId = s.item.attributeId ∧
    (∀ x row, row ∈ s.links.rows x → row ∈ s2.links.rows x) := by
  induction vals generalizing s with
  | nil =>
    simp only [processValues, Option.some.injEq] at h
    subst h
    exact ⟨rfl, rfl, fun _ _ hr => hr⟩
  | cons val vals ih =>
    unfold processValues at h
    rcases processValuesVal_cases ctx n val s with ⟨_, msg, hs⟩ | ⟨_, t, _, _, hs⟩
    · rw [hs] at h
      exact ih ⟨s.item, s.links, logError s.logger msg, s.calls⟩ h
    · rw [hs] at h
      obtain ⟨s1, h1, hitem, _⟩ :=
        processReferenceVal_spec ctx val (static_cast_int (textAsUInt t)) s
      rw [h1] at h
      obtain ⟨a, b, c⟩ := ih s1 h
      obtain ⟨f1, f2⟩ := setObjectKey_frame s.item (static_cast_int (textAsUInt t)) (valKey val)
      obtain ⟨r1, r2⟩ := processReferenceVal_rows ctx val _ s s1 h1
      refine ⟨by rw [a, hitem, f1], by rw [b, hitem, f2], ?_⟩
      intro x row hrow
      apply c
      by_cases hx : x = (valKey val).1
      · rw [hx, r1]
        rw [hx] at hrow
        exact List.mem_append_left _ hrow
      · rw [r2 x hx]; exact hrow

theorem processValues_append (ctx : ResourceContext) (n : Nat) (l1 l2 : List XmlNode)
    (s : RefState) :
    processValues ctx n (l1 ++ l2) s = (processValues ctx n l1 s).bind (processValues ctx n l2) := by
  induction l1 generalizing s with
  | nil => rfl
  | cons v vs ih =>
    simp only [List.cons_append, processValues]
    cases processValuesVal ctx n v s with
    | none => rfl
    | some s1 => exact ih s1

theorem textAsInt_of_not_number (r : String)
    (h : r.data.any (fun c => !c.isDigit && c != '-') = true) : textAsInt r = 0 := by
  unfold textAsInt
  obtain ⟨c, hc, hcd⟩ := List.any_eq_true.mp h
  simp only [Bool.and_eq_true, Bool.not_eq_true', bne_iff_ne, ne_eq] at hcd
  split
  · rfl
  · next cs heq =>
    rw [heq] at hc
    rcases List.mem_cons.mp hc with h1 | h1
    · exact absurd h1 hcd.2
    · have : cs.all Char.isDigit = false := by
        rw [List.all_eq_false]
        exact ⟨c, h1, by simp [hcd.1]⟩
      simp [this]
  · have : r.data.all Char.isDigit = false := by
      rw [List.all_eq_false]
      exact ⟨c, hc, by simp [hcd.1]⟩
    simp [this]

/-- The sample item node, evaluated: both elements get their keys, the surrogate `S1`
is registered once with the record of the first value read, and holds two rows. -/
theorem processReferenceItem_sample :
    (processReferenceItem sampleContext sampleItemNode sampleRefState).map
        (fun r => (r.item.keys, r.links)) =
      some ([some ("S1", "K1"), some ("S1", "K3")],
        ⟨[⟨⟨1, "smtk::model::Resource", "R1", "a.smtk"⟩, "S1", "res-1", "R1", none,
          [⟨"K1", "att-1", "T1", 3⟩, ⟨"K3", "att-1", "T3", 0⟩]⟩]⟩) := by
  decide

/-- C6. After `processReferenceItem` returns, the surrogate id of every key passed to
`setObjectKey` during this parse is contained in the link table, and every key the
item holds is either the key held at that index before the parse or a key whose
surrogate id is contained in the link table. -/
theorem processReferenceItem_keys_registered (ctx : ResourceContext) (node : XmlNode)
    (s : RefState) :
    ∃ s2, processReferenceItem ctx node s = some s2 ∧
      (∀ (i : Int) (k : Key), Call.setObjectKey i k ∈ s2.calls →
        Call.setObjectKey i k ∈ s.calls ∨ s2.links.contains k.1 = true) ∧
      (∀ (i : Nat) (k : Key), s2.item.keys[i]? = some (some k) →
        s.item.keys[i]? = some (some k) ∨ s2.links.contains k.1 = true) := by
  obtain ⟨s2, h, _, ⟨added, hc, _, hk⟩, _, hi⟩ := processReferenceItem_spec ctx node s
  refine ⟨s2, h, ?_, hi⟩
  intro i k hm
  rw [hc] at hm
  rcases List.mem_append.mp hm with h1 | h1
  · exact Or.inl h1
  · exact Or.inr (hk i k h1)

theorem static_cast_int_of_lt (i : Nat) (h : i < 2 ^ 31) : static_cast_int i = (i : Int) := by
  unfold static_cast_int
  have hmod : i % 2 ^ 32 = i := Nat.mod_eq_of_lt (by omega)
  rw [hmod, if_pos h]

/-- C7, counterexample. The sample item is extensible and has one value; its node has no
`NumberOfValues` attribute, and its `Values` element holds a `Val` whose `Ith` is 0, less
than the number of values of the item. The method logs an error and returns before the
loop over `Values`: no key is set, no call is made on the item or the link table, and no
row is inserted for the surrogate id `S1`. -/
theorem processReferenceItem_missing_count_reads_nothing :
    sampleBoundedItem.numberOfValues = 1 ∧
    (sampleNoCountNode.child "Values").map (fun v => (v.childrenNamed "Val").map
      (fun val => val.attr "Ith")) = some [some "0"] ∧
    (processReferenceItem sampleContext sampleNoCountNode
        ⟨sampleBoundedItem, ⟨[]⟩, [], []⟩).map
      (fun r => (r.item.keys, r.calls, r.links.rows "S1", r.links.contains "S1", r.logger)) =
      some ([none], [], [], false,
        [⟨Severity.error, "XML Attribute NumberOfValues is missing for Item: ref"⟩]) := by
  refine ⟨rfl, rfl, rfl⟩

/-- One iteration of the loop over `Values`, for a `Val` whose `Ith` is below the count
of the loop, is an element index of the item and is kept by the conversion to `int`. -/
theorem processReferenceItem_val_iteration (ctx : ResourceContext) (node : XmlNode)
    (s s1 : RefState) (n : Nat) (valsNode : XmlNode) (before after : List XmlNode)
    (val : XmlNode) (t : String)
    (hcount : referenceItemCount node s = Sum.inr (n, s1))
    (hvals : node.child "Values" = some valsNode)
    (hsplit : valsNode.childrenNamed "Val" = before ++ val :: after)
    (hith : val.attr "Ith" = some t) (hlt : textAsUInt t < n)
    (hidx : textAsUInt t < s1.item.numberOfValues) (hint : textAsUInt t < 2 ^ 31) :
    ∃ sa sb s2,
      processValues ctx n before s1 = some sa ∧
      processReferenceVal ctx val (static_cast_int (textAsUInt t)) sa = some sb ∧
      processValues ctx n after sb = some s2 ∧
      processReferenceItem ctx node s = some s2 ∧
      static_cast_int (textAsUInt t) = (textAsUInt t : Int) ∧
      sb.item.keys[textAsUInt t]? = some (some (valKey val)) ∧
      (∀ j, j ≠ textAsUInt t → sb.item.keys[j]? = sa.item.keys[j]?) ∧
      sb.links.rows (valKey val).1 =
        sa.links.rows (valKey val).1 ++
          [⟨(valKey val).2, s.item.attributeId, childText (val.child "RHS") "_2_",
            as_int (val.attr "Role")⟩] ∧
      (∀ x, x ≠ (valKey val).1 → sb.links.rows x = sa.links.rows x) ∧
      (val.attr "Role" = none → as_int (val.attr "Role") = 0) ∧
      (∀ r, val.attr "Role" = some r → r.data.any (fun c => !c.isDigit && c != '-') = true →
        as_int (val.attr "Role") = 0) ∧
      (⟨(valKey val).2, s.item.attributeId, childText (val.child "RHS") "_2_",
          as_int (val.attr "Role")⟩ : LinkRow) ∈ s2.links.rows (valKey val).1 := by
  have hcast := static_cast_int_of_lt (textAsUInt t) hint
  obtain ⟨sa, hsa, _⟩ := processValues_spec ctx n before s1
  obtain ⟨sb, hsb, hitem, _⟩ :=
    processReferenceVal_spec ctx val (static_cast_int (textAsUInt t)) sa
  obtain ⟨s2, hs2, _⟩ := processValues_spec ctx n after sb
  obtain ⟨fa1, fa2, _⟩ := processValues_frame ctx n before s1 sa hsa
  obtain ⟨_, _, fb3⟩ := processValues_frame ctx n after sb s2 hs2
  obtain ⟨r1, r2⟩ := processReferenceVal_rows ctx val _ sa sb hsb
  obtain ⟨_, hframe⟩ := referenceItemCount_frame node s
  obtain ⟨_, _, _, hattr, _⟩ := hframe n s1 hcount
  have hlen : textAsUInt t < sa.item.keys.length := by
    rw [fa1]; unfold ReferenceItem.numberOfValues at hidx; exact hidx
  have hbody : processValuesVal ctx n val sa = some sb := by
    unfold processValuesVal
    simp only [hith]
    rw [if_neg (by omega)]
    exact hsb
  have hwhole : processReferenceItem ctx node s = some s2 := by
    unfold processReferenceItem
    simp only [hcount, hvals]
    rw [if_neg (by omega), hsplit, processValues_append, hsa]
    simp only [Option.bind, processValues, hbody]
    exact hs2
  have hrow : valRow val sa.item = ⟨(valKey val).2, s.item.attributeId,
      childText (val.child "RHS") "_2_", as_int (val.attr "Role")⟩ := by
    unfold valRow
    rw [fa2, hattr]
  have hkeys : sb.item.keys = sa.item.keys.set (textAsUInt t) (some (valKey val)) := by
    rw [hitem, hcast]
    unfold ReferenceItem.setObjectKey
    rw [if_pos ⟨by omega, by omega⟩]
    rfl
  refine ⟨sa, sb, s2, hsa, hsb, hs2, hwhole, hcast, ?_, ?_, ?_, r2, ?_, ?_, ?_⟩
  · rw [hkeys, List.getElem?_set_self hlen]
  · intro j hj
    rw [hkeys, List.getElem?_set_ne (Ne.symm hj)]
  · rw [r1, hrow]
  · intro h; rw [h]; rfl
  · intro r h hr
    rw [h]
    exact textAsInt_of_not_number r hr
  · apply fb3
    rw [r1, hrow]
    exact List.mem_append_right _ (List.mem_singleton.mpr rfl)

/-- C7 as amended. When the item is extensible or has no required value and the node has
no `NumberOfValues` attribute, `processReferenceItem` logs an error and returns with the
item, the link table and the calls as they were: no `Val` is read. Otherwise let `n` be
the count that the loop over `Values` uses and `s1` the state when the loop starts, and
let `val` be a `Val` of `Values` whose `Ith` is present with a value `i` that is less
than `n`, is an element index of the item, and is below 2^31, so that the conversion to
`int` keeps it. Then `processReferenceItem` returns, and in the iteration of `val` (from
the state `sa` reached after the `Val` elements before it to the state `sb`) it sets the
object key at index `i` to `(Key/_1_, Key/_2_)`, leaving the other keys, and appends
exactly one row to the rows of surrogate id `Key/_1_`, leaving the rows of other ids:
the row is keyed by `Key/_2_`, has the id of the owning attribute as source, `RHS/_2_`
as target and `as_int` of the `Role` attribute as role, which is 0 when the attribute is
absent or holds a character that is neither a digit nor a sign. The row is still there
when the method returns. -/
theorem processReferenceItem_sets_key_and_row (ctx : ResourceContext) (node : XmlNode)
    (s : RefState) :
    (∀ s0, referenceItemCount node s = Sum.inl s0 →
      processReferenceItem ctx node s = some s0 ∧ s0.item = s.item ∧ s0.links = s.links ∧
      s0.calls = s.calls ∧
      s0.logger = logError s.logger
        ("XML Attribute NumberOfValues is missing for Item: " ++ s.item.name)) ∧
    ∀ (s1 : RefState) (n : Nat) (valsNode : XmlNode) (before after : List XmlNode)
      (val : XmlNode) (t : String),
      referenceItemCount node s = Sum.inr (n, s1) →
      node.child "Values" = some valsNode →
      valsNode.childrenNamed "Val" = before ++ val :: after →
      val.attr "Ith" = some t → textAsUInt t < n →
      textAsUInt t < s1.item.numberOfValues → textAsUInt t < 2 ^ 31 →
      ∃ sa sb s2,
        processValues ctx n before s1 = some sa ∧
        processReferenceVal ctx val (static_cast_int (textAsUInt t)) sa = some sb ∧
        processValues ctx n after sb = some s2 ∧
        processReferenceItem ctx node s = some s2 ∧
        static_cast_int (textAsUInt t) = (textAsUInt t : Int) ∧
        sb.item.keys[textAsUInt t]? = some (some (valKey val)) ∧
        (∀ j, j ≠ textAsUInt t → sb.item.keys[j]? = sa.item.keys[j]?) ∧
        sb.links.rows (valKey val).1 =
          sa.links.rows (valKey val).1 ++
            [⟨(valKey val).2, s.item.attributeId, childText (val.child "RHS") "_2_",
              as_int (val.attr "Role")⟩] ∧
        (∀ x, x ≠ (valKey val).1 → sb.links.rows x = sa.links.rows x) ∧
        (val.attr "Role" = none → as_int (val.attr "Role") = 0) ∧
        (∀ r, val.attr "Role" = some r →
          r.data.any (fun c => !c.isDigit && c != '-') = true →
          as_int (val.attr "Role") = 0) ∧
        (⟨(valKey val).2, s.item.attributeId, childText (val.child "RHS") "_2_",
            as_int (val.attr "Role")⟩ : LinkRow) ∈ s2.links.rows (valKey val).1 := by
  constructor
  · intro s0 h0
    have hret : processReferenceItem ctx node s = some s0 := by
      unfold processReferenceItem
      rw [h0]
    refine ⟨hret, ?_⟩
    unfold referenceItemCount at h0
    split_ifs at h0
    · cases hnv : node.attr "NumberOfValues" with
      | none =>
        rw [hnv] at h0
        injection h0 with h0
        rw [← h0]
        exact ⟨rfl, rfl, rfl, rfl⟩
      | some v => rw [hnv] at h0; cases h0
  · intro s1 n valsNode before after val t hcount hvals hsplit hith hlt hidx hint
    exact processReferenceItem_val_iteration ctx node s s1 n valsNode before after val t
      hcount hvals hsplit hith hlt hidx hint

/-- Witness of the amended C7: the third value of the sample item node (`Ith = 1`, no
`Role`). -/
theorem processReferenceItem_sets_key_and_row_witness :
    ∃ sa sb s2,
      processValues sampleContext 2 [sampleVal0, sampleValNoIth] sampleRefState = some sa ∧
      processReferenceVal sampleContext sampleVal1 (static_cast_int (textAsUInt "1")) sa =
        some sb ∧
      processValues sampleContext 2 [] sb = some s2 ∧
      processReferenceItem sampleContext sampleItemNode sampleRefState = some s2 ∧
      sb.item.keys[textAsUInt "1"]? = some (some ("S1", "K3")) ∧
      sb.links.rows "S1" = sa.links.rows "S1" ++ [⟨"K3", "att-1", "T3", 0⟩] :=
  have h := (processReferenceItem_sets_key_and_row sampleContext sampleItemNode
    sampleRefState).2 sampleRefState 2
    (XmlNode.mk "Values" [] "" [sampleVal0, sampleValNoIth, sampleVal1])
    [sampleVal0, sampleValNoIth] [] sampleVal1 "1" rfl rfl rfl rfl (by decide) (by decide)
    (by decide)
  match h with
  | ⟨sa, sb, s2, h1, h2, h3, h4, _, h5, _, h7, _⟩ => ⟨sa, sb, s2, h1, h2, h3, h4, h5, h7⟩

theorem processValues_context (rid : UUID) (l1 l2 : List UUID) (n : Nat)
    (vals : List XmlNode) (s : RefState) :
    processValues ⟨rid, l1⟩ n vals s = processValues ⟨rid, l2⟩ n vals s := by
  induction vals generalizing s with
  | nil => rfl
  | cons val vals ih =>
    unfold processValues
    have : processValuesVal ⟨rid, l1⟩ n val s = processValuesVal ⟨rid, l2⟩ n val s := rfl
    rw [this]
    cases processValuesVal ⟨rid, l2⟩ n val s with
    | none => rfl
    | some s1 => exact ih s1

/-- C8. Parsing never resolves a reference: `processReferenceItem` returns, every call
it adds is a call on the item or on the link table and none is a call of the lookup
service (`find`, `isOfType`, loading a resource), and its result is the same whatever
resources are loaded, so a reference to a resource that is not loaded parses exactly
like one to a loaded resource. -/
theorem processReferenceItem_never_resolves (rid : UUID) (loaded : List UUID)
    (node : XmlNode) (s : RefState) :
    (∀ loaded2 : List UUID,
      processReferenceItem ⟨rid, loaded2⟩ node s = processReferenceItem ⟨rid, loaded⟩ node s) ∧
    ∃ s2 added, processReferenceItem ⟨rid, loaded⟩ node s = some s2 ∧
      s2.calls = s.calls ++ added ∧ ∀ c ∈ added, c.isLookup = false := by
  constructor
  · intro loaded2
    unfold processReferenceItem
    cases referenceItemCount node s with
    | inl s1 => rfl
    | inr r =>
      obtain ⟨n, s1⟩ := r
      simp only
      split_ifs
      · rfl
      · cases node.child "Values" with
        | some valsNode => exact processValues_context rid loaded2 loaded n _ s1
        | none => rfl
      · cases node.child "Values" with
        | some valsNode => exact processValues_context rid loaded2 loaded n _ s1
        | none => rfl
  · obtain ⟨s2, h, _, ⟨added, hc, hl, _⟩, _, _⟩ := processReferenceItem_spec ⟨rid, loaded⟩ node s
    exact ⟨s2, added, h, hc, hl⟩

/-! ## Configurations -/

/-- The flag and the item that the four mutually recursive helpers return do not depend
on the logger or on the name of the attribute, which only enter the messages. Proved for
all nodes and node lists of size at most `k`. -/
theorem analysisHelpers_outcome_aux (a1 a2 : String) (k : Nat) :
    (∀ (node : XmlNode), sizeOf node ≤ k → ∀ (item : StringItem) (l1 l2 : Logger),
      (setExclusiveAnalysisConfiguration a1 item node l1).1 =
          (setExclusiveAnalysisConfiguration a2 item node l2).1 ∧
        (setExclusiveAnalysisConfiguration a1 item node l1).2.1 =
          (setExclusiveAnalysisConfiguration a2 item node l2).2.1) ∧
    (∀ (nodes : List XmlNode), sizeOf nodes ≤ k → ∀ (item : StringItem) (l1 l2 : Logger),
      (exclusiveChildren a1 item nodes l1).1 = (exclusiveChildren a2 item nodes l2).1 ∧
        (exclusiveChildren a1 item nodes l1).2.1 = (exclusiveChildren a2 item nodes l2).2.1) ∧
    (∀ (node : XmlNode), sizeOf node ≤ k →
      ∀ (containerName : String) (items : List Item) (l1 l2 : Logger),
      (setAnalysisConfigurationHelper a1 containerName items node l1).1 =
          (setAnalysisConfigurationHelper a2 containerName items node l2).1 ∧
        (setAnalysisConfigurationHelper a1 containerName items node l1).2.1 =
          (setAnalysisConfigurationHelper a2 containerName items node l2).2.1) ∧
    (∀ (nodes : List XmlNode), sizeOf nodes ≤ k →
      ∀ (containerName : String) (items : List Item) (l1 l2 : Logger),
      (helperChildren a1 containerName items nodes l1).1 =
          (helperChildren a2 containerName items nodes l2).1 ∧
        (helperChildren a1 containerName items nodes l1).2.1 =
          (helperChildren a2 containerName items nodes l2).2.1) := by
  induction k with
  | zero =>
    refine ⟨?_, ?_, ?_, ?_⟩
    · intro node h; cases node; simp at h
    · intro nodes h; cases nodes <;> simp at h
    · intro node h; cases node; simp at h
    · intro nodes h; cases nodes <;> simp at h
  | succ k ih =>
    obtain ⟨ihE, ihEL, ihH, ihHL⟩ := ih
    refine ⟨?_, ?_, ?_, ?_⟩
    · intro node hsz item l1 l2
      obtain ⟨nodeName, attrs, text, children⟩ := node
      have hch : sizeOf children ≤ k := by
        simp only [XmlNode.mk.sizeOf_spec] at hsz; omega
      simp only [setExclusiveAnalysisConfiguration]
      cases (XmlNode.mk nodeName attrs text children).attr "Type" with
      | none => simp only [and_self]
      | some type =>
        simp only
        cases (item.setValue type).1 with
        | false => simp only [Bool.not_false, Bool.false_eq_true, if_true, if_false, and_self]
        | true =>
          simp only [Bool.not_true, Bool.false_eq_true, if_false]
          split_ifs
          · cases (item.setValue type).2.activeChildItem0.bind Item.asStringItem with
            | some si =>
              obtain ⟨h1, h2⟩ := ihEL children hch si l1 l2
              simp only [h1, h2, and_self]
            | none =>
              simp only
              cases (item.setValue type).2.activeChildItem0.bind Item.asGroupItem with
              | none => simp only [and_self]
              | some gi =>
                obtain ⟨h1, h2⟩ := ihHL children hch gi.name gi.items l1 l2
                simp only [h1, h2, and_self]
          all_goals simp only [and_self]
    · intro nodes hsz item l1 l2
      cases nodes with
      | nil => simp [exclusiveChildren]
      | cons child rest =>
        have hc : sizeOf child ≤ k := by
          simp only [List.cons.sizeOf_spec] at hsz; omega
        have hr : sizeOf rest ≤ k := by
          simp only [List.cons.sizeOf_spec] at hsz; omega
        simp only [exclusiveChildren]
        by_cases hname : child.name = "Analysis"
        · rw [if_pos hname, if_pos hname]
          obtain ⟨h1, h2⟩ := ihE child hc item l1 l2
          rw [← h1, ← h2]
          cases (setExclusiveAnalysisConfiguration a1 item child l1).1 with
          | false => simp only [Bool.not_false, Bool.false_eq_true, if_true, if_false, and_self]
          | true =>
            simp only [if_true]
            exact ihEL rest hr _ _ _
        · rw [if_neg hname, if_neg hname]
          exact ihEL rest hr item l1 l2
    · intro node hsz containerName items l1 l2
      obtain ⟨nodeName, attrs, text, children⟩ := node
      have hch : sizeOf children ≤ k := by
        simp only [XmlNode.mk.sizeOf_spec] at hsz; omega
      simp only [setAnalysisConfigurationHelper]
      cases (XmlNode.mk nodeName attrs text children).attr "Type" with
      | none => simp only [and_self]
      | some type =>
        simp only
        cases findItem items type with
        | none => simp only [and_self]
        | some found =>
          obtain ⟨idx, it⟩ := found
          simp only
          cases it.setIsEnabled true with
          | void n e => simp only [and_self]
          | other n e => simp only [and_self]
          | string n e v c =>
            simp only
            split_ifs
            · simp only [and_self]
            · obtain ⟨h1, h2⟩ := ihEL children hch ⟨n, e, v, c⟩ l1 l2
              simp only [h1, h2, and_self]
          | group n e i =>
            obtain ⟨h1, h2⟩ := ihHL children hch n i l1 l2
            simp only [h1, h2, and_self]
    · intro nodes hsz containerName items l1 l2
      cases nodes with
      | nil => simp [helperChildren]
      | cons child rest =>
        have hc : sizeOf child ≤ k := by
          simp only [List.cons.sizeOf_spec] at hsz; omega
        have hr : sizeOf rest ≤ k := by
          simp only [List.cons.sizeOf_spec] at hsz; omega
        simp only [helperChildren]
        by_cases hname : child.name = "Analysis"
        · rw [if_pos hname, if_pos hname]
          obtain ⟨h1, h2⟩ := ihH child hc containerName items l1 l2
          rw [← h1, ← h2]
          cases (setAnalysisConfigurationHelper a1 containerName items child l1).1 with
          | false => simp only [Bool.not_false, Bool.false_eq_true, if_true, if_false, and_self]
          | true =>
            simp only [if_true]
            exact ihHL rest hr containerName _ _ _
        · rw [if_neg hname, if_neg hname]
          exact ihHL rest hr containerName items l1 l2

theorem setExclusiveAnalysisConfiguration_outcome (a1 a2 : String) (item : StringItem)
    (node : XmlNode) (l1 l2 : Logger) :
    (setExclusiveAnalysisConfiguration a1 item node l1).1 =
        (setExclusiveAnalysisConfiguration a2 item node l2).1 ∧
      (setExclusiveAnalysisConfiguration a1 item node l1).2.1 =
        (setExclusiveAnalysisConfiguration a2 item node l2).2.1 :=
  (analysisHelpers_outcome_aux a1 a2 (sizeOf node)).1 node (Nat.le_refl _) item l1 l2

/-- In the exclusive case with a string item, the inner loop of `processConfigurations`
ends without `break` exactly when all analyses are accepted, and leaves the attribute
object as it is. -/
theorem configAnalyses_exclusive (si : StringItem) (configAtt : Attribute)
    (nodes : List XmlNode) (logger : Logger) :
    (configAnalyses true (some si) configAtt nodes logger).1 = analysesAccepted si nodes ∧
    (configAnalyses true (some si) configAtt nodes logger).2.2.1 = configAtt := by
  induction nodes generalizing si logger with
  | nil => exact ⟨rfl, rfl⟩
  | cons a rest ih =>
    obtain ⟨h1, h2⟩ := setExclusiveAnalysisConfiguration_outcome configAtt.name "" si a logger []
    simp only [configAnalyses, analysesAccepted, if_true]
    rw [← h1, ← h2]
    cases (setExclusiveAnalysisConfiguration configAtt.name si a logger).1 with
    | false => exact ⟨rfl, rfl⟩
    | true =>
      simp only [Bool.not_true, Bool.false_eq_true, if_false, Bool.true_and]
      exact ih _ _

theorem setConfigAdvanceLevels_frame (configNode : XmlNode) (a : Attribute) :
    (setConfigAdvanceLevels configNode a).name = a.name ∧
    (setConfigAdvanceLevels configNode a).items = a.items := by
  unfold setConfigAdvanceLevels Attribute.setLocalAdvanceLevel
  cases configNode.attr "AdvanceReadLevel" <;> cases configNode.attr "AdvanceWriteLevel" <;>
    simp

end XmlDocV3Parser

namespace Resource

theorem hasAttribute_append (ds : List Definition) (as : List Attribute) (t : Bool)
    (ai : Option (List Item)) (a : Attribute) (m : String) :
    Resource.hasAttribute ⟨ds, as ++ [a], t, ai⟩ m =
      (Resource.hasAttribute ⟨ds, as, t, ai⟩ m || a.name == m) := by
  simp [hasAttribute, List.any_append]

theorem hasAttribute_flag (ds : List Definition) (as : List Attribute) (t1 t2 : Bool)
    (ai : Option (List Item)) (m : String) :
    Resource.hasAttribute ⟨ds, as, t1, ai⟩ m = Resource.hasAttribute ⟨ds, as, t2, ai⟩ m := rfl

theorem hasAttribute_storeAttribute (r : Resource) (a : Attribute) (m : String) :
    (r.storeAttribute a).hasAttribute m = r.hasAttribute m := by
  unfold storeAttribute hasAttribute
  simp only [List.any_map]
  congr 1
  funext b
  simp only [Function.comp]
  by_cases h : b.name = a.name
  · simp [h]
  · simp [h]

theorem hasAttribute_removeAttribute (r : Resource) (a : Attribute) (m : String) :
    (r.removeAttribute a).hasAttribute m = (r.hasAttribute m && !(a.name == m)) := by
  unfold removeAttribute hasAttribute
  rw [Bool.eq_iff_iff]
  simp only [List.any_eq_true, List.mem_filter, Bool.and_eq_true, Bool.not_eq_true',
    beq_eq_false_iff_ne, beq_iff_eq, ne_eq]
  constructor
  · rintro ⟨b, ⟨hb, hne⟩, hbm⟩
    exact ⟨⟨b, hb, hbm⟩, fun h => hne (hbm.trans h.symm)⟩
  · rintro ⟨⟨b, hb, hbm⟩, hne⟩
    exact ⟨b, ⟨hb, fun h => hne (h.symm.trans hbm)⟩, hbm⟩

end Resource

namespace XmlDocV3Parser

theorem analysisDefinition_frame (r r1 : Resource) (type : String) (d : Definition)
    (h : analysisDefinition r type = some (d, r1)) :
    r1.topLevelExclusive = r.topLevelExclusive ∧ r1.attributes = r.attributes := by
  unfold analysisDefinition at h
  cases hf : r.findDefinition type with
  | some d2 =>
    rw [hf] at h
    simp only [Option.some.injEq, Prod.mk.injEq] at h
    rw [← h.2]
    exact ⟨rfl, rfl⟩
  | none =>
    rw [hf] at h
    unfold Resource.buildAnalysesDefinition at h
    cases ha : r.analysesItems with
    | none => rw [ha] at h; cases h
    | some items =>
      rw [ha] at h
      simp only [Option.some.injEq, Prod.mk.injEq] at h
      rw [← h.2]
      exact ⟨rfl, rfl⟩

/-- The loop over the `Config` elements when the top level analyses are exclusive, item
0 of the definition is a string item, every `Config` has a name, the names are pairwise
distinct and none is the name of an attribute of the resource: the loop runs to its end,
a named attribute is in the resource afterwards exactly when the analyses of its
`Config` are all accepted, and other names are as before. -/
theorem processConfigs_exclusive (analysisDef : Definition) (sitem0 : StringItem)
    (hitem0 : analysisDef.itemDefinitions.head?.bind Item.asStringItem = some sitem0)
    (configs : List XmlNode) :
    ∀ (names : List String) (r : Resource) (logger : Logger),
      r.topLevelExclusive = true →
      configs.map (fun c => c.attr "Name") = names.map some →
      names.Nodup →
      (∀ n ∈ names, r.hasAttribute n = false) →
      ∃ r2 logger2, processConfigs analysisDef configs r logger = some (r2, logger2) ∧
        (∀ m, m ∉ names → r2.hasAttribute m = r.hasAttribute m) ∧
        (∀ c ∈ configs, ∀ n, c.attr "Name" = some n →
          r2.hasAttribute n = analysesAccepted sitem0 (c.childrenNamed "Analysis")) := by
  induction configs with
  | nil =>
    intro names r logger _ _ _ _
    exact ⟨r, logger, rfl, fun _ _ => rfl, fun c hc => by cases hc⟩
  | cons c rest ih =>
    intro names r logger hexcl hnames hnodup hfresh
    cases names with
    | nil => simp at hnames
    | cons n ns =>
      simp only [List.map_cons, List.cons.injEq] at hnames
      obtain ⟨hcn, hrest⟩ := hnames
      have hn_notin : n ∉ ns := (List.nodup_cons.mp hnodup).1
      have hns_nodup : ns.Nodup := (List.nodup_cons.mp hnodup).2
      have hn_fresh : r.hasAttribute n = false := hfresh n (List.mem_cons_self _ _)
      -- the state of the resource after this `Config`
      have key : ∃ r3 logger3,
          processConfigs analysisDef (c :: rest) r logger =
            processConfigs analysisDef rest r3 logger3 ∧
          r3.topLevelExclusive = true ∧
          (∀ m, r3.hasAttribute m =
            if m = n then analysesAccepted sitem0 (c.childrenNamed "Analysis")
            else r.hasAttribute m) := by
        have hframe := setConfigAdvanceLevels_frame c ⟨n, analysisDef.itemDefinitions, none, none⟩
        have hsitem : (setConfigAdvanceLevels c
            ⟨n, analysisDef.itemDefinitions, none, none⟩).item0.bind Item.asStringItem =
            some sitem0 := by
          unfold Attribute.item0
          rw [hframe.2]
          exact hitem0
        obtain ⟨hacc, hatt⟩ := configAnalyses_exclusive sitem0
          (setConfigAdvanceLevels c ⟨n, analysisDef.itemDefinitions, none, none⟩)
          (c.childrenNamed "Analysis") logger
        simp only [processConfigs, hcn, Resource.createAttribute, hn_fresh, Bool.false_eq_true,
          if_false, hexcl, if_true, hsitem, Option.isNone_some, Bool.and_false]
        rcases Bool.eq_false_or_eq_true
          (analysesAccepted sitem0 (c.childrenNamed "Analysis")) with hok | hok
        · rw [hok] at hacc
          rw [if_pos hacc]
          refine ⟨_, _, rfl, rfl, ?_⟩
          intro m
          rw [Resource.hasAttribute_storeAttribute, Resource.hasAttribute_append, hok,
            Resource.hasAttribute_flag _ _ true r.topLevelExclusive]
          have heta : Resource.hasAttribute ⟨r.definitions, r.attributes, r.topLevelExclusive,
              r.analysesItems⟩ m = r.hasAttribute m := rfl
          rw [heta]
          by_cases hm : m = n
          · subst hm; simp
          · have hb : (n == m) = false := beq_eq_false_iff_ne.mpr (fun h => hm h.symm)
            rw [hb]
            simp [hm]
        · rw [hok] at hacc
          rw [if_neg (by rw [hacc]; simp)]
          refine ⟨_, _, rfl, rfl, ?_⟩
          intro m
          rw [Resource.hasAttribute_removeAttribute, Resource.hasAttribute_append, hok,
            hframe.1, Resource.hasAttribute_flag _ _ true r.topLevelExclusive]
          have heta : Resource.hasAttribute ⟨r.definitions, r.attributes, r.topLevelExclusive,
              r.analysesItems⟩ m = r.hasAttribute m := rfl
          rw [heta]
          by_cases hm : m = n
          · subst hm; simp [hn_fresh]
          · have hb : (n == m) = false := beq_eq_false_iff_ne.mpr (fun h => hm h.symm)
            rw [hb]
            simp [hm]
      obtain ⟨r3, logger3, hstep, hexcl3, hhas⟩ := key
      have hfresh3 : ∀ m ∈ ns, r3.hasAttribute m = false := by
        intro m hm
        have hmn : m ≠ n := fun h => hn_notin (h ▸ hm)
        rw [hhas m, if_neg hmn]
        exact hfresh m (List.mem_cons_of_mem _ hm)
      obtain ⟨r2, logger2, hrun, hother, hconf⟩ :=
        ih ns r3 logger3 hexcl3 hrest hns_nodup hfresh3
      refine ⟨r2, logger2, by rw [hstep, hrun], ?_, ?_⟩
      · intro m hm
        have hmn : m ≠ n := fun h => hm (h ▸ List.mem_cons_self _ _)
        have hmns : m ∉ ns := fun h => hm (List.mem_cons_of_mem _ h)
        rw [hother m hmns, hhas m, if_neg hmn]
      · intro c2 hc2 n2 hn2
        rcases List.mem_cons.mp hc2 with heq | hin
        · subst heq
          rw [hcn] at hn2
          injection hn2 with hn2
          subst hn2
          rw [hother _ hn_notin, hhas, if_pos rfl]
        · exact hconf c2 hin n2 hn2

theorem mapChoice_any (f : List Item → List Item) (v w : String)
    (cs : List (String × List Item)) :
    (mapChoice f v cs).any (fun c => c.1 == w) = cs.any (fun c => c.1 == w) := by
  induction cs with
  | nil => rfl
  | cons c cs ih =>
    unfold mapChoice
    split_ifs
    · simp [List.any_cons]
    · simp [List.any_cons, ih]

theorem setActiveChildItem0_accepts (s : StringItem) (child : Item) (w : String) :
    (s.setActiveChildItem0 child).accepts w = s.accepts w := by
  unfold StringItem.setActiveChildItem0 StringItem.accepts
  cases s.value with
  | none => rfl
  | some v => exact mapChoice_any _ v w s.choices

theorem setValue_accepts (s : StringItem) (v w : String) :
    (s.setValue v).2.accepts w = s.accepts w := by
  unfold StringItem.setValue
  split_ifs <;> rfl

/-- The discrete values of a string item are the same after
`setExclusiveAnalysisConfiguration`. -/
theorem setExclusiveAnalysisConfiguration_accepts (attName : String) (item : StringItem)
    (node : XmlNode) (logger : Logger) (w : String) :
    (setExclusiveAnalysisConfiguration attName item node logger).2.1.accepts w =
      item.accepts w := by
  obtain ⟨nodeName, attrs, text, children⟩ := node
  simp only [setExclusiveAnalysisConfiguration]
  cases (XmlNode.mk nodeName attrs text children).attr "Type" with
  | none => rfl
  | some type =>
    simp only
    split_ifs
    · exact setValue_accepts item type w
    · cases (item.setValue type).2.activeChildItem0.bind Item.asStringItem with
      | some si =>
        simp only
        rw [setActiveChildItem0_accepts, setValue_accepts]
      | none =>
        simp only
        cases (item.setValue type).2.activeChildItem0.bind Item.asGroupItem with
        | none => exact setValue_accepts item type w
        | some gi =>
          simp only
          rw [setActiveChildItem0_accepts, setValue_accepts]
    all_goals exact setValue_accepts item type w

/-- An `Analysis` node whose `Type` is not a discrete value of the string item is
rejected by `setExclusiveAnalysisConfiguration`. -/
theorem setExclusiveAnalysisConfiguration_unknown (attName : String) (item : StringItem)
    (node : XmlNode) (logger : Logger) (v : String) (hv : node.attr "Type" = some v)
    (hacc : item.accepts v = false) :
    (setExclusiveAnalysisConfiguration attName item node logger).1 = false := by
  obtain ⟨nodeName, attrs, text, children⟩ := node
  simp only [setExclusiveAnalysisConfiguration, hv, StringItem.setValue, hacc,
    Bool.false_eq_true, if_false, Bool.not_false, if_true]

theorem analysesAccepted_unknown (si : StringItem) (nodes : List XmlNode)
    (h : ∃ a ∈ nodes, ∃ v, a.attr "Type" = some v ∧ si.accepts v = false) :
    analysesAccepted si nodes = false := by
  induction nodes generalizing si with
  | nil => obtain ⟨a, ha, _⟩ := h; cases ha
  | cons b rest ih =>
    obtain ⟨a, ha, v, hv, hacc⟩ := h
    unfold analysesAccepted
    rcases List.mem_cons.mp ha with heq | hin
    · subst heq
      rw [setExclusiveAnalysisConfiguration_unknown "" si a [] v hv hacc]
      rfl
    · rw [ih _ ⟨a, hin, v, hv, by rw [setExclusiveAnalysisConfiguration_accepts]; exact hacc⟩]
      simp

/-- The sample configurations, evaluated on the resource with exclusive analyses: the
attributes `c1` and `c3` are built, `c2` is discarded, and two errors are logged. -/
theorem processConfigurations_sample :
    (processConfigurations sampleConfigurationsNode sampleExclusiveResource []).map
        (fun x => (x.1.attributes.map (fun a => a.name), x.2.map (fun m => m.severity))) =
      some (["c1", "c3"], [Severity.error, Severity.error]) := by
  decide

/-- C1. In `processConfigurations` with top-level-exclusive analyses, where the analysis
definition is obtained and its item 0, hence item 0 of every configuration attribute, is
a string item, for a `Configurations` node whose `Config` elements carry pairwise
distinct names, none of them the name of an attribute already in the resource (so that
each configuration attribute is created): the method returns, and for every `Config`,
if an `Analysis` node of it is rejected by `setExclusiveAnalysisConfiguration` then its
attribute is not in the resource afterwards, and if all are accepted then its attribute
is in the resource afterwards, wherever the `Config` stands in document order. In
particular a `Config` with an `Analysis` node whose `Type` is not an accepted value of
the string item is discarded. -/
theorem processConfigurations_exclusive_discards_rejected (node : XmlNode) (r r1 : Resource)
    (logger : Logger) (type : String) (analysisDef : Definition) (sitem0 : StringItem)
    (names : List String)
    (hexcl : r.topLevelExclusive = true)
    (htype : node.attr "AnalysisAttributeType" = some type)
    (hdef : analysisDefinition r type = some (analysisDef, r1))
    (hitem0 : analysisDef.itemDefinitions.head?.bind Item.asStringItem = some sitem0)
    (hnames : (node.childrenNamed "Config").map (fun c => c.attr "Name") = names.map some)
    (hnodup : names.Nodup)
    (hfresh : ∀ n ∈ names, r.hasAttribute n = false) :
    ∃ r2 logger2, processConfigurations node r logger = some (r2, logger2) ∧
      ∀ c ∈ node.childrenNamed "Config", ∀ n, c.attr "Name" = some n →
        (analysesAccepted sitem0 (c.childrenNamed "Analysis") = false →
          r2.hasAttribute n = false) ∧
        (analysesAccepted sitem0 (c.childrenNamed "Analysis") = true →
          r2.hasAttribute n = true) ∧
        ((∃ a ∈ c.childrenNamed "Analysis", ∃ v, a.attr "Type" = some v ∧
            sitem0.accepts v = false) → r2.hasAttribute n = false) := by
  obtain ⟨hflag, hatts⟩ := analysisDefinition_frame r r1 type analysisDef hdef
  have hexcl1 : r1.topLevelExclusive = true := by rw [hflag]; exact hexcl
  have hfresh1 : ∀ n ∈ names, r1.hasAttribute n = false := by
    intro n hn
    have := hfresh n hn
    unfold Resource.hasAttribute at this ⊢
    rw [hatts]; exact this
  have hne : analysisDef.numberOfItemDefinitions ≠ 0 := by
    unfold Definition.numberOfItemDefinitions
    intro h0
    rw [List.length_eq_zero] at h0
    rw [h0] at hitem0
    cases hitem0
  obtain ⟨r2, logger2, hrun, _, hconf⟩ := processConfigs_exclusive analysisDef sitem0 hitem0
    (node.childrenNamed "Config") names r1 logger hexcl1 hnames hnodup hfresh1
  refine ⟨r2, logger2, ?_, ?_⟩
  · unfold processConfigurations
    simp only [htype, hdef]
    rw [if_neg hne]
    exact hrun
  · intro c hc n hn
    have h := hconf c hc n hn
    refine ⟨fun h0 => by rw [h, h0], fun h1 => by rw [h, h1], fun hex => ?_⟩
    rw [h]
    exact analysesAccepted_unknown sitem0 _ hex

/-- Witness of C1: the sample configurations. `c2` names the analysis `Nope`, so its
attribute is discarded; `c1` before it and `c3` after it are built. -/
theorem processConfigurations_exclusive_discards_rejected_witness :
    ∃ r2 logger2,
      processConfigurations sampleConfigurationsNode sampleExclusiveResource [] =
        some (r2, logger2) ∧
      r2.hasAttribute "c1" = true ∧ r2.hasAttribute "c2" = false ∧
      r2.hasAttribute "c3" = true :=
  match processConfigurations_exclusive_discards_rejected sampleConfigurationsNode
      sampleExclusiveResource
      { sampleExclusiveResource with definitions :=
          [⟨"Analysis", [sampleAnalysisItem.toItem],
            ⟨CombinationMode.Any, CombinationMode.Any, CombinationMode.Any, ∅, ∅⟩, []⟩] }
      [] "Analysis"
      ⟨"Analysis", [sampleAnalysisItem.toItem],
        ⟨CombinationMode.Any, CombinationMode.Any, CombinationMode.Any, ∅, ∅⟩, []⟩
      sampleAnalysisItem ["c1", "c2", "c3"] rfl rfl rfl rfl rfl (by decide) (by decide) with
  | ⟨r2, logger2, hrun, h⟩ =>
    ⟨r2, logger2, hrun,
      (h (configNode "c1" [analysisNode "Heat" []]) (by simp [sampleConfigurationsNode,
        XmlNode.childrenNamed, XmlNode.children, XmlNode.name, configNode]) "c1" rfl).2.1
        (by decide),
      (h (configNode "c2" [analysisNode "Nope" []]) (by simp [sampleConfigurationsNode,
        XmlNode.childrenNamed, XmlNode.children, XmlNode.name, configNode]) "c2" rfl).1
        (by decide),
      (h (configNode "c3" [analysisNode "Flow" [analysisNode "Laminar" []]])
        (by simp [sampleConfigurationsNode, XmlNode.childrenNamed, XmlNode.children,
          XmlNode.name, configNode]) "c3" rfl).2.1 (by decide)⟩

/-- When the top level analyses are not exclusive, the inner loop of
`processConfigurations` does nothing, whatever the `Analysis` nodes are. -/
theorem configAnalyses_nonexclusive (sitem : Option StringItem) (configAtt : Attribute)
    (nodes : List XmlNode) (logger : Logger) :
    configAnalyses false sitem configAtt nodes logger = (true, sitem, configAtt, logger) := by
  induction nodes with
  | nil => rfl
  | cons a rest ih => simpa [configAnalyses] using ih

/-- C2, the code at the failing input. The top level analyses of the sample resource
are not exclusive, and the `Config` called `c1` holds an `Analysis` of type `Nope`, which
matches no item of the analysis attribute: `setAnalysisConfigurationHelper` would return
`false` for it, yet after `processConfigurations` the attribute `c1` is still in the
resource and the logger is empty. -/
theorem processConfigurations_nonexclusive_mismatch_kept :
    (setAnalysisConfigurationHelper "c1" "c1" [Item.void "Heat" false, Item.void "Flow" false]
        (analysisNode "Nope" []) []).1 = false ∧
    (processConfigurations sampleMismatchNode sampleResource []).map
        (fun x => (x.1.attributes.map (fun a => a.name), x.2)) =
      some (["c1", "c2"], []) := by
  decide

end XmlDocV3Parser

/-! ## Attribute reference components -/

namespace AttributeReferenceComponent

theorem unsetFrom_length (i k : Nat) (vs vs2 : List AttributePtr)
    (h : unsetFrom i k vs = some vs2) : vs2.length = vs.length := by
  induction k generalizing i vs with
  | zero =>
    simp only [unsetFrom, Option.some.injEq] at h
    rw [← h]
  | succ k ih =>
    unfold unsetFrom unset at h
    split_ifs at h with hi
    simp only at h
    rw [ih _ _ h, List.length_set]

theorem unsetFrom_isSome (i k : Nat) (vs : List AttributePtr) (h : i + k ≤ vs.length) :
    ∃ vs2, unsetFrom i k vs = some vs2 := by
  induction k generalizing i vs with
  | zero => exact ⟨vs, rfl⟩
  | succ k ih =>
    unfold unsetFrom unset
    rw [if_pos (by omega)]
    simp only
    exact ih (i + 1) _ (by rw [List.length_set]; omega)

/-- With a fixed count, `appendValue` and `removeValue` return `false` and change
nothing. -/
theorem fixed_append_remove (c : AttributeReferenceComponent)
    (d : AttributeReferenceComponentDefinition) (hd : c.definition = some d)
    (hn : d.numberOfValues ≠ 0) :
    (∀ v, c.appendValue v = some (false, c)) ∧ (∀ e, c.removeValue e = some (false, c)) := by
  constructor
  · intro v
    unfold appendValue
    rw [hd]
    simp only
    rw [if_pos hn]
  · intro e
    unfold removeValue
    rw [hd]
    simp only
    rw [if_pos hn]

/-- With a fixed count, a call that has a result keeps the definition and the number of
elements. -/
theorem fixed_step (c c2 : AttributeReferenceComponent)
    (d : AttributeReferenceComponentDefinition) (hd : c.definition = some d)
    (hn : d.numberOfValues ≠ 0) (op : Op) (h : c.step op = some c2) :
    c2.definition = some d ∧ c2.m_values.length = c.m_values.length := by
  obtain ⟨ha, hr⟩ := fixed_append_remove c d hd hn
  cases op with
  | setValue e a =>
    simp only [step, setValue, hd, Option.map_eq_some'] at h
    obtain ⟨x, hx, rfl⟩ := h
    split_ifs at hx
    · injection hx with hx
      subst hx
      exact ⟨rfl, List.length_set _ _ _⟩
    · injection hx with hx
      subst hx
      exact ⟨hd, rfl⟩
  | appendValue v =>
    simp only [step, ha v, Option.map_some', Option.some.injEq] at h
    subst h
    exact ⟨hd, rfl⟩
  | removeValue e =>
    simp only [step, hr e, Option.map_some', Option.some.injEq] at h
    subst h
    exact ⟨hd, rfl⟩
  | reset =>
    simp only [step, reset, hd] at h
    rw [if_neg hn] at h
    simp only [Option.map_eq_some'] at h
    obtain ⟨vs, hvs, rfl⟩ := h
    exact ⟨rfl, unsetFrom_length _ _ _ _ hvs⟩

/-- With a fixed count `n`, a call that stays inside the vector has a result. -/
theorem fixed_step_isSome (c : AttributeReferenceComponent)
    (d : AttributeReferenceComponentDefinition) (hd : c.definition = some d)
    (hn : d.numberOfValues ≠ 0) (hlen : c.m_values.length = d.numberOfValues.toNat) (op : Op)
    (hop : Op.inRange d d.numberOfValues.toNat op = true) : ∃ c2, c.step op = some c2 := by
  obtain ⟨ha, hr⟩ := fixed_append_remove c d hd hn
  cases op with
  | setValue e a =>
    simp only [step, setValue, hd]
    by_cases hv : d.isValueValid a = true
    · simp only [Op.inRange, hv, Bool.not_true, Bool.false_or, Bool.and_eq_true,
        decide_eq_true_eq] at hop
      rw [if_pos hv, if_pos ⟨hop.1, by rw [hlen]; exact hop.2⟩]
      exact ⟨_, rfl⟩
    · rw [if_neg hv]
      exact ⟨_, rfl⟩
  | appendValue v => exact ⟨c, by simp only [step, ha v, Option.map_some']⟩
  | removeValue e => exact ⟨c, by simp only [step, hr e, Option.map_some']⟩
  | reset =>
    simp only [step, reset, hd]
    rw [if_neg hn]
    obtain ⟨vs, hvs⟩ := unsetFrom_isSome 0 d.numberOfValues.toNat c.m_values (by omega)
    exact ⟨_, by rw [hvs]; rfl⟩

theorem fixed_run (d : AttributeReferenceComponentDefinition) (hn : d.numberOfValues ≠ 0)
    (ops : List Op) :
    ∀ (c c2 : AttributeReferenceComponent), c.definition = some d → run c ops = some c2 →
      c2.definition = some d ∧ c2.m_values.length = c.m_values.length := by
  induction ops with
  | nil =>
    intro c c2 hd h
    simp only [run, Option.some.injEq] at h
    subst h
    exact ⟨hd, rfl⟩
  | cons op ops ih =>
    intro c c2 hd h
    unfold run at h
    cases hs : c.step op with
    | none => rw [hs] at h; cases h
    | some c1 =>
      rw [hs] at h
      obtain ⟨hd1, hl1⟩ := fixed_step c c1 d hd hn op hs
      obtain ⟨hd2, hl2⟩ := ih c1 c2 hd1 h
      exact ⟨hd2, by rw [hl2, hl1]⟩

theorem fixed_run_isSome (d : AttributeReferenceComponentDefinition)
    (hn : d.numberOfValues ≠ 0) (ops : List Op) :
    ∀ (c : AttributeReferenceComponent), c.definition = some d →
      c.m_values.length = d.numberOfValues.toNat →
      (∀ op ∈ ops, Op.inRange d d.numberOfValues.toNat op = true) →
      ∃ c2, run c ops = some c2 := by
  induction ops with
  | nil => intro c _ _ _; exact ⟨c, rfl⟩
  | cons op ops ih =>
    intro c hd hlen hops
    obtain ⟨c1, hs⟩ := fixed_step_isSome c d hd hn hlen op (hops op (List.mem_cons_self _ _))
    obtain ⟨hd1, hl1⟩ := fixed_step c c1 d hd hn op hs
    obtain ⟨c2, h2⟩ := ih c1 hd1 (by rw [hl1, hlen])
      (fun o ho => hops o (List.mem_cons_of_mem _ ho))
    exact ⟨c2, by unfold run; rw [hs]; exact h2⟩

theorem resizeValues_length (vs : List AttributePtr) (n : Nat) :
    (resizeValues vs n).length = n := by
  unfold resizeValues
  rw [List.length_append, List.length_take, List.length_replicate]
  omega

/-- C9. Fixed-count invariant. Let the definition have a non-zero `numberOfValues` `N`
and let the component `c` come from a successful `setDefinition`. Then `c` has `N`
elements; after any sequence of `setValue`, `appendValue`, `removeValue` and `reset`
calls the component still has `N` elements, and on it every `appendValue` and every
`removeValue` returns `false` and leaves the component unchanged; and every such
sequence has a result as long as its `setValue` calls of a valid value name an element
of the vector. -/
theorem fixed_count_invariant (parentOk : Bool) (c0 c : AttributeReferenceComponent)
    (d : AttributeReferenceComponentDefinition) (N : Int)
    (hN : d.numberOfValues = N) (hne : N ≠ 0)
    (hset : setDefinition parentOk c0 (ComponentDefinition.attributeReference d) = some (true, c)) :
    (c.m_values.length : Int) = N ∧
    (∀ ops c2, run c ops = some c2 →
      (c2.m_values.length : Int) = N ∧
      (∀ v, c2.appendValue v = some (false, c2)) ∧
      (∀ e, c2.removeValue e = some (false, c2))) ∧
    (∀ ops, (∀ op ∈ ops, Op.inRange d N.toNat op = true) → ∃ c2, run c ops = some c2) := by
  subst hN
  have hc : c.definition = some d ∧ c.m_values.length = d.numberOfValues.toNat ∧
      0 ≤ d.numberOfValues := by
    unfold setDefinition at hset
    simp only at hset
    cases parentOk with
    | false => simp at hset
    | true =>
      simp only [Bool.not_true, Bool.false_eq_true, if_false] at hset
      rw [if_pos hne] at hset
      by_cases hneg : d.numberOfValues < 0
      · rw [if_pos hneg] at hset
        cases hset
      · rw [if_neg hneg] at hset
        injection hset with hset
        injection hset with _ hcc
        subst hcc
        exact ⟨rfl, resizeValues_length _ _, by omega⟩
  obtain ⟨hd, hlen, hpos⟩ := hc
  have hcast : ((d.numberOfValues.toNat : Nat) : Int) = d.numberOfValues := Int.toNat_of_nonneg hpos
  refine ⟨by rw [hlen, hcast], ?_, ?_⟩
  · intro ops c2 hrun
    obtain ⟨hd2, hl2⟩ := fixed_run d hne ops c c2 hd hrun
    obtain ⟨ha, hr⟩ := fixed_append_remove c2 d hd2 hne
    exact ⟨by rw [hl2, hlen, hcast], ha, hr⟩
  · intro ops hops
    exact fixed_run_isSome d hne ops c hd hlen hops

/-- Witness of C9: the definition of two values, set on a new component. -/
theorem fixed_count_invariant_witness :
    (sampleFixedComponent.m_values.length : Int) = 2 ∧
    (∀ ops c2, run sampleFixedComponent ops = some c2 →
      (c2.m_values.length : Int) = 2 ∧
      (∀ v, c2.appendValue v = some (false, c2)) ∧
      (∀ e, c2.removeValue e = some (false, c2))) ∧
    (∀ ops, (∀ op ∈ ops, Op.inRange sampleFixedDefinition (2 : Int).toNat op = true) →
      ∃ c2, run sampleFixedComponent ops = some c2) :=
  fixed_count_invariant true sampleNewComponent sampleFixedComponent sampleFixedDefinition 2
    rfl (by decide) rfl

/-- C10, the claim fails on the code. The component of the variable definition holds two
values; were two the maximum `M`, `appendValue` would have to fail and leave two
elements, but it returns `true` and the component holds three. -/
theorem appendValue_at_maximum_counterexample :
    (sampleVariableComponent.appendValue (some 3)).map
        (fun r => (r.1, r.2.m_values)) = some (true, [some 1, some 2, some 3]) := by
  decide

/-- C10 as amended. For a component with a variable number of values (the definition
has `numberOfValues` 0), `appendValue` of a valid value succeeds and adds the value as
one more element, whatever the element count is: no maximum is enforced. -/
theorem appendValue_variable_succeeds (c : AttributeReferenceComponent)
    (d : AttributeReferenceComponentDefinition) (val : AttributePtr)
    (hd : c.definition = some d) (hn : d.numberOfValues = 0)
    (hv : d.isValueValid val = true) :
    c.appendValue val = some (true, { c with m_values := c.m_values ++ [val] }) ∧
    ∀ r, c.appendValue val = some r → r.2.m_values.length = c.m_values.length + 1 := by
  have h : c.appendValue val = some (true, { c with m_values := c.m_values ++ [val] }) := by
    unfold appendValue
    rw [hd]
    simp only [hn, ne_eq, not_true_eq_false, if_false, hv, if_true]
  refine ⟨h, fun r hr => ?_⟩
  rw [h] at hr
  injection hr with hr
  subst hr
  simp

/-- Witness of the amended C10: a third value appended to the sample component. -/
theorem appendValue_variable_succeeds_witness :
    sampleVariableComponent.appendValue (some 3) =
      some (true, { sampleVariableComponent with
        m_values := sampleVariableComponent.m_values ++ [some 3] }) :=
  (appendValue_variable_succeeds sampleVariableComponent sampleVariableDefinition (some 3)
    rfl rfl rfl).1

/-- A call that has a result keeps the definition of the component. -/
theorem step_definition (c c2 : AttributeReferenceComponent) (op : Op)
    (h : c.step op = some c2) : c2.definition = c.definition := by
  cases op with
  | setValue e a =>
    simp only [step, setValue] at h
    cases hd : c.definition with
    | none => rw [hd] at h; simp at h
    | some d =>
      rw [hd] at h
      simp only [Option.map_eq_some'] at h
      obtain ⟨x, hx, rfl⟩ := h
      split_ifs at hx
      · injection hx with hx; subst hx; rfl
      · injection hx with hx; subst hx; first | rfl | exact hd
  | appendValue v =>
    simp only [step, appendValue] at h
    cases hd : c.definition with
    | none => rw [hd] at h; simp at h
    | some d =>
      rw [hd] at h
      simp only [Option.map_eq_some'] at h
      obtain ⟨x, hx, rfl⟩ := h
      split_ifs at hx <;> (injection hx with hx; subst hx; first | rfl | exact hd)
  | removeValue e =>
    simp only [step, removeValue] at h
    cases hd : c.definition with
    | none => rw [hd] at h; simp at h
    | some d =>
      rw [hd] at h
      simp only [Option.map_eq_some'] at h
      obtain ⟨x, hx, rfl⟩ := h
      split_ifs at hx <;> (injection hx with hx; subst hx; first | rfl | exact hd)
  | reset =>
    simp only [step, reset] at h
    cases hd : c.definition with
    | none => rw [hd] at h; simp at h
    | some d =>
      rw [hd] at h
      simp only at h
      split_ifs at h
      · injection h with h; subst h; rfl
      · simp only [Option.map_eq_some'] at h
        obtain ⟨vs, _, rfl⟩ := h
        rfl

theorem run_definition (ops : List Op) :
    ∀ (c c2 : AttributeReferenceComponent), run c ops = some c2 →
      c2.definition = c.definition := by
  induction ops with
  | nil =>
    intro c c2 h
    simp only [run, Option.some.injEq] at h
    rw [h]
  | cons op ops ih =>
    intro c c2 h
    unfold run at h
    cases hs : c.step op with
    | none => rw [hs] at h; cases h
    | some c1 =>
      rw [hs] at h
      rw [ih c1 c2 h, step_definition c c1 op hs]

/-- The elements after the loop of `reset`: those the loop has passed are unset, the
others are as before. -/
theorem unsetFrom_getElem? (i k : Nat) (vs vs2 : List AttributePtr)
    (h : unsetFrom i k vs = some vs2) (j : Nat) (hj : j < vs.length) :
    vs2[j]? = if i ≤ j ∧ j < i + k then some none else vs[j]? := by
  induction k generalizing i vs with
  | zero =>
    simp only [unsetFrom, Option.some.injEq] at h
    subst h
    rw [if_neg (by omega)]
  | succ k ih =>
    unfold unsetFrom unset at h
    split_ifs at h with hi
    simp only at h
    rw [ih (i + 1) _ h (by rw [List.length_set]; exact hj)]
    by_cases hij : i = j
    · subst hij
      rw [if_neg (by omega), if_pos (by omega), List.getElem?_set_self hi]
    · rw [List.getElem?_set_ne hij]
      by_cases hc : i + 1 ≤ j ∧ j < i + 1 + k
      · rw [if_pos hc, if_pos (by omega)]
      · rw [if_neg hc, if_neg (by omega)]

/-- C11, the code at the failing input. On the component with a variable number of
values that holds no value, `removeValue` has no defined result for any element index:
it calls `erase` on the empty vector. More generally, with a variable number of values
`removeValue` never returns `false`. -/
theorem removeValue_empty_undefined :
    (∀ e : Int, sampleEmptyComponent.removeValue e = none) ∧
    (∀ (c : AttributeReferenceComponent) (d : AttributeReferenceComponentDefinition)
      (e : Int), c.definition = some d → d.numberOfValues = 0 →
      ∀ r, c.removeValue e = some r → r.1 = true) := by
  constructor
  · intro e
    unfold removeValue sampleEmptyComponent sampleVariableDefinition
    simp only [ne_eq, not_true_eq_false, if_false, List.length_nil, Nat.cast_zero]
    rw [if_neg (by omega)]
  · intro c d e hd hn r hr
    unfold removeValue at hr
    rw [hd] at hr
    simp only [hn, ne_eq, not_true_eq_false, if_false] at hr
    split_ifs at hr
    injection hr with hr
    rw [← hr]

/-- C12, the code at the failing input. On the component of two values, `setValue` of a
valid attribute at element 5, or at element -1, has no defined result: the vector is
written outside its bounds. More generally, `setValue` returns `false` only for a value
that the definition rejects, never for an element out of range. -/
theorem setValue_out_of_range_undefined :
    sampleFixedComponent.setValue 5 (some 1) = none ∧
    sampleFixedComponent.setValue (-1) (some 1) = none ∧
    (∀ (c : AttributeReferenceComponent) (d : AttributeReferenceComponentDefinition)
      (e : Int) (att : AttributePtr), c.definition = some d → d.isValueValid att = true →
      ∀ r, c.setValue e att = some r → r.1 = true) := by
  refine ⟨rfl, rfl, ?_⟩
  intro c d e att hd hv r hr
  unfold setValue at hr
  rw [hd] at hr
  simp only [hv, if_true] at hr
  split_ifs at hr
  injection hr with hr
  rw [← hr]

/-- C13. A rejected value causes no mutation. For a component with definition `d`: if
`d.isValueValid att` is false, `setValue(element, att)` and `appendValue(att)` return
`false` and leave the component as it was; if it is true and `element` is in range,
`setValue` returns `true`, the element holds `att`, every other element is unchanged and
so is the number of elements. -/
theorem rejected_value_no_mutation (c : AttributeReferenceComponent)
    (d : AttributeReferenceComponentDefinition) (element : Int) (att : AttributePtr)
    (hd : c.definition = some d) :
    (d.isValueValid att = false →
      c.setValue element att = some (false, c) ∧ c.appendValue att = some (false, c)) ∧
    (d.isValueValid att = true → 0 ≤ element → element < c.m_values.length →
      ∃ c2, c.setValue element att = some (true, c2) ∧
        c2.m_values[element.toNat]? = some att ∧
        (∀ j, j ≠ element.toNat → c2.m_values[j]? = c.m_values[j]?) ∧
        c2.m_values.length = c.m_values.length ∧ c2.definition = c.definition) := by
  constructor
  · intro hv
    constructor
    · unfold setValue
      rw [hd]
      simp only [hv, Bool.false_eq_true, if_false]
    · unfold appendValue
      rw [hd]
      simp only [hv, Bool.false_eq_true, if_false, ite_self]
  · intro hv h0 hlt
    have hlt2 : element.toNat < c.m_values.length := by omega
    refine ⟨{ c with m_values := c.m_values.set element.toNat att }, ?_, ?_, ?_, ?_, rfl⟩
    · unfold setValue
      rw [hd]
      simp only [hv, if_true]
      rw [if_pos ⟨h0, hlt⟩]
    · simp only
      rw [List.getElem?_set_self hlt2]
    · intro j hj
      simp only
      rw [List.getElem?_set_ne (Ne.symm hj)]
    · simp only [List.length_set]

/-- Witness of C13: on the selective component the attribute 12 is rejected by
`setValue` and `appendValue` alike. -/
theorem rejected_value_no_mutation_witness :
    sampleSelectiveComponent.setValue 0 (some 12) = some (false, sampleSelectiveComponent) ∧
    sampleSelectiveComponent.appendValue (some 12) = some (false, sampleSelectiveComponent) :=
  (rejected_value_no_mutation sampleSelectiveComponent sampleSelectiveDefinition 0 (some 12)
    rfl).1 rfl

/-- C14. Let the component `c` come from a successful `setDefinition` with definition
`d`, and let `c2` be reached from it by any calls. Then `reset()` on `c2` has a result,
after which the number of values is `d.numberOfValues` (zero when the count is variable,
whatever had been appended) and every element is unset. -/
theorem reset_restores_count (parentOk : Bool) (c0 c c2 : AttributeReferenceComponent)
    (d : AttributeReferenceComponentDefinition) (ops : List Op)
    (hset : setDefinition parentOk c0 (ComponentDefinition.attributeReference d) = some (true, c))
    (hrun : run c ops = some c2) :
    ∃ c3, c2.reset = some c3 ∧ (c3.m_values.length : Int) = d.numberOfValues ∧
      (∀ v ∈ c3.m_values, v = none) ∧ c3.definition = some d := by
  have hc : c.definition = some d ∧
      (d.numberOfValues ≠ 0 →
        c.m_values.length = d.numberOfValues.toNat ∧ 0 ≤ d.numberOfValues) := by
    unfold setDefinition at hset
    simp only at hset
    cases parentOk with
    | false => simp at hset
    | true =>
      simp only [Bool.not_true, Bool.false_eq_true, if_false] at hset
      by_cases hne : d.numberOfValues ≠ 0
      · rw [if_pos hne] at hset
        by_cases hneg : d.numberOfValues < 0
        · rw [if_pos hneg] at hset
          cases hset
        · rw [if_neg hneg] at hset
          injection hset with hset
          injection hset with _ hcc
          subst hcc
          exact ⟨rfl, fun _ => ⟨resizeValues_length _ _, by omega⟩⟩
      · rw [if_neg hne] at hset
        injection hset with hset
        injection hset with _ hcc
        subst hcc
        exact ⟨rfl, fun h => absurd h hne⟩
  obtain ⟨hd, hfix⟩ := hc
  have hd2 : c2.definition = some d := by rw [run_definition ops c c2 hrun, hd]
  unfold reset
  rw [hd2]
  simp only
  by_cases hz : d.numberOfValues = 0
  · rw [if_pos hz]
    exact ⟨_, rfl, by simp [hz], by simp, rfl⟩
  · rw [if_neg hz]
    obtain ⟨hlen, hpos⟩ := hfix hz
    obtain ⟨_, hl2⟩ := fixed_run d hz ops c c2 hd hrun
    have hlen2 : c2.m_values.length = d.numberOfValues.toNat := by rw [hl2, hlen]
    obtain ⟨vs, hvs⟩ := unsetFrom_isSome 0 d.numberOfValues.toNat c2.m_values (by omega)
    have hvl := unsetFrom_length _ _ _ _ hvs
    rw [hvs]
    refine ⟨_, rfl, ?_, ?_, rfl⟩
    · simp only
      rw [hvl, hlen2]
      exact Int.toNat_of_nonneg hpos
    · intro v hv
      simp only at hv
      obtain ⟨j, hj, hjv⟩ := List.getElem_of_mem hv
      have hj2 : j < c2.m_values.length := by rw [← hvl]; exact hj
      have := unsetFrom_getElem? 0 _ _ _ hvs j hj2
      rw [if_pos (by omega), List.getElem?_eq_getElem hj, hjv] at this
      injection this

/-- Witness of C14: the component of two values after both have been set. -/
theorem reset_restores_count_witness :
    ∃ c3, (⟨some sampleFixedDefinition, [some 1, some 2]⟩ : AttributeReferenceComponent).reset =
        some c3 ∧ (c3.m_values.length : Int) = sampleFixedDefinition.numberOfValues ∧
      (∀ v ∈ c3.m_values, v = none) ∧ c3.definition = some sampleFixedDefinition :=
  reset_restores_count true sampleNewComponent sampleFixedComponent
    ⟨some sampleFixedDefinition, [some 1, some 2]⟩ sampleFixedDefinition
    [Op.setValue 0 (some 1), Op.setValue 1 (some 2)] rfl rfl

end AttributeReferenceComponent

/-! ## Documents and definition information -/

namespace XmlDocV3Parser

theorem child_name (n c : XmlNode) (key : String) (h : n.child key = some c) :
    c.name = key := by
  unfold XmlNode.child at h
  have := List.find?_some h
  simpa using this

/-- The sample documents, evaluated: only the one with `Version` 3 can be parsed. -/
theorem canParse_sample :
    canParse sampleDocument = true ∧ canParse sampleDocumentNoVersion = false ∧
    canParse sampleDocumentVersion2 = false ∧ canParse sampleEmptyDocument = false := by
  decide

/-- C15. The method `canParse(document)` returns `true` if and only if the document has
a child element `SMTK_AttributeResource` that carries a `Version` attribute whose
integer value is 3; it returns `false` when that element is missing, when the attribute
is missing and for every other version number; and `canParse(node)` on that element
returns the same answer. -/
theorem canParse_iff (doc : XmlNode) :
    (canParse doc = true ↔
      ∃ amnode v, doc.child "SMTK_AttributeResource" = some amnode ∧
        amnode.attr "Version" = some v ∧ textAsInt v = 3) ∧
    (doc.child "SMTK_AttributeResource" = none → canParse doc = false) ∧
    (∀ amnode, doc.child "SMTK_AttributeResource" = some amnode →
      (amnode.attr "Version" = none → canParse doc = false) ∧
      (∀ v, amnode.attr "Version" = some v → textAsInt v ≠ 3 → canParse doc = false) ∧
      canParseNode amnode = canParse doc) := by
  unfold canParse
  cases hroot : doc.child "SMTK_AttributeResource" with
  | none => simp
  | some amnode =>
    have hname := child_name doc amnode _ hroot
    cases hv : amnode.attr "Version" with
    | none => simp [hv, canParseNode, hname]
    | some v => simp [hv, canParseNode, hname]

/-- C16. On a document without the element `SMTK_AttributeResource`, `process(document)`
returns after logging one warning and leaves everything else as it was; the V2 parser
is not invoked, the result being the same for every V2 parser. -/
theorem processDocument_missing_root (env : ParserEnvironment) (doc : XmlNode)
    (s : ParserState) (h : doc.child "SMTK_AttributeResource" = none) :
    processDocument env doc s =
      some { s with logger :=
        s.logger ++ [⟨Severity.warning, "Missing SMTK_AttributeResource element"⟩] } ∧
    ∀ env2 : ParserEnvironment, processDocument env2 doc s = processDocument env doc s := by
  unfold processDocument
  rw [h]
  exact ⟨rfl, fun _ => rfl⟩

/-- Witness of C16: the sample document without root element. -/
theorem processDocument_missing_root_witness :
    processDocument sampleEnvironment sampleEmptyDocument sampleParserState =
      some { sampleParserState with logger :=
        sampleParserState.logger ++
          [⟨Severity.warning, "Missing SMTK_AttributeResource element"⟩] } :=
  (processDocument_missing_root sampleEnvironment sampleEmptyDocument sampleParserState rfl).1

/-- C17, the claim fails on the code. The root element of the sample document has no
`Version` attribute (or has `Version` 2), so `canParse` rejects the document, yet
`process(document)` adds its unique role 7 and registers the surrogate of its
association. -/
theorem processDocument_no_version_counterexample :
    canParse sampleDocumentNoVersion = false ∧
    (processDocument sampleEnvironment sampleDocumentNoVersion sampleParserState).map
        (fun r => (r.uniqueRoles, r.links.entries.map (fun e => e.surrogate.id))) =
      some ([7], ["R1"]) ∧
    canParse sampleDocumentVersion2 = false ∧
    (processDocument sampleEnvironment sampleDocumentVersion2 sampleParserState).map
        (fun r => (r.uniqueRoles, r.links.entries.map (fun e => e.surrogate.id))) =
      some ([7], ["R1"]) := by
  decide

theorem addUniqueRole_mem (s : ParserState) (role x : Int) :
    x ∈ (s.addUniqueRole role).uniqueRoles ↔ x ∈ s.uniqueRoles ∨ x = role := by
  unfold ParserState.addUniqueRole
  simp only
  split_ifs with h
  · constructor
    · exact Or.inl
    · rintro (h1 | h1)
      · exact h1
      · rw [h1]; simpa using h
  · simp

theorem uniqueRoles_loop (children : List XmlNode) (s : ParserState) (x : Int) :
    x ∈ (children.foldl (fun st cnode =>
        if cnode.name ≠ "Role" then st
        else
          match cnode.attr "ID" with
          | none => st
          | some v => st.addUniqueRole (textAsInt v)) s).uniqueRoles ↔
      x ∈ s.uniqueRoles ∨
        x ∈ children.filterMap (fun c =>
          if c.name ≠ "Role" then none else (c.attr "ID").map textAsInt) := by
  induction children generalizing s with
  | nil => simp
  | cons c cs ih =>
    rw [List.foldl_cons, ih, List.filterMap_cons]
    by_cases hn : c.name ≠ "Role"
    · simp only [if_pos hn]
    · simp only [if_neg hn]
      cases c.attr "ID" with
      | none => simp
      | some v =>
        simp only [Option.map_some', List.mem_cons, addUniqueRole_mem]
        tauto

/-- The unique roles after `getUniqueRoles`: those before and those of the document. -/
theorem getUniqueRoles_mem (rootNode : XmlNode) (s : ParserState) (x : Int) :
    x ∈ (getUniqueRoles rootNode s).uniqueRoles ↔
      x ∈ s.uniqueRoles ∨ x ∈ documentRoles rootNode := by
  unfold getUniqueRoles documentRoles
  cases rootNode.child "UniqueRoles" with
  | none => simp
  | some node => exact uniqueRoles_loop node.children s x

theorem associations_loop_uniqueRoles (env : ParserEnvironment) (children : List XmlNode)
    (s : ParserState) :
    (children.foldl (fun st child => processAssociation env child st) s).uniqueRoles =
      s.uniqueRoles := by
  induction children generalizing s with
  | nil => rfl
  | cons c cs ih => rw [List.foldl_cons, ih]; rfl

theorem associationsStep_uniqueRoles (env : ParserEnvironment) (rootNode : XmlNode)
    (s : ParserState) : (associationsStep env rootNode s).uniqueRoles = s.uniqueRoles := by
  unfold associationsStep
  cases rootNode.child "Associations" with
  | none => rfl
  | some node => exact associations_loop_uniqueRoles env node.children s

/-- C17 as amended. The method `process(document)` does not look at the `Version`
attribute: for a document with an element `SMTK_AttributeResource`, whatever its version,
it is `process` on that element, and when it returns every unique role of the document
is in the resource. -/
theorem processDocument_ignores_version (env : ParserEnvironment) (doc amnode : XmlNode)
    (s : ParserState) (h : doc.child "SMTK_AttributeResource" = some amnode) :
    processDocument env doc s = process env amnode s ∧
    ∀ s2, processDocument env doc s = some s2 →
      ∀ role ∈ documentRoles amnode, role ∈ s2.uniqueRoles := by
  have heq : processDocument env doc s = process env amnode s := by
    unfold processDocument
    rw [h]
  refine ⟨heq, ?_⟩
  intro s2 hs2 role hrole
  rw [heq] at hs2
  unfold process processV3 at hs2
  cases hc : configurationsStep amnode (env.processV2 amnode s) with
  | none => rw [hc] at hs2; cases hs2
  | some s1 =>
    rw [hc] at hs2
    injection hs2 with hs2
    rw [← hs2, associationsStep_uniqueRoles, getUniqueRoles_mem]
    exact Or.inr hrole

/-- Witness of the amended C17: the sample document without `Version`. -/
theorem processDocument_ignores_version_witness :
    processDocument sampleEnvironment sampleDocumentNoVersion sampleParserState =
      process sampleEnvironment (XmlNode.mk "SMTK_AttributeResource" [] "" sampleRootChildren)
        sampleParserState :=
  (processDocument_ignores_version sampleEnvironment sampleDocumentNoVersion
    (XmlNode.mk "SMTK_AttributeResource" [] "" sampleRootChildren) sampleParserState rfl).1

theorem findChildDefinitions_eq (warning : String) (r : Resource) (children : List XmlNode)
    (defs : List Definition) (logger : Logger) :
    findChildDefinitions warning r children (defs, logger) =
      (defs ++ definitionsFound r children, logger ++ notFoundWarnings warning r children) := by
  induction children generalizing defs logger with
  | nil => simp [findChildDefinitions, definitionsFound, notFoundWarnings]
  | cons c cs ih =>
    unfold findChildDefinitions
    cases hf : r.findDefinition c.text with
    | some d =>
      simp only
      rw [ih]
      simp [definitionsFound, notFoundWarnings, hf, List.filterMap_cons, List.filter_cons]
    | none =>
      simp only
      rw [ih]
      simp [definitionsFound, notFoundWarnings, hf, List.filterMap_cons, List.filter_cons,
        logWarning]

theorem pairWith_range (x : Definition) (xs : List Definition) :
    (List.range xs.length).filterMap (fun j =>
      match some x, xs[j]? with
      | some a, some b => some (a, b)
      | _, _ => none) = xs.map (fun y => (x, y)) := by
  induction xs with
  | nil => rfl
  | cons y ys ih =>
    rw [List.length_cons, List.range_succ_eq_map, List.filterMap_cons, List.filterMap_map]
    simp only [List.getElem?_cons_zero, List.map_cons, List.cons.injEq, true_and]
    rw [← ih]
    congr 1
    funext j
    simp only [Function.comp, Nat.succ_eq_add_one, List.getElem?_cons_succ]

/-- The two index loops of `processExclusion` visit each element with each later one. -/
theorem exclusionPairs_eq (defs : List Definition) :
    exclusionPairs defs = orderedPairs defs := by
  induction defs with
  | nil => rfl
  | cons x xs ih =>
    unfold exclusionPairs orderedPairs
    rw [List.length_cons, List.range_succ_eq_map, List.flatMap_cons, List.flatMap_map]
    congr 1
    · rw [show (0 + 1) = 1 from rfl, show xs.length + 1 - 1 = xs.length from by omega,
        List.range'_eq_map_range, List.filterMap_map, ← pairWith_range x xs]
      congr 1
      funext j
      simp only [Function.comp, List.getElem?_cons_zero]
      rw [Nat.add_comm 1 j, List.getElem?_cons_succ]
    · rw [← ih]
      unfold exclusionPairs
      congr 1
      funext i
      show List.filterMap _ (List.range' (i.succ + 1) (xs.length + 1 - (i.succ + 1))) = _
      rw [show xs.length + 1 - (i.succ + 1) = xs.length - (i + 1) from by omega,
        List.range'_eq_map_range, List.range'_eq_map_range, List.filterMap_map,
        List.filterMap_map]
      congr 1
      funext j
      simp only [Function.comp, Nat.succ_eq_add_one, List.getElem?_cons_succ]
      rw [show i + 1 + 1 + j = (i + 1 + j) + 1 from by omega, List.getElem?_cons_succ]

theorem orderedPairs_length (xs : List Definition) :
    (orderedPairs xs).length * 2 = xs.length * (xs.length - 1) := by
  induction xs with
  | nil => rfl
  | cons x xs ih =>
    simp only [orderedPairs, List.length_append, List.length_map, List.length_cons,
      Nat.add_sub_cancel]
    cases hn : xs.length with
    | zero => rw [hn] at ih; simp only [Nat.zero_mul] at ih; omega
    | succ m =>
      rw [hn] at ih
      simp only [Nat.add_sub_cancel] at ih
      nlinarith

theorem orderedPairs_mem (xs : List Definition) (a b : Definition) :
    (a, b) ∈ orderedPairs xs ↔
      ∃ i j : Nat, i < j ∧ xs[i]? = some a ∧ xs[j]? = some b := by
  induction xs with
  | nil => simp [orderedPairs]
  | cons x xs ih =>
    simp only [orderedPairs, List.mem_append, List.mem_map, Prod.mk.injEq, ih]
    constructor
    · rintro (⟨y, hy, rfl, rfl⟩ | ⟨i, j, hij, hi, hj⟩)
      · obtain ⟨j, hj⟩ := List.getElem?_of_mem hy
        exact ⟨0, j + 1, by omega, List.getElem?_cons_zero, by simpa using hj⟩
      · exact ⟨i + 1, j + 1, by omega, by simpa using hi, by simpa using hj⟩
    · rintro ⟨i, j, hij, hi, hj⟩
      cases j with
      | zero => omega
      | succ j =>
        rw [List.getElem?_cons_succ] at hj
        cases i with
        | zero =>
          rw [List.getElem?_cons_zero] at hi
          injection hi with hi
          exact Or.inl ⟨b, List.getElem?_mem hj, hi, rfl⟩
        | succ i =>
          rw [List.getElem?_cons_succ] at hi
          exact Or.inr ⟨i, j, by omega, hi, hj⟩

theorem addExclusion_loop (pairs : List (Definition × Definition)) (s : ParserState) :
    (pairs.foldl (fun st pr => st.addExclusion pr.1.type pr.2.type) s).definitionCalls =
        s.definitionCalls ++
          pairs.map (fun pr => DefinitionCall.addExclusion pr.1.type pr.2.type) ∧
    (pairs.foldl (fun st pr => st.addExclusion pr.1.type pr.2.type) s).logger = s.logger ∧
    (pairs.foldl (fun st pr => st.addExclusion pr.1.type pr.2.type) s).prerequisites =
      s.prerequisites := by
  induction pairs generalizing s with
  | nil => simp
  | cons pr prs ih =>
    simp only [List.foldl_cons, List.map_cons]
    obtain ⟨h1, h2, h3⟩ := ih (s.addExclusion pr.1.type pr.2.type)
    rw [h1, h2, h3]
    simp [ParserState.addExclusion]

theorem addPrerequisite_loop (target : String) (defs : List Definition) (s : ParserState) :
    (defs.foldl (fun st d => st.addPrerequisite target d.type) s).definitionCalls =
        s.definitionCalls ++
          defs.map (fun d => DefinitionCall.addPrerequisite target d.type) ∧
    (defs.foldl (fun st d => st.addPrerequisite target d.type) s).logger = s.logger ∧
    (defs.foldl (fun st d => st.addPrerequisite target d.type) s).exclusions =
      s.exclusions := by
  induction defs generalizing s with
  | nil => simp
  | cons d ds ih =>
    simp only [List.foldl_cons, List.map_cons]
    obtain ⟨h1, h2, h3⟩ := ih (s.addPrerequisite target d.type)
    rw [h1, h2, h3]
    simp [ParserState.addPrerequisite]

/-- The sample exclusion and prerequisite elements, evaluated: `A`, `B` and `C` are
found, the unknown `X` gives one warning and does not stop the others. -/
theorem processExclusion_sample :
    (processExclusion sampleExclusionNode sampleParserState).definitionCalls =
      [DefinitionCall.addExclusion "A" "B", DefinitionCall.addExclusion "A" "C",
        DefinitionCall.addExclusion "B" "C"] ∧
    (processExclusion sampleExclusionNode sampleParserState).logger =
      [⟨Severity.warning, "Cannot find exclusion definiion: X"⟩] ∧
    (processPrerequisite samplePrerequisiteNode sampleParserState).definitionCalls =
      [DefinitionCall.addPrerequisite "A" "B", DefinitionCall.addPrerequisite "A" "C"] ∧
    (processPrerequisite samplePrerequisiteNode sampleParserState).logger =
      [⟨Severity.warning, "Cannot find prerequisite definiion: X"⟩] := by
  decide

/-- C19. For every exclusion element, with `D` the definitions found for the texts of
its children, in document order: the calls of `addExclusion` that `processExclusion`
makes are, in order, those for the pairs of `D` formed by each entry with each later
one, that is one call for each pair `(D[i], D[j])` with `i < j` and none for any other
pair; one warning is logged for each child whose name is not found, which does not
prevent the remaining names from being paired; and when `D` has fewer than two entries
no call is made and the exclusions are unchanged. -/
theorem processExclusion_pairs (excludeNode : XmlNode) (s : ParserState) :
    (processExclusion excludeNode s).definitionCalls =
      s.definitionCalls ++
        (orderedPairs (definitionsFound s.resource excludeNode.children)).map
          (fun pr => DefinitionCall.addExclusion pr.1.type pr.2.type) ∧
    (∀ a b, (a, b) ∈ orderedPairs (definitionsFound s.resource excludeNode.children) ↔
      ∃ i j : Nat, i < j ∧
        (definitionsFound s.resource excludeNode.children)[i]? = some a ∧
        (definitionsFound s.resource excludeNode.children)[j]? = some b) ∧
    (orderedPairs (definitionsFound s.resource excludeNode.children)).length * 2 =
      (definitionsFound s.resource excludeNode.children).length *
        ((definitionsFound s.resource excludeNode.children).length - 1) ∧
    (processExclusion excludeNode s).logger =
      s.logger ++ notFoundWarnings "Cannot find exclusion definiion: " s.resource
        excludeNode.children ∧
    ((definitionsFound s.resource excludeNode.children).length < 2 →
      (processExclusion excludeNode s).definitionCalls = s.definitionCalls ∧
      (processExclusion excludeNode s).exclusions = s.exclusions) := by
  have hfound := findChildDefinitions_eq "Cannot find exclusion definiion: " s.resource
    excludeNode.children [] s.logger
  rw [List.nil_append] at hfound
  refine ⟨?_, fun a b => orderedPairs_mem _ a b, orderedPairs_length _, ?_, ?_⟩
  · unfold processExclusion
    simp only [hfound]
    split_ifs with hlt
    · have hnil : orderedPairs (definitionsFound s.resource excludeNode.children) = [] := by
        cases hD : definitionsFound s.resource excludeNode.children with
        | nil => rfl
        | cons x xs =>
          rw [hD] at hlt
          cases xs with
          | nil => rfl
          | cons y ys => simp only [List.length_cons] at hlt; omega
      rw [hnil]
      simp
    · rw [exclusionPairs_eq]
      exact (addExclusion_loop _ _).1
  · unfold processExclusion
    simp only [hfound]
    split_ifs with hlt
    · rfl
    · exact (addExclusion_loop _ _).2.1
  · intro hlt
    unfold processExclusion
    simp only [hfound]
    rw [if_pos hlt]
    exact ⟨rfl, rfl⟩

/-- C20. For every prerequisite element: if its `Type` attribute names a known
definition `T`, the calls that `processPrerequisite` makes are, in document order, one
call `T.addPrerequisite(d)` for each child whose text names a known definition `d`, and
one warning is logged for each child whose name is unknown; if the `Type` attribute is
missing or names no known definition, one warning is logged and nothing else changes, so
no prerequisite is added to any definition. -/
theorem processPrerequisite_calls (prereqNode : XmlNode) (s : ParserState) :
    (∀ type targetDef, prereqNode.attr "Type" = some type →
      s.resource.findDefinition type = some targetDef →
      (processPrerequisite prereqNode s).definitionCalls =
        s.definitionCalls ++
          (definitionsFound s.resource prereqNode.children).map
            (fun d => DefinitionCall.addPrerequisite targetDef.type d.type) ∧
      (processPrerequisite prereqNode s).logger =
        s.logger ++ notFoundWarnings "Cannot find prerequisite definiion: " s.resource
          prereqNode.children) ∧
    ((prereqNode.attr "Type" = none ∨
        ∃ type, prereqNode.attr "Type" = some type ∧ s.resource.findDefinition type = none) →
      ∃ msg, processPrerequisite prereqNode s =
        { s with logger := s.logger ++ [⟨Severity.warning, msg⟩] }) := by
  have hfound := findChildDefinitions_eq "Cannot find prerequisite definiion: " s.resource
    prereqNode.children [] s.logger
  rw [List.nil_append] at hfound
  constructor
  · intro type targetDef htype hdef
    unfold processPrerequisite
    simp only [htype, hdef, hfound]
    split_ifs with hz
    · rw [List.length_eq_zero] at hz
      rw [hz]
      exact ⟨by simp, rfl⟩
    · exact ⟨(addPrerequisite_loop _ _ _).1, (addPrerequisite_loop _ _ _).2.1⟩
  · rintro (hnone | ⟨type, htype, hdef⟩)
    · exact ⟨"Cannot find type XML attribute", by unfold processPrerequisite; rw [hnone]; rfl⟩
    · exact ⟨"Cannot find target definiion: " ++ type, by
        unfold processPrerequisite; simp only [htype, hdef]; rfl⟩

/-! ## Further properties of configurations, reference items and definitions -/

/-- C21, the code at the failing input. The first `Config` of the sample node has no
`Name`; the message says that the configuration is skipped, but the method returns
there: one error is logged and the `Config` called `c2` that follows, whose analysis is
accepted, is not built. -/
theorem processConfigurations_unnamed_stops :
    (processConfigurations sampleUnnamedConfigNode sampleExclusiveResource []).map
        (fun x => (x.1.attributes.map (fun a => a.name), x.2)) =
      some ([], [⟨Severity.error,
        "Configuration missing Name xml attribute - skipping configuration!"⟩]) ∧
    analysesAccepted sampleAnalysisItem [analysisNode "Heat" []] = true := by
  decide

/-- C22, the code at the failing input. The sample item is extensible with at most one
value, so `setNumberOfValues(3)` fails and the item keeps one value, but the local count
is 3: the `Val` with `Ith` 2 is not skipped, no error is logged, `setObjectKey` is called
with index 2, which is outside the item, and a link row is inserted for it. -/
theorem processReferenceItem_index_outside_item :
    (processReferenceItem sampleContext sampleOversizedItemNode
        ⟨sampleBoundedItem, ⟨[]⟩, [], []⟩).map
      (fun r => (r.item.numberOfValues, r.item.keys, r.logger, r.calls, r.links.rows "S1")) =
      some (1, [none], [],
        [Call.setNumberOfValues 3, Call.setObjectKey 2 ("S1", "K1"), Call.linksContains "S1",
          Call.linksInsert ⟨1, "smtk::model::Resource", "R1", "a.smtk"⟩ "S1" "res-1" "R1",
          Call.linksValueInsert "S1" ⟨"K1", "att-1", "T1", 0⟩],
        [⟨"K1", "att-1", "T1", 0⟩]) := by
  rfl

/-- C28, the code at the failing input. With two `Config` elements of the same name, with
a name that an attribute of the resource already has, and with analyses that cannot be
built into a definition, `processConfigurations` dereferences a null pointer. -/
theorem processConfigurations_null_dereference :
    (processConfigurations sampleDuplicateConfigNode sampleExclusiveResource []).isNone = true ∧
    (processConfigurations sampleConfigurationsNode sampleResourceWithC1 []).isNone = true ∧
    (processConfigurations sampleConfigurationsNode sampleResourceWithoutAnalyses []).isNone =
      true := by
  decide

/-- The combination mode after the category part of `processDefinition`, when the
definition node has a `CategoryInfo` element: that of its `Combination` attribute if it
names one, else that of `CategoryCheckMode` if it names one, else the previous one. -/
theorem processDefinitionCategories_combinationMode (p : OlderParsers)
    (defNode catInfoNode : XmlNode) (c0 : CategorySet)
    (h : defNode.child "CategoryInfo" = some catInfoNode) :
    (processDefinitionCategories p defNode c0).combinationMode =
      (getCategoryComboMode p (catInfoNode.attr "Combination")).getD
        ((getCategoryComboMode p (defNode.attr "CategoryCheckMode")).getD c0.combinationMode) := by
  unfold processDefinitionCategories
  simp only [h, insertInclusions_eq, insertExclusions_eq]
  cases getCategoryComboMode p (defNode.attr "CategoryCheckMode") <;>
  cases getCategoryComboMode p (catInfoNode.attr "Combination") <;>
  cases catInfoNode.child "Include" <;>
  cases catInfoNode.child "Exclude" <;>
  simp only [CategorySet.setCombinationMode, CategorySet.setInclusionMode,
    CategorySet.setExclusionMode, Option.getD] <;>
  (repeat' split) <;>
  simp [CategorySet.setCombinationMode, CategorySet.setInclusionMode,
    CategorySet.setExclusionMode]

/-- C25. Combination-mode precedence. When a definition node carries a valid old-style
`CategoryCheckMode` attribute, naming the mode `m1`, and a `CategoryInfo` element: if the
`Combination` attribute of `CategoryInfo` is valid, naming `m2`, the combination mode of
the local categories after `processDefinition` is `m2`; if it is not, the mode is `m1`. -/
theorem processDefinition_combination_precedence (p : OlderParsers)
    (defNode catInfoNode : XmlNode) (d : Definition) (logger : Logger) (m1 : CombinationMode)
    (hccm : getCategoryComboMode p (defNode.attr "CategoryCheckMode") = some m1)
    (hinfo : defNode.child "CategoryInfo" = some catInfoNode) :
    (∀ m2, getCategoryComboMode p (catInfoNode.attr "Combination") = some m2 →
      (processDefinition p defNode d logger).1.localCategories.combinationMode = m2) ∧
    (getCategoryComboMode p (catInfoNode.attr "Combination") = none →
      (processDefinition p defNode d logger).1.localCategories.combinationMode = m1) := by
  have h : (processDefinition p defNode d logger).1.localCategories.combinationMode =
      (getCategoryComboMode p (catInfoNode.attr "Combination")).getD m1 := by
    unfold processDefinition
    simp only
    rw [processDefinitionV3_localCategories,
      processDefinitionCategories_combinationMode p defNode catInfoNode _ hinfo, hccm]
    rfl
  constructor
  · intro m2 h2
    rw [h, h2]
    rfl
  · intro h2
    rw [h, h2]
    rfl

/-- Witness of C25: the sample node has `CategoryCheckMode` `Or` and `CategoryInfo` with
`Combination` `And`; the mode afterwards is the latter. -/
theorem processDefinition_combination_precedence_witness :
    (processDefinition sampleOlderParsers sampleBothModesNode sampleDefinition
      []).1.localCategories.combinationMode = CombinationMode.All :=
  (processDefinition_combination_precedence sampleOlderParsers sampleBothModesNode
    (XmlNode.mk "CategoryInfo" [("Combination", "And")] "" []) sampleDefinition []
    CombinationMode.Any rfl rfl).1 CombinationMode.All rfl

theorem child_of_children_eq (a b : XmlNode) (h : a.children = b.children) (key : String) :
    a.child key = b.child key := by
  unfold XmlNode.child
  rw [h]

/-- What one value does depends on the `Val` element only through its children and its
`Role` attribute. -/
theorem processReferenceVal_congr (ctx : ResourceContext) (val1 val2 : XmlNode) (i : Int)
    (s : RefState) (hch : val2.children = val1.children)
    (hrole : val2.attr "Role" = val1.attr "Role") :
    processReferenceVal ctx val2 i s = processReferenceVal ctx val1 i s := by
  have hc := child_of_children_eq val2 val1 hch
  unfold processReferenceVal valKey valSurrogate valRow valKey
  simp only [hc, hrole]

/-- C27. The two encodings of a single reference value are equivalent. For an item that
is not extensible and has exactly one required value and one value, `processReferenceItem`
on a node with a direct `Val` child and no `Values` element returns, and returns the same
item, link table, logger and calls as on a node whose `Values` element holds that `Val`
(the same children and `Role`) carrying `Ith` 0. -/
theorem processReferenceItem_single_value_forms (ctx : ResourceContext)
    (node1 node2 valsNode val1 val2 : XmlNode) (s : RefState)
    (hreq : s.item.numberOfRequiredValues = 1) (hext : s.item.isExtensible = false)
    (hone : s.item.numberOfValues = 1)
    (h1a : node1.child "Values" = none) (h1b : node1.child "Val" = some val1)
    (h2a : node2.child "Values" = some valsNode)
    (h2b : valsNode.childrenNamed "Val" = [val2])
    (hith : val2.attr "Ith" = some "0")
    (hrole : val2.attr "Role" = val1.attr "Role")
    (hch : val2.children = val1.children) :
    processReferenceItem ctx node1 s = processReferenceItem ctx node2 s ∧
    ∃ s2, processReferenceItem ctx node1 s = some s2 := by
  have hcount : ∀ node, referenceItemCount node s = Sum.inr (1, s) := by
    intro node
    unfold referenceItemCount
    simp only [hreq, hext, Nat.one_ne_zero, decide_False, Bool.or_self, Bool.false_eq_true,
      if_false, hone]
  have h1 : processReferenceItem ctx node1 s = processReferenceVal ctx val1 0 s := by
    unfold processReferenceItem
    simp only [hcount node1, Nat.one_ne_zero, if_false, h1a, hreq, if_true, h1b]
  have h2 : processReferenceItem ctx node2 s = processReferenceVal ctx val1 0 s := by
    unfold processReferenceItem
    simp only [hcount node2, Nat.one_ne_zero, if_false, h2a, h2b, processValues,
      processValuesVal, hith]
    have h0 : textAsUInt "0" = 0 := by decide
    have hcast : static_cast_int 0 = 0 := by decide
    rw [h0, if_neg (by omega), hcast, processReferenceVal_congr ctx val1 val2 0 s hch hrole]
    cases processReferenceVal ctx val1 0 s <;> rfl
  refine ⟨by rw [h1, h2], ?_⟩
  rw [h1]
  obtain ⟨s2, hs2, _⟩ := processReferenceVal_spec ctx val1 0 s
  exact ⟨s2, hs2⟩

/-- Witness of C27: the sample value, given directly and under `Values`. -/
theorem processReferenceItem_single_value_forms_witness :
    processReferenceItem sampleContext sampleDirectValNode ⟨sampleSingleItem, ⟨[]⟩, [], []⟩ =
      processReferenceItem sampleContext sampleValuesValNode
        ⟨sampleSingleItem, ⟨[]⟩, [], []⟩ :=
  (processReferenceItem_single_value_forms sampleContext sampleDirectValNode
    sampleValuesValNode
    (XmlNode.mk "Values" [] ""
      [XmlNode.mk "Val" [("Ith", "0"), ("Role", "3")] "" sampleSingleValChildren])
    (XmlNode.mk "Val" [("Role", "3")] "" sampleSingleValChildren)
    (XmlNode.mk "Val" [("Ith", "0"), ("Role", "3")] "" sampleSingleValChildren)
    ⟨sampleSingleItem, ⟨[]⟩, [], []⟩ rfl rfl rfl rfl rfl rfl rfl rfl rfl rfl).1

/-! ## Termination of the configuration helpers -/

theorem nodeDepth_pos (node : XmlNode) : 0 < nodeDepth node := by
  cases node
  simp [nodeDepth]

theorem analysisLoop_exclusive (attName : String) (fuel : Nat)
    (hE : ∀ node, nodeDepth node ≤ fuel → ∀ (item : StringItem) (l : Logger),
      setExclusiveAnalysisConfigurationFuel attName fuel item node l =
        some (setExclusiveAnalysisConfiguration attName item node l))
    (cs : List XmlNode) :
    nodesDepth cs ≤ fuel → ∀ (item : StringItem) (l : Logger),
      analysisLoop (setExclusiveAnalysisConfigurationFuel attName fuel) item cs l =
        some (exclusiveChildren attName item cs l) := by
  induction cs with
  | nil => intro _ item l; rfl
  | cons c rest ih =>
    intro hd item l
    simp only [nodesDepth] at hd
    have hc : nodeDepth c ≤ fuel := le_trans (le_max_left _ _) hd
    have hr : nodesDepth rest ≤ fuel := le_trans (le_max_right _ _) hd
    simp only [analysisLoop, exclusiveChildren]
    by_cases hname : c.name = "Analysis"
    · rw [if_pos hname, if_pos hname, hE c hc]
      simp only
      cases (setExclusiveAnalysisConfiguration attName item c l).1 with
      | false => simp
      | true => simp only [if_true]; exact ih hr _ _
    · rw [if_neg hname, if_neg hname]
      exact ih hr item l

theorem analysisLoop_helper (attName : String) (fuel : Nat)
    (hH : ∀ node, nodeDepth node ≤ fuel →
      ∀ (containerName : String) (items : List Item) (l : Logger),
      setAnalysisConfigurationHelperFuel attName fuel containerName items node l =
        some (setAnalysisConfigurationHelper attName containerName items node l))
    (containerName : String) (cs : List XmlNode) :
    nodesDepth cs ≤ fuel → ∀ (items : List Item) (l : Logger),
      analysisLoop (setAnalysisConfigurationHelperFuel attName fuel containerName) items cs l =
        some (helperChildren attName containerName items cs l) := by
  induction cs with
  | nil => intro _ items l; rfl
  | cons c rest ih =>
    intro hd items l
    simp only [nodesDepth] at hd
    have hc : nodeDepth c ≤ fuel := le_trans (le_max_left _ _) hd
    have hr : nodesDepth rest ≤ fuel := le_trans (le_max_right _ _) hd
    simp only [analysisLoop, helperChildren]
    by_cases hname : c.name = "Analysis"
    · rw [if_pos hname, if_pos hname, hH c hc]
      simp only
      cases (setAnalysisConfigurationHelper attName containerName items c l).1 with
      | false => simp
      | true => simp only [if_true]; exact ih hr _ _
    · rw [if_neg hname, if_neg hname]
      exact ih hr items l

/-- With fuel at least the depth of the node, the helpers bounded in depth return what
the helpers return. -/
theorem analysisHelpers_fuel_aux (attName : String) (fuel : Nat) :
    (∀ node, nodeDepth node ≤ fuel → ∀ (item : StringItem) (l : Logger),
      setExclusiveAnalysisConfigurationFuel attName fuel item node l =
        some (setExclusiveAnalysisConfiguration attName item node l)) ∧
    (∀ node, nodeDepth node ≤ fuel →
      ∀ (containerName : String) (items : List Item) (l : Logger),
      setAnalysisConfigurationHelperFuel attName fuel containerName items node l =
        some (setAnalysisConfigurationHelper attName containerName items node l)) := by
  induction fuel with
  | zero =>
    constructor
    · intro node h; have := nodeDepth_pos node; omega
    · intro node h; have := nodeDepth_pos node; omega
  | succ fuel ih =>
    obtain ⟨ihE, ihH⟩ := ih
    have loopE := analysisLoop_exclusive attName fuel ihE
    have loopH := analysisLoop_helper attName fuel ihH
    constructor
    · intro node hd item l
      obtain ⟨nodeName, attrs, text, children⟩ := node
      have hch : nodesDepth children ≤ fuel := by
        simp only [nodeDepth] at hd; omega
      simp only [setExclusiveAnalysisConfigurationFuel, setExclusiveAnalysisConfiguration,
        XmlNode.children]
      cases (XmlNode.mk nodeName attrs text children).attr "Type" with
      | none => rfl
      | some type =>
        simp only
        cases (item.setValue type).1 with
        | false => rfl
        | true =>
          simp only [Bool.not_true, Bool.false_eq_true, if_false]
          split_ifs
          · cases (item.setValue type).2.activeChildItem0.bind Item.asStringItem with
            | some si =>
              simp only
              rw [loopE children hch]
            | none =>
              simp only
              cases (item.setValue type).2.activeChildItem0.bind Item.asGroupItem with
              | none => rfl
              | some gi =>
                simp only
                rw [loopH gi.name children hch]
          all_goals rfl
    · intro node hd containerName items l
      obtain ⟨nodeName, attrs, text, children⟩ := node
      have hch : nodesDepth children ≤ fuel := by
        simp only [nodeDepth] at hd; omega
      simp only [setAnalysisConfigurationHelperFuel, setAnalysisConfigurationHelper,
        XmlNode.children]
      cases (XmlNode.mk nodeName attrs text children).attr "Type" with
      | none => rfl
      | some type =>
        simp only
        cases findItem items type with
        | none => rfl
        | some found =>
          obtain ⟨idx, it⟩ := found
          simp only
          cases it.setIsEnabled true with
          | void n e => rfl
          | other n e => rfl
          | string n e v c =>
            simp only
            split_ifs
            · rfl
            · rw [loopE children hch]
          | group n e i =>
            simp only
            rw [loopH n children hch]

/-- C26. The mutually recursive helpers terminate on every finite `Analysis` tree, with a
depth of recursion bounded by the depth of the tree: run with a bound `fuel` on the depth
of recursion, each helper returns, for every node whose depth is at most `fuel` and
whatever the items are, the result of the helper; in particular the depth of the node
itself is fuel enough. -/
theorem analysisHelpers_terminate (attName : String) (node : XmlNode) :
    (∀ (fuel : Nat), nodeDepth node ≤ fuel → ∀ (item : StringItem) (l : Logger),
      setExclusiveAnalysisConfigurationFuel attName fuel item node l =
        some (setExclusiveAnalysisConfiguration attName item node l)) ∧
    (∀ (fuel : Nat), nodeDepth node ≤ fuel →
      ∀ (containerName : String) (items : List Item) (l : Logger),
      setAnalysisConfigurationHelperFuel attName fuel containerName items node l =
        some (setAnalysisConfigurationHelper attName containerName items node l)) ∧
    (∀ (item : StringItem) (l : Logger),
      (setExclusiveAnalysisConfigurationFuel attName (nodeDepth node) item node l).isSome =
        true) ∧
    (∀ (containerName : String) (items : List Item) (l : Logger),
      (setAnalysisConfigurationHelperFuel attName (nodeDepth node) containerName items node
        l).isSome = true) := by
  refine ⟨fun fuel h => (analysisHelpers_fuel_aux attName fuel).1 node h,
    fun fuel h => (analysisHelpers_fuel_aux attName fuel).2 node h, ?_, ?_⟩
  · intro item l
    rw [(analysisHelpers_fuel_aux attName (nodeDepth node)).1 node (Nat.le_refl _)]
    rfl
  · intro containerName items l
    rw [(analysisHelpers_fuel_aux attName (nodeDepth node)).2 node (Nat.le_refl _)]
    rfl

/-- The bound of C26 is met on a sample: the `Flow` analysis with its child `Laminar` has
depth 2, and fuel 2 gives the result while fuel 1 does not. -/
theorem analysisHelpers_fuel_sample :
    nodeDepth (analysisNode "Flow" [analysisNode "Laminar" []]) = 2 ∧
    (setExclusiveAnalysisConfigurationFuel "c3" 2 sampleAnalysisItem
      (analysisNode "Flow" [analysisNode "Laminar" []]) []).map (fun r => r.1) = some true ∧
    (setExclusiveAnalysisConfigurationFuel "c3" 1 sampleAnalysisItem
      (analysisNode "Flow" [analysisNode "Laminar" []]) []).isNone = true := by
  decide

/-! ## Keys of the association surrogates -/

theorem insert_entries_mem (t : LinkTable) (sur : Surrogate) (id left right : UUID)
    (role : Option Int) (e : LinkEntry) (h : e ∈ (t.insert sur id left right role).entries) :
    e ∈ t.entries ∨ e = ⟨sur, id, left, right, role, []⟩ := by
  unfold LinkTable.insert at h
  split_ifs at h
  · exact Or.inl h
  · simpa using h

theorem associations_loop_links (env : ParserEnvironment) (children : List XmlNode)
    (s : ParserState) :
    (children.foldl (fun st child => processAssociation env child st) s).randomDrawn =
      s.randomDrawn + children.length ∧
    (children.foldl (fun st child => processAssociation env child st) s).resourceId =
      s.resourceId ∧
    ∀ e ∈ (children.foldl (fun st child => processAssociation env child st) s).links.entries,
      e ∈ s.links.entries ∨
      ∃ (i : Nat) (child : XmlNode), children[i]? = some child ∧
        e = ⟨associationSurrogate child, env.randomUUID (s.randomDrawn + i), s.resourceId,
          (associationSurrogate child).id, some env.associationRole, []⟩ := by
  induction children generalizing s with
  | nil => exact ⟨rfl, rfl, fun e he => Or.inl he⟩
  | cons c cs ih =>
    rw [List.foldl_cons]
    obtain ⟨h1, h2, h3⟩ := ih (processAssociation env c s)
    have hd : (processAssociation env c s).randomDrawn = s.randomDrawn + 1 := rfl
    have hr : (processAssociation env c s).resourceId = s.resourceId := rfl
    have hl : (processAssociation env c s).links =
        s.links.insert (associationSurrogate c) (env.randomUUID s.randomDrawn) s.resourceId
          (associationSurrogate c).id (some env.associationRole) := rfl
    refine ⟨?_, ?_, ?_⟩
    · rw [h1, hd, List.length_cons]; omega
    · rw [h2, hr]
    · intro e he
      rcases h3 e he with h | ⟨i, child, hi, heq⟩
      · rw [hl] at h
        rcases insert_entries_mem _ _ _ _ _ _ e h with h | h
        · exact Or.inl h
        · exact Or.inr ⟨0, c, by simp, by rw [h]; rfl⟩
      · refine Or.inr ⟨i + 1, child, by simpa using hi, ?_⟩
        rw [heq, hd, hr]
        have : s.randomDrawn + 1 + i = s.randomDrawn + (i + 1) := by omega
        rw [this]

theorem associationsStep_links (env : ParserEnvironment) (rootNode : XmlNode)
    (s : ParserState) :
    (associationsStep env rootNode s).randomDrawn =
      s.randomDrawn + (associationChildren rootNode).length ∧
    ∀ e ∈ (associationsStep env rootNode s).links.entries,
      e ∈ s.links.entries ∨
      ∃ (i : Nat) (child : XmlNode), (associationChildren rootNode)[i]? = some child ∧
        e = ⟨associationSurrogate child, env.randomUUID (s.randomDrawn + i), s.resourceId,
          (associationSurrogate child).id, some env.associationRole, []⟩ := by
  unfold associationsStep associationChildren
  cases rootNode.child "Associations" with
  | none => exact ⟨rfl, fun e he => Or.inl he⟩
  | some node =>
    obtain ⟨h1, _, h3⟩ := associations_loop_links env node.children s
    exact ⟨h1, h3⟩

theorem configurationsStep_frame (rootNode : XmlNode) (s s2 : ParserState)
    (h : configurationsStep rootNode s = some s2) :
    s2.links = s.links ∧ s2.randomDrawn = s.randomDrawn ∧ s2.resourceId = s.resourceId := by
  unfold configurationsStep at h
  cases hc : rootNode.child "Configurations" with
  | none =>
    rw [hc] at h
    injection h with h
    rw [← h]
    exact ⟨rfl, rfl, rfl⟩
  | some node =>
    rw [hc] at h
    simp only at h
    cases hp : processConfigurations node
        (s.called (ParserCall.processConfigurations node)).resource
        (s.called (ParserCall.processConfigurations node)).logger with
    | none => rw [hp] at h; cases h
    | some r =>
      rw [hp] at h
      injection h with h
      rw [← h]
      exact ⟨rfl, rfl, rfl⟩

theorem uniqueRoles_loop_frame (children : List XmlNode) (s : ParserState) :
    (children.foldl (fun st cnode =>
        if cnode.name ≠ "Role" then st
        else
          match cnode.attr "ID" with
          | none => st
          | some v => st.addUniqueRole (textAsInt v)) s).links = s.links ∧
    (children.foldl (fun st cnode =>
        if cnode.name ≠ "Role" then st
        else
          match cnode.attr "ID" with
          | none => st
          | some v => st.addUniqueRole (textAsInt v)) s).randomDrawn = s.randomDrawn ∧
    (children.foldl (fun st cnode =>
        if cnode.name ≠ "Role" then st
        else
          match cnode.attr "ID" with
          | none => st
          | some v => st.addUniqueRole (textAsInt v)) s).resourceId = s.resourceId := by
  induction children generalizing s with
  | nil => exact ⟨rfl, rfl, rfl⟩
  | cons c cs ih =>
    rw [List.foldl_cons]
    by_cases hn : c.name ≠ "Role"
    · simp only [if_pos hn]
      exact ih s
    · simp only [if_neg hn]
      cases c.attr "ID" with
      | none => exact ih s
      | some v =>
        obtain ⟨h1, h2, h3⟩ := ih (s.addUniqueRole (textAsInt v))
        exact ⟨h1, h2, h3⟩

theorem getUniqueRoles_frame (rootNode : XmlNode) (s : ParserState) :
    (getUniqueRoles rootNode s).links = s.links ∧
    (getUniqueRoles rootNode s).randomDrawn = s.randomDrawn ∧
    (getUniqueRoles rootNode s).resourceId = s.resourceId := by
  unfold getUniqueRoles
  cases rootNode.child "UniqueRoles" with
  | none => exact ⟨rfl, rfl, rfl⟩
  | some node => exact uniqueRoles_loop_frame node.children s

theorem processV3_same_draws (env env2 : ParserEnvironment) (root : XmlNode)
    (h2 : env2.associationRole = env.associationRole)
    (h3 : env2.randomUUID = env.randomUUID) (s1 : ParserState) :
    processV3 env2 root s1 = processV3 env root s1 := by
  have hfun : (fun st child => processAssociation env2 child st) =
      (fun st child => processAssociation env child st) := by
    funext st child
    unfold processAssociation
    rw [h2, h3]
  unfold processV3 associationsStep
  rw [hfun]

/-- C24, counterexample. The result of `process(rootNode)` is not a function of the
document and the initial resource alone: on the sample root element and the sample
resource, two runs that differ only in the random UUIDs drawn register the child of
`Associations` under the keys `u` and `v`, so that the link tables differ. -/
theorem process_keys_differ_between_runs :
    (process sampleEnvironment sampleRootNode sampleParserState).map
        (fun s => s.links.entries.map LinkEntry.id) = some ["u"] ∧
    (process sampleEnvironment2 sampleRootNode sampleParserState).map
        (fun s => s.links.entries.map LinkEntry.id) = some ["v"] ∧
    (process sampleEnvironment sampleRootNode sampleParserState).map (fun s => s.links) ≠
      (process sampleEnvironment2 sampleRootNode sampleParserState).map (fun s => s.links) := by
  decide

theorem insert_entries_prefix (t : LinkTable) (sur : Surrogate) (id left right : UUID)
    (role : Option Int) :
    ∃ added, (t.insert sur id left right role).entries = t.entries ++ added := by
  unfold LinkTable.insert
  split_ifs
  · exact ⟨[], by simp⟩
  · exact ⟨_, rfl⟩

theorem insert_contains_mono (t : LinkTable) (sur : Surrogate) (id left right x : UUID)
    (role : Option Int) (h : t.contains x = true) :
    (t.insert sur id left right role).contains x = true ∧
    (t.insert sur id left right role).entry x = t.entry x := by
  by_cases hx : x = id
  · subst hx
    unfold LinkTable.insert
    rw [if_pos h]
    exact ⟨h, rfl⟩
  · rw [LinkTable.contains_insert_of_ne _ _ _ _ _ _ _ hx,
      LinkTable.entry_insert_of_ne _ _ _ _ _ _ _ hx]
    exact ⟨h, rfl⟩

theorem processAssociation_links (env : ParserEnvironment) (c : XmlNode) (s : ParserState) :
    (processAssociation env c s).links =
      s.links.insert (associationSurrogate c) (env.randomUUID s.randomDrawn) s.resourceId
        (associationSurrogate c).id (some env.associationRole) := rfl

/-- The loop over the children of `Associations` only adds entries, and keeps the entry
of every key that is registered. -/
theorem associations_loop_mono (env : ParserEnvironment) (children : List XmlNode)
    (s : ParserState) :
    (∃ added,
      (children.foldl (fun st child => processAssociation env child st) s).links.entries =
        s.links.entries ++ added) ∧
    ∀ x, s.links.contains x = true →
      (children.foldl (fun st child => processAssociation env child st) s).links.contains x
        = true ∧
      (children.foldl (fun st child => processAssociation env child st) s).links.entry x =
        s.links.entry x := by
  induction children generalizing s with
  | nil => exact ⟨⟨[], by simp⟩, fun x hx => ⟨hx, rfl⟩⟩
  | cons c cs ih =>
    rw [List.foldl_cons]
    obtain ⟨⟨added, hadd⟩, hmono⟩ := ih (processAssociation env c s)
    obtain ⟨a0, ha0⟩ := insert_entries_prefix s.links (associationSurrogate c)
      (env.randomUUID s.randomDrawn) s.resourceId (associationSurrogate c).id
      (some env.associationRole)
    refine ⟨⟨a0 ++ added, ?_⟩, ?_⟩
    · rw [hadd, processAssociation_links, ha0, List.append_assoc]
    · intro x hx
      obtain ⟨h1, h2⟩ := insert_contains_mono s.links (associationSurrogate c)
        (env.randomUUID s.randomDrawn) s.resourceId (associationSurrogate c).id x
        (some env.associationRole) hx
      rw [← processAssociation_links] at h1 h2
      obtain ⟨h3, h4⟩ := hmono x h1
      exact ⟨h3, by rw [h4, h2]⟩

/-- In the loop over the children of `Associations` the draw of each child is a key of
the table afterwards, and a child whose draw is neither a key of the table before the
loop nor the draw of a child before it is registered under its draw. -/
theorem associations_loop_registered (env : ParserEnvironment) (children : List XmlNode)
    (s : ParserState) (i : Nat) (child : XmlNode) (hi : children[i]? = some child) :
    (children.foldl (fun st child => processAssociation env child st) s).links.contains
      (env.randomUUID (s.randomDrawn + i)) = true ∧
    (s.links.contains (env.randomUUID (s.randomDrawn + i)) = false →
      (∀ j, j < i → env.randomUUID (s.randomDrawn + j) ≠ env.randomUUID (s.randomDrawn + i)) →
      (children.foldl (fun st child => processAssociation env child st) s).links.entry
          (env.randomUUID (s.randomDrawn + i)) =
        some ⟨associationSurrogate child, env.randomUUID (s.randomDrawn + i), s.resourceId,
          (associationSurrogate child).id, some env.associationRole, []⟩) := by
  induction children generalizing s i with
  | nil => simp at hi
  | cons c cs ih =>
    rw [List.foldl_cons]
    have hd : (processAssociation env c s).randomDrawn = s.randomDrawn + 1 := rfl
    have hr : (processAssociation env c s).resourceId = s.resourceId := rfl
    cases i with
    | zero =>
      simp only [List.getElem?_cons_zero, Option.some.injEq] at hi
      subst hi
      have hin : (processAssociation env c s).links.contains
          (env.randomUUID (s.randomDrawn + 0)) = true := by
        rw [processAssociation_links]
        exact LinkTable.contains_insert_self _ _ _ _ _ _
      obtain ⟨_, hmono⟩ := associations_loop_mono env cs (processAssociation env c s)
      obtain ⟨h1, h2⟩ := hmono _ hin
      refine ⟨h1, ?_⟩
      intro hnot _
      rw [h2, processAssociation_links]
      exact LinkTable.entry_insert_self _ _ _ _ _ _ hnot
    | succ k =>
      simp only [List.getElem?_cons_succ] at hi
      have hidx : (processAssociation env c s).randomDrawn + k = s.randomDrawn + (k + 1) := by
        rw [hd]; omega
      obtain ⟨h1, h2⟩ := ih (processAssociation env c s) k hi
      rw [hidx] at h1 h2
      refine ⟨h1, ?_⟩
      intro hnot hfresh
      rw [hr] at h2
      apply h2
      · rw [processAssociation_links, LinkTable.contains_insert_of_ne]
        · exact hnot
        · have := hfresh 0 (by omega)
          exact fun e => this (by rw [Nat.add_zero]; exact e.symm)
      · intro j hj
        have := hfresh (j + 1) (by omega)
        rw [hd]
        have e1 : s.randomDrawn + 1 + j = s.randomDrawn + (j + 1) := by omega
        rw [e1]
        exact this

theorem associationsStep_registered (env : ParserEnvironment) (rootNode : XmlNode)
    (s : ParserState) :
    (∃ added, (associationsStep env rootNode s).links.entries = s.links.entries ++ added) ∧
    ∀ (i : Nat) (child : XmlNode), (associationChildren rootNode)[i]? = some child →
      (associationsStep env rootNode s).links.contains
        (env.randomUUID (s.randomDrawn + i)) = true ∧
      (s.links.contains (env.randomUUID (s.randomDrawn + i)) = false →
        (∀ j, j < i →
          env.randomUUID (s.randomDrawn + j) ≠ env.randomUUID (s.randomDrawn + i)) →
        (associationsStep env rootNode s).links.entry (env.randomUUID (s.randomDrawn + i)) =
          some ⟨associationSurrogate child, env.randomUUID (s.randomDrawn + i), s.resourceId,
            (associationSurrogate child).id, some env.associationRole, []⟩) := by
  unfold associationsStep associationChildren
  cases rootNode.child "Associations" with
  | none => exact ⟨⟨[], by simp⟩, fun i child hi => by simp at hi⟩
  | some node =>
    exact ⟨(associations_loop_mono env node.children s).1,
      fun i child hi => associations_loop_registered env node.children s i child hi⟩

/-- C24 as amended. The result of `process(rootNode)` is a function of the document, the
initial resource and the random UUIDs drawn: two runs with the same V2 parser, the same
association role and the same draws give equal results. Each child of `Associations`
draws one UUID, and when `process` returns: the link table holds the entries it held
after the V2 part, followed by new ones; every entry is one of those or the entry of a
child of `Associations` under the UUID drawn for it; the UUID drawn for each child is a
key of the table; and a child whose draw is neither a key of the table after the V2 part
nor the draw of a child before it is registered under its draw, with the surrogate read
from the child (`Index`, `TypeName`, `Id`, `Location`), the resource as left end, the
`Id` of the child as right end and the association role. So the key of a child is the
same in two runs when the draws are, and not otherwise. -/
theorem process_registers_under_drawn_uuids (env : ParserEnvironment) (root : XmlNode)
    (s : ParserState) :
    (∀ env2 : ParserEnvironment, env2.processV2 = env.processV2 →
      env2.associationRole = env.associationRole → env2.randomUUID = env.randomUUID →
      process env2 root s = process env root s) ∧
    ∀ s2, process env root s = some s2 →
      s2.randomDrawn =
        (env.processV2 root s).randomDrawn + (associationChildren root).length ∧
      (∃ added, s2.links.entries = (env.processV2 root s).links.entries ++ added) ∧
      (∀ e ∈ s2.links.entries,
        e ∈ (env.processV2 root s).links.entries ∨
        ∃ (i : Nat) (child : XmlNode), (associationChildren root)[i]? = some child ∧
          e = ⟨associationSurrogate child,
            env.randomUUID ((env.processV2 root s).randomDrawn + i),
            (env.processV2 root s).resourceId, (associationSurrogate child).id,
            some env.associationRole, []⟩) ∧
      ∀ (i : Nat) (child : XmlNode), (associationChildren root)[i]? = some child →
        s2.links.contains (env.randomUUID ((env.processV2 root s).randomDrawn + i)) = true ∧
        ((env.processV2 root s).links.contains
            (env.randomUUID ((env.processV2 root s).randomDrawn + i)) = false →
          (∀ j, j < i → env.randomUUID ((env.processV2 root s).randomDrawn + j) ≠
            env.randomUUID ((env.processV2 root s).randomDrawn + i)) →
          s2.links.entry (env.randomUUID ((env.processV2 root s).randomDrawn + i)) =
            some ⟨associationSurrogate child,
              env.randomUUID ((env.processV2 root s).randomDrawn + i),
              (env.processV2 root s).resourceId, (associationSurrogate child).id,
              some env.associationRole, []⟩) := by
  constructor
  · intro env2 h1 h2 h3
    unfold process
    rw [h1]
    exact processV3_same_draws env env2 root h2 h3 _
  · intro s2 hs2
    unfold process processV3 at hs2
    cases hc : configurationsStep root (env.processV2 root s) with
    | none => rw [hc] at hs2; cases hs2
    | some s1 =>
      rw [hc] at hs2
      injection hs2 with hs2
      obtain ⟨c1, c2, c3⟩ := configurationsStep_frame root _ s1 hc
      obtain ⟨g1, g2, g3⟩ := getUniqueRoles_frame root s1
      obtain ⟨a1, a2⟩ := associationsStep_links env root (getUniqueRoles root s1)
      obtain ⟨b1, b2⟩ := associationsStep_registered env root (getUniqueRoles root s1)
      rw [← hs2]
      rw [g2, c2] at a1
      rw [g1, c1] at b1
      refine ⟨a1, b1, ?_, ?_⟩
      · intro e he
        have := a2 e he
        rw [g1, g2, g3, c1, c2, c3] at this
        exact this
      · intro i child hi
        have := b2 i child hi
        rw [g1, g2, g3, c1, c2, c3] at this
        exact this

/-- Witness of the amended C24: on the root element with two associations the draws are
`u` and `u+`; the second child is registered under `u+` with its own surrogate. -/
theorem process_registers_under_drawn_uuids_witness :
    ∃ s2, process sampleEnvironment sampleTwoAssociationsNode sampleParserState = some s2 ∧
      s2.links.entry "u+" =
        some ⟨⟨1, "smtk::mesh::Resource", "R2", "b.smtk"⟩, "u+", "res-1", "R2", some 1, []⟩ :=
  ⟨_, rfl,
    ((process_registers_under_drawn_uuids sampleEnvironment sampleTwoAssociationsNode
      sampleParserState).2 _ rfl).2.2.2 1
      (XmlNode.mk "Resource"
         [("Index", "1"), ("TypeName", "smtk::mesh::Resource"), ("Id", "R2"),
          ("Location", "b.smtk")] "" [])
      rfl |>.2 (by decide) (by decide)⟩

/-- When a draw repeats a key, `insert` keeps the entry that is registered: with the same
UUID drawn twice, the two children of the sample leave one entry, that of the first. -/
theorem process_repeated_draw_sample :
    (process { sampleEnvironment with randomUUID := fun _ => "u" } sampleTwoAssociationsNode
        sampleParserState).map (fun s => (s.randomDrawn, s.links.entries)) =
      some (2, [⟨⟨0, "smtk::model::Resource", "R1", "a.smtk"⟩, "u", "res-1", "R1", some 1,
        []⟩]) := by
  decide

/-- Witness of C26: the `Flow` analysis with its child `Laminar`, of depth 2, run with
fuel 2. -/
theorem analysisHelpers_terminate_witness :
    setExclusiveAnalysisConfigurationFuel "c3" 2 sampleAnalysisItem
        (analysisNode "Flow" [analysisNode "Laminar" []]) [] =
      some (setExclusiveAnalysisConfiguration "c3" sampleAnalysisItem
        (analysisNode "Flow" [analysisNode "Laminar" []]) []) :=
  (analysisHelpers_terminate "c3" (analysisNode "Flow" [analysisNode "Laminar" []])).1 2
    (by decide) sampleAnalysisItem []

/-! ## Order of the calls -/

theorem configurationsStep_calls (rootNode : XmlNode) (s s2 : ParserState)
    (h : configurationsStep rootNode s = some s2) :
    s2.parserCalls = s.parserCalls ++ configurationCalls rootNode := by
  unfold configurationsStep at h
  unfold configurationCalls
  cases hc : rootNode.child "Configurations" with
  | none =>
    rw [hc] at h
    injection h with h
    rw [← h]
    simp
  | some node =>
    rw [hc] at h
    simp only at h
    cases hp : processConfigurations node
        (s.called (ParserCall.processConfigurations node)).resource
        (s.called (ParserCall.processConfigurations node)).logger with
    | none => rw [hp] at h; cases h
    | some r =>
      rw [hp] at h
      injection h with h
      rw [← h]
      rfl

theorem uniqueRoles_loop_calls (children : List XmlNode) (s : ParserState) :
    (children.foldl (fun st cnode =>
        if cnode.name ≠ "Role" then st
        else
          match cnode.attr "ID" with
          | none => st
          | some v => st.addUniqueRole (textAsInt v)) s).parserCalls =
      s.parserCalls ++
        (children.filterMap (fun c =>
          if c.name ≠ "Role" then none else (c.attr "ID").map textAsInt)).map
          ParserCall.addUniqueRole := by
  induction children generalizing s with
  | nil => simp
  | cons c cs ih =>
    rw [List.foldl_cons, ih, List.filterMap_cons]
    by_cases hn : c.name ≠ "Role"
    · simp only [if_pos hn]
    · simp only [if_neg hn]
      cases c.attr "ID" with
      | none => simp
      | some v =>
        simp only [Option.map_some', List.map_cons, ParserState.addUniqueRole,
          List.append_assoc, List.singleton_append]

theorem getUniqueRoles_calls (rootNode : XmlNode) (s : ParserState) :
    (getUniqueRoles rootNode s).parserCalls =
      s.parserCalls ++ (documentRoles rootNode).map ParserCall.addUniqueRole := by
  unfold getUniqueRoles documentRoles
  cases rootNode.child "UniqueRoles" with
  | none => simp
  | some node => exact uniqueRoles_loop_calls node.children s

theorem associations_loop_calls (env : ParserEnvironment) (children : List XmlNode)
    (s : ParserState) :
    (children.foldl (fun st child => processAssociation env child st) s).parserCalls =
      s.parserCalls ++ associationCallsFrom env s.resourceId s.randomDrawn children := by
  induction children generalizing s with
  | nil => simp [associationCallsFrom]
  | cons c cs ih =>
    rw [List.foldl_cons, ih]
    have hd : (processAssociation env c s).randomDrawn = s.randomDrawn + 1 := rfl
    have hr : (processAssociation env c s).resourceId = s.resourceId := rfl
    have hp : (processAssociation env c s).parserCalls = s.parserCalls ++
        [ParserCall.linksInsert (associationSurrogate c) (env.randomUUID s.randomDrawn)
          s.resourceId (associationSurrogate c).id env.associationRole] := rfl
    rw [hd, hr, hp]
    simp only [associationCallsFrom, List.append_assoc, List.singleton_append]

theorem associationsStep_calls (env : ParserEnvironment) (rootNode : XmlNode)
    (s : ParserState) :
    (associationsStep env rootNode s).parserCalls =
      s.parserCalls ++
        associationCallsFrom env s.resourceId s.randomDrawn (associationChildren rootNode) := by
  unfold associationsStep associationChildren
  cases rootNode.child "Associations" with
  | none => simp [associationCallsFrom]
  | some node => exact associations_loop_calls env node.children s

theorem addExclusion_loop_calls (pairs : List (Definition × Definition)) (s : ParserState) :
    (pairs.foldl (fun st pr => st.addExclusion pr.1.type pr.2.type) s).parserCalls =
      s.parserCalls := by
  induction pairs generalizing s with
  | nil => rfl
  | cons pr prs ih => rw [List.foldl_cons, ih]; rfl

theorem addPrerequisite_loop_calls (target : String) (defs : List Definition)
    (s : ParserState) :
    (defs.foldl (fun st d => st.addPrerequisite target d.type) s).parserCalls =
      s.parserCalls := by
  induction defs generalizing s with
  | nil => rfl
  | cons d ds ih => rw [List.foldl_cons, ih]; rfl

/-- The method `processExclusion` makes no call of `ParserCall`, and the calls it makes
on definitions are calls of `addExclusion`, added after those made before. -/
theorem processExclusion_frame (excludeNode : XmlNode) (s : ParserState) :
    (processExclusion excludeNode s).parserCalls = s.parserCalls ∧
    ∃ ex, (processExclusion excludeNode s).definitionCalls = s.definitionCalls ++ ex ∧
      ∀ c ∈ ex, isExclusionCall c = true := by
  unfold processExclusion
  simp only
  split_ifs
  · exact ⟨rfl, [], by simp, by simp⟩
  · refine ⟨by rw [addExclusion_loop_calls], _, (addExclusion_loop _ _).1, ?_⟩
    intro c hc
    obtain ⟨pr, _, hpr⟩ := List.mem_map.mp hc
    rw [← hpr]
    rfl

/-- The method `processPrerequisite` makes no call of `ParserCall`, and the calls it
makes on definitions are calls of `addPrerequisite`, added after those made before. -/
theorem processPrerequisite_frame (prereqNode : XmlNode) (s : ParserState) :
    (processPrerequisite prereqNode s).parserCalls = s.parserCalls ∧
    ∃ pre, (processPrerequisite prereqNode s).definitionCalls = s.definitionCalls ++ pre ∧
      ∀ c ∈ pre, isExclusionCall c = false := by
  unfold processPrerequisite
  cases prereqNode.attr "Type" with
  | none => exact ⟨rfl, [], by simp, by simp⟩
  | some type =>
    simp only
    cases s.resource.findDefinition type with
    | none => exact ⟨rfl, [], by simp, by simp⟩
    | some targetDef =>
      simp only
      split_ifs
      · exact ⟨rfl, [], by simp, by simp⟩
      · refine ⟨by rw [addPrerequisite_loop_calls], _, (addPrerequisite_loop _ _ _).1, ?_⟩
        intro c hc
        obtain ⟨d, _, hd⟩ := List.mem_map.mp hc
        rw [← hd]
        rfl

theorem exclusions_loop_calls (children : List XmlNode) (s : ParserState) :
    (children.foldl (fun st child =>
        processExclusion child (st.called (ParserCall.processExclusion child))) s).parserCalls =
      s.parserCalls ++ children.map ParserCall.processExclusion ∧
    ∃ ex, (children.foldl (fun st child =>
        processExclusion child (st.called (ParserCall.processExclusion child)))
          s).definitionCalls = s.definitionCalls ++ ex ∧
      ∀ c ∈ ex, isExclusionCall c = true := by
  induction children generalizing s with
  | nil => exact ⟨by simp, [], by simp, by simp⟩
  | cons c cs ih =>
    rw [List.foldl_cons]
    obtain ⟨h1, ex2, h2, h3⟩ :=
      ih (processExclusion c (s.called (ParserCall.processExclusion c)))
    obtain ⟨f1, ex1, f2, f3⟩ := processExclusion_frame c (s.called (ParserCall.processExclusion c))
    have hc1 : (s.called (ParserCall.processExclusion c)).parserCalls =
        s.parserCalls ++ [ParserCall.processExclusion c] := rfl
    have hc2 : (s.called (ParserCall.processExclusion c)).definitionCalls =
        s.definitionCalls := rfl
    refine ⟨?_, ex1 ++ ex2, ?_, ?_⟩
    · rw [h1, f1, hc1]
      simp
    · rw [h2, f2, hc2, List.append_assoc]
    · intro x hx
      rcases List.mem_append.mp hx with h | h
      · exact f3 x h
      · exact h3 x h

theorem prerequisites_loop_calls (children : List XmlNode) (s : ParserState) :
    (children.foldl (fun st child =>
        processPrerequisite child (st.called (ParserCall.processPrerequisite child)))
          s).parserCalls =
      s.parserCalls ++ children.map ParserCall.processPrerequisite ∧
    ∃ pre, (children.foldl (fun st child =>
        processPrerequisite child (st.called (ParserCall.processPrerequisite child)))
          s).definitionCalls = s.definitionCalls ++ pre ∧
      ∀ c ∈ pre, isExclusionCall c = false := by
  induction children generalizing s with
  | nil => exact ⟨by simp, [], by simp, by simp⟩
  | cons c cs ih =>
    rw [List.foldl_cons]
    obtain ⟨h1, pre2, h2, h3⟩ :=
      ih (processPrerequisite c (s.called (ParserCall.processPrerequisite c)))
    obtain ⟨f1, pre1, f2, f3⟩ :=
      processPrerequisite_frame c (s.called (ParserCall.processPrerequisite c))
    have hc1 : (s.called (ParserCall.processPrerequisite c)).parserCalls =
        s.parserCalls ++ [ParserCall.processPrerequisite c] := rfl
    have hc2 : (s.called (ParserCall.processPrerequisite c)).definitionCalls =
        s.definitionCalls := rfl
    refine ⟨?_, pre1 ++ pre2, ?_, ?_⟩
    · rw [h1, f1, hc1]
      simp
    · rw [h2, f2, hc2, List.append_assoc]
    · intro x hx
      rcases List.mem_append.mp hx with h | h
      · exact f3 x h
      · exact h3 x h

/-- The calls of `processDefinitionInformationV3`: one call of `processExclusion` for
each child of `Exclusions`, then one call of `processPrerequisite` for each child of
`Prerequisites`; on definitions, calls of `addExclusion`, then calls of
`addPrerequisite`. -/
theorem processDefinitionInformationV3_calls (root : XmlNode) (s : ParserState) :
    (processDefinitionInformationV3 root s).parserCalls =
      s.parserCalls ++ (exclusionNodes root).map ParserCall.processExclusion ++
        (prerequisiteNodes root).map ParserCall.processPrerequisite ∧
    ∃ ex pre, (processDefinitionInformationV3 root s).definitionCalls =
        s.definitionCalls ++ ex ++ pre ∧
      (∀ c ∈ ex, isExclusionCall c = true) ∧ (∀ c ∈ pre, isExclusionCall c = false) := by
  unfold processDefinitionInformationV3 exclusionNodes prerequisiteNodes
  cases root.child "Exclusions" with
  | none =>
    cases root.child "Prerequisites" with
    | none => exact ⟨by simp, [], [], by simp, by simp, by simp⟩
    | some pnode =>
      obtain ⟨h1, pre, h2, h3⟩ := prerequisites_loop_calls pnode.children s
      exact ⟨by simp only [h1, List.map_nil, List.append_nil], [], pre,
        by simp only [h2, List.append_nil], by simp, h3⟩
  | some enode =>
    obtain ⟨e1, ex, e2, e3⟩ := exclusions_loop_calls enode.children s
    cases root.child "Prerequisites" with
    | none =>
      exact ⟨by simp only [e1, List.map_nil, List.append_nil], ex, [],
        by simp only [e2, List.append_nil], e3, by simp⟩
    | some pnode =>
      obtain ⟨h1, pre, h2, h3⟩ := prerequisites_loop_calls pnode.children
        (enode.children.foldl (fun st child =>
          processExclusion child (st.called (ParserCall.processExclusion child))) s)
      exact ⟨by simp only [h1, e1], ex, pre, by simp only [h2, e2], e3, h3⟩

/-- C18. Delegation order. For every V2 parser, each of the three methods is its V3 part
applied to what the V2 method of the same name returns for the same arguments, so the V2
method sees the state before any V3 step. In `process(rootNode)` the calls made after
the V2 part are, in this order whatever the order of the elements in the document: the
call of `processConfigurations` (if the root has `Configurations`), the calls of
`addUniqueRole` for the roles of `UniqueRoles`, and the insertions into the link table
for the children of `Associations`. In `processDefinitionInformation(root)` the calls
made after the V2 part are one call of `processExclusion` for each child of `Exclusions`
followed by one call of `processPrerequisite` for each child of `Prerequisites`, and the
calls made on definitions are calls of `addExclusion` followed by calls of
`addPrerequisite`. In `processDefinition(defNode, def)` a valid `Combination` of
`CategoryInfo` decides the combination mode whatever the V2 method has set. -/
theorem delegation_order (env : ParserEnvironment) (p : OlderParsers) (root defNode : XmlNode)
    (s : ParserState) (d : Definition) (logger : Logger) :
    process env root s = processV3 env root (env.processV2 root s) ∧
    (∀ s2, process env root s = some s2 →
      s2.parserCalls = (env.processV2 root s).parserCalls ++ configurationCalls root ++
        (documentRoles root).map ParserCall.addUniqueRole ++
        associationCallsFrom env (env.processV2 root s).resourceId
          (env.processV2 root s).randomDrawn (associationChildren root)) ∧
    processDefinitionInformation env root s =
      processDefinitionInformationV3 root (env.processDefinitionInformationV2 root s) ∧
    (processDefinitionInformation env root s).parserCalls =
      (env.processDefinitionInformationV2 root s).parserCalls ++
        (exclusionNodes root).map ParserCall.processExclusion ++
        (prerequisiteNodes root).map ParserCall.processPrerequisite ∧
    (∃ ex pre, (processDefinitionInformation env root s).definitionCalls =
        (env.processDefinitionInformationV2 root s).definitionCalls ++ ex ++ pre ∧
      (∀ c ∈ ex, isExclusionCall c = true) ∧ (∀ c ∈ pre, isExclusionCall c = false)) ∧
    processDefinition p defNode d logger =
      processDefinitionV3 p defNode (p.processDefinitionV2 defNode d logger).1
        (p.processDefinitionV2 defNode d logger).2 ∧
    (∀ (catInfoNode : XmlNode) (m : CombinationMode),
      defNode.child "CategoryInfo" = some catInfoNode →
      getCategoryComboMode p (catInfoNode.attr "Combination") = some m →
      (processDefinition p defNode d logger).1.localCategories.combinationMode = m) := by
  refine ⟨rfl, ?_, rfl, ?_, ?_, rfl, ?_⟩
  · intro s2 hs2
    unfold process processV3 at hs2
    cases hc : configurationsStep root (env.processV2 root s) with
    | none => rw [hc] at hs2; cases hs2
    | some s1 =>
      rw [hc] at hs2
      injection hs2 with hs2
      obtain ⟨_, c2, c3⟩ := configurationsStep_frame root _ s1 hc
      obtain ⟨_, g2, g3⟩ := getUniqueRoles_frame root s1
      rw [← hs2, associationsStep_calls, getUniqueRoles_calls,
        configurationsStep_calls root _ s1 hc, g2, g3, c2, c3]
  · exact (processDefinitionInformationV3_calls root _).1
  · exact (processDefinitionInformationV3_calls root _).2
  · intro catInfoNode m hinfo hm
    unfold processDefinition
    simp only
    rw [processDefinitionV3_localCategories,
      processDefinitionCategories_combinationMode p defNode catInfoNode _ hinfo, hm]
    rfl

/-- Witness of C18: the sample root element gives its elements in the order
`Associations`, `UniqueRoles`, `Configurations`; the calls are made in the order of the
code. -/
theorem delegation_order_witness :
    ∃ s2, process sampleEnvironment sampleReversedRootNode sampleExclusiveParserState =
        some s2 ∧
      s2.parserCalls =
        [ParserCall.processConfigurations sampleMismatchNode, ParserCall.addUniqueRole 7,
          ParserCall.linksInsert ⟨0, "smtk::model::Resource", "R1", "a.smtk"⟩ "u" "res-1" "R1"
            1] :=
  ⟨_, rfl,
    ((delegation_order sampleEnvironment sampleOlderParsers sampleReversedRootNode
      sampleBothModesNode sampleExclusiveParserState sampleDefinition []).2.1 _ rfl).trans rfl⟩

/-- The calls of `processDefinitionInformation` on the sample root element, where
`Prerequisites` comes before `Exclusions`: the exclusion is processed first. -/
theorem processDefinitionInformation_sample :
    (processDefinitionInformation sampleEnvironment sampleReversedRootNode
        sampleParserState).parserCalls =
      [ParserCall.processExclusion sampleExclusionNode,
        ParserCall.processPrerequisite samplePrerequisiteNode] ∧
    ((processDefinitionInformation sampleEnvironment sampleReversedRootNode
        sampleParserState).definitionCalls.map isExclusionCall).dropWhile (fun b => b) =
      ((processDefinitionInformation sampleEnvironment sampleReversedRootNode
        sampleParserState).definitionCalls.map isExclusionCall).filter (fun b => !b) ∧
    (processDefinitionInformation sampleEnvironment sampleReversedRootNode
        sampleParserState).definitionCalls.length = 5 := by
  refine ⟨rfl, by decide, by decide⟩

end XmlDocV3Parser

/-! ## The geometry cache -/

namespace vtkResourceMultiBlockSource

theorem find_assign_self (cache : List (UUID × CacheEntry)) (uid : UUID) (entry : CacheEntry) :
    find (assign cache uid entry) uid = some entry := by
  induction cache with
  | nil => simp [assign, find]
  | cons p rest ih =>
    unfold assign
    by_cases h : p.1 = uid
    · rw [if_pos h]
      simp [find]
    · rw [if_neg h]
      unfold find at ih ⊢
      rw [List.find?_cons_of_neg _ (by simpa using h)]
      exact ih

theorem find_assign_other (cache : List (UUID × CacheEntry)) (uid other : UUID)
    (entry : CacheEntry) (h : other ≠ uid) :
    find (assign cache uid entry) other = find cache other := by
  induction cache with
  | nil =>
    have : ¬ uid = other := fun e => h e.symm
    simp [assign, find, this]
  | cons p rest ih =>
    unfold assign
    by_cases hp : p.1 = uid
    · rw [if_pos hp]
      have h1 : ¬ uid = other := fun e => h e.symm
      have h2 : ¬ p.1 = other := fun e => h (e.symm.trans hp)
      unfold find
      rw [List.find?_cons_of_neg _ (by simpa using h1),
        List.find?_cons_of_neg _ (by simpa using h2)]
    · rw [if_neg hp]
      unfold find at ih ⊢
      by_cases ho : p.1 = other
      · rw [List.find?_cons_of_pos _ (by simpa using ho),
          List.find?_cons_of_pos _ (by simpa using ho)]
      · rw [List.find?_cons_of_neg _ (by simpa using ho),
          List.find?_cons_of_neg _ (by simpa using ho)]
        exact ih

theorem SetCachedData_other (self : Source) (uid other : UUID) (data : Option Nat) (s : Int)
    (h : other ≠ uid) :
    find (SetCachedData self uid data s).2.Cache other = find self.Cache other := by
  unfold SetCachedData
  cases data with
  | none => rfl
  | some d =>
    simp only
    cases find self.Cache uid with
    | none => exact find_assign_other _ _ _ _ h
    | some it =>
      simp only
      split_ifs
      · exact find_assign_other _ _ _ _ h
      · rfl

theorem SetCachedData_monotone (self : Source) (uid key : UUID) (data : Option Nat) (s : Int)
    (e : CacheEntry) (h : find self.Cache key = some e) :
    ∃ e2, find (SetCachedData self uid data s).2.Cache key = some e2 ∧
      e.SequenceNumber ≤ e2.SequenceNumber := by
  by_cases hk : key = uid
  · subst hk
    unfold SetCachedData
    cases data with
    | none => exact ⟨e, h, le_refl _⟩
    | some d =>
      simp only [h]
      split_ifs with hlt
      · exact ⟨⟨d, s⟩, find_assign_self _ _ _, le_of_lt hlt⟩
      · exact ⟨e, h, le_refl _⟩
  · rw [SetCachedData_other self uid key data s hk]
    exact ⟨e, h, le_refl _⟩

theorem runCalls_monotone (calls : List SetCall) (self : Source) (key : UUID)
    (e : CacheEntry) (h : find self.Cache key = some e) :
    ∃ e2, find (runCalls calls self).Cache key = some e2 ∧
      e.SequenceNumber ≤ e2.SequenceNumber := by
  induction calls generalizing self e with
  | nil => exact ⟨e, h, le_refl _⟩
  | cons c rest ih =>
    obtain ⟨e1, h1, hle1⟩ := SetCachedData_monotone self c.uid key c.data c.sequenceNumber e h
    obtain ⟨e2, h2, hle2⟩ := ih _ e1 h1
    exact ⟨e2, h2, le_trans hle1 hle2⟩

theorem runCalls_other (calls : List SetCall) (self : Source) (key : UUID)
    (h : ∀ c ∈ calls, c.uid ≠ key) :
    find (runCalls calls self).Cache key = find self.Cache key := by
  induction calls generalizing self with
  | nil => rfl
  | cons c rest ih =>
    have hc : key ≠ c.uid := fun e => h c (List.mem_cons_self _ _) e.symm
    have hrest : ∀ c2 ∈ rest, c2.uid ≠ key := fun c2 hc2 => h c2 (List.mem_cons_of_mem _ hc2)
    have := ih (SetCachedData self c.uid c.data c.sequenceNumber).2 hrest
    unfold runCalls at this ⊢
    rw [List.foldl_cons, this]
    exact SetCachedData_other self c.uid key c.data c.sequenceNumber hc

/-- C29. The geometry cache keeps only the newest data. `SetCachedData(uid, data, s)`
returns true exactly when `data` is not null and either `uid` has no entry or the
sequence number stored for it is strictly less than `s`, and then the entry of `uid` is
`(data, s)`; when it returns false the source object is what it was; the entries of the
other uids are what they were. Hence, over any sequence of calls of `SetCachedData`, the
sequence number stored for a uid, which is also what `GetCachedDataSequenceNumber`
returns for it, never decreases, and the entry of a uid that no call names is never
changed. -/
theorem SetCachedData_keeps_newest (self : Source) (uid : UUID) (data : Option Nat)
    (s : Int) :
    ((SetCachedData self uid data s).1 = true ↔
      data ≠ none ∧ (find self.Cache uid = none ∨
        ∃ it, find self.Cache uid = some it ∧ it.SequenceNumber < s)) ∧
    ((SetCachedData self uid data s).1 = true →
      ∃ d, data = some d ∧ find (SetCachedData self uid data s).2.Cache uid = some ⟨d, s⟩) ∧
    ((SetCachedData self uid data s).1 = false → (SetCachedData self uid data s).2 = self) ∧
    (∀ other : UUID, other ≠ uid →
      find (SetCachedData self uid data s).2.Cache other = find self.Cache other) ∧
    (∀ (calls : List SetCall) (key : UUID) (e : CacheEntry), find self.Cache key = some e →
      ∃ e2, find (runCalls calls self).Cache key = some e2 ∧
        e.SequenceNumber ≤ e2.SequenceNumber ∧
        GetCachedDataSequenceNumber self key = e.SequenceNumber ∧
        GetCachedDataSequenceNumber (runCalls calls self) key = e2.SequenceNumber) ∧
    (∀ (calls : List SetCall) (key : UUID), (∀ c ∈ calls, c.uid ≠ key) →
      find (runCalls calls self).Cache key = find self.Cache key) := by
  refine ⟨?_, ?_, ?_, ?_, ?_, ?_⟩
  · unfold SetCachedData
    cases data with
    | none => simp
    | some d =>
      cases hf : find self.Cache uid with
      | none => simp
      | some it =>
        simp only
        split_ifs with hlt
        · simp [hlt]
        · simp [hlt]
  · unfold SetCachedData
    cases data with
    | none => simp
    | some d =>
      cases hf : find self.Cache uid with
      | none =>
        intro _
        exact ⟨d, rfl, find_assign_self _ _ _⟩
      | some it =>
        simp only
        split_ifs with hlt
        · intro _
          exact ⟨d, rfl, find_assign_self _ _ _⟩
        · simp
  · unfold SetCachedData
    cases data with
    | none => simp
    | some d =>
      cases hf : find self.Cache uid with
      | none => simp
      | some it =>
        simp only
        split_ifs with hlt
        · simp
        · simp
  · intro other h
    exact SetCachedData_other self uid other data s h
  · intro calls key e h
    obtain ⟨e2, h2, hle⟩ := runCalls_monotone calls self key e h
    refine ⟨e2, h2, hle, ?_, ?_⟩
    · unfold GetCachedDataSequenceNumber
      rw [h]
    · unfold GetCachedDataSequenceNumber
      rw [h2]
  · intro calls key h
    exact runCalls_other calls self key h

/-- Witness of C29: a newer data object for the cached UUID of the sample is stored. -/
theorem SetCachedData_keeps_newest_witness :
    ∃ d, some 11 = some d ∧
      find (SetCachedData sampleSource "block-a" (some 11) 6).2.Cache "block-a" =
        some ⟨d, 6⟩ :=
  (SetCachedData_keeps_newest sampleSource "block-a" (some 11) 6).2.1 (by decide)

/-- The cache on a sample: an older and an equal sequence number are refused and leave
the source object as it is, a newer one replaces the entry and releases the old data, a
null data object is refused. -/
theorem SetCachedData_sample :
    SetCachedData sampleSource "block-a" (some 11) 4 = (false, sampleSource) ∧
    SetCachedData sampleSource "block-a" (some 11) 5 = (false, sampleSource) ∧
    SetCachedData sampleSource "block-a" none 9 = (false, sampleSource) ∧
    SetCachedData sampleSource "block-a" (some 11) 6 =
      (true, ⟨[("block-a", ⟨11, 6⟩)],
        [ReferenceCall.UnRegister 10, ReferenceCall.Register 11]⟩) ∧
    SetCachedData sampleSource "block-b" (some 12) 0 =
      (true, ⟨[("block-a", ⟨10, 5⟩), ("block-b", ⟨12, 0⟩)], [ReferenceCall.Register 12]⟩) ∧
    GetCachedDataSequenceNumber sampleSource "block-b" = -1 := by
  decide

end vtkResourceMultiBlockSource

/-! ## The operator `AddMaterial` -/

namespace AddMaterial

/-- The two checks at the start of `operateInternal` fail before any property is set:
without a model among the associated entities, or with component and content lists of
different sizes, the operator fails and the entities are what they were. -/
theorem operateInternal_early_failure (describe : Material → String) (spec : Specification)
    (entities : List EntityRef) (log : Logger)
    (h : entities = [] ∨ (∃ m rest, entities = m :: rest ∧ m.isModel = false) ∨
      spec.component.length ≠ spec.content.length) :
    (operateInternal describe spec entities log).1.outcome = Outcome.OPERATION_FAILED ∧
    (operateInternal describe spec entities log).2.1 = entities := by
  unfold operateInternal
  cases entities with
  | nil => exact ⟨rfl, rfl⟩
  | cons model others =>
    simp only
    cases hm : model.isModel with
    | false => exact ⟨rfl, rfl⟩
    | true =>
      have hsz : spec.component.length ≠ spec.content.length := by
        rcases h with h | ⟨m, rest, h1, h2⟩ | h
        · cases h
        · injection h1 with h1 _
          rw [h1, h2] at hm
          cases hm
        · exact h
      simp only [Bool.not_true, Bool.false_eq_true, if_false]
      rw [if_pos hsz]
      exact ⟨rfl, rfl⟩

/-- C30, the failing input. The model holds the material `steel`, added by the operator
itself to a model without properties; the operator is run again for a material of the
same name, with the label `s2` and the color blue. It returns `OPERATION_FAILED`, since a
description of `steel` is stored, but not with the properties it found: the label and the
color stored for `steel` are the new ones and the list `materials` names `steel`
twice. -/
theorem operateInternal_duplicate_fails_after_mutation :
    operateInternal sampleDescribe sampleSteel [sampleModel] [] =
      (⟨Outcome.OPERATION_SUCCEEDED, [0]⟩, sampleModelWithSteel, []) ∧
    sampleModelWithSteel =
      [⟨true,
        ⟨[("steel", ["st"]), ("No Cell Material", ["No Cell Material"]),
          ("materials", ["No Cell Material", "steel"]),
          ("material_descriptions", ["material ( steel ) density g/cm^3"])],
         [("steel", [1, 0, 0, 1]), ("No Cell Material", [1, 1, 1, 1])]⟩⟩] ∧
    operateInternal sampleDescribe sampleSteelAgain sampleModelWithSteel [] =
      (⟨Outcome.OPERATION_FAILED, []⟩,
       [⟨true,
        ⟨[("steel", ["s2"]), ("No Cell Material", ["No Cell Material"]),
          ("materials", ["No Cell Material", "steel", "steel"]),
          ("material_descriptions", ["material ( steel ) density g/cm^3"])],
         [("steel", [0, 0, 1, 1]), ("No Cell Material", [1, 1, 1, 1])]⟩⟩],
       []) ∧
    (operateInternal sampleDescribe sampleSteelAgain sampleModelWithSteel []).2.1 ≠
      sampleModelWithSteel := by
  decide

end AddMaterial
